import Mathlib

/-!
# Snapshot comparison in `tools/caffe.cpp`

A shallow embedding of the `collect` / `compare` debugging extension of
`tools/caffe.cpp`: the binary32 arithmetic used by `compareFiles`, the
loader `Data<float>::loadFromFile`, `compareFiles` itself and `processFile`,
the snapshot files and their names, file discovery, `LayerDictionary`, and
the runs of `collect` and `compare` over a net.

`real_t` and `DataType` are `float`.  Expressions of type `float` are
evaluated in binary32 with round-to-nearest-even (`FLT_EVAL_METHOD == 0`, as
on x86-64), and the host is little-endian.
-/

namespace Caffe

/-! ## binary32 samples -/

/-- A `float`: the sign bit and the 31 remaining bits, that is
`biased exponent * 2^23 + fraction`. -/
structure Sample where
  neg : Bool
  mag : Fin 2147483648
  deriving DecidableEq, Repr

namespace Sample

/-- Magnitude bits of infinity, `0x7F800000`. -/
def infMag : Nat := 2139095040

/-- The `float` with the given `uint32_t` representation. -/
def ofBits (n : Nat) : Sample :=
  ⟨decide (2147483648 ≤ n % 4294967296), ⟨n % 2147483648, Nat.mod_lt _ (by decide)⟩⟩

/-- The `uint32_t` representation, `*(CastType *) &a`. -/
def bits (a : Sample) : Nat :=
  (if a.neg then 2147483648 else 0) + a.mag.val

/-- The value is a NaN. -/
def isNaN (a : Sample) : Bool := decide (infMag < a.mag.val)

/-- The value is an infinity. -/
def isInf (a : Sample) : Bool := decide (a.mag.val = infMag)

/-- The magnitude of a finite value, counted in units of `2^-149`. -/
def scaled (a : Sample) : Nat :=
  let e := a.mag.val / 8388608
  let f := a.mag.val % 8388608
  if e = 0 then f else (8388608 + f) * 2 ^ (e - 1)

/-- Nearest integer to `p / q`, ties to even. -/
def rne (p q : Nat) : Nat :=
  let n := p / q
  let r := p % q
  if 2 * r < q then n
  else if q < 2 * r then n + 1
  else if n % 2 = 0 then n else n + 1

/-- One step of the exponent search: raise `e` by `b` when `p / q` still has
at least `e + b + 24` bits. -/
def expoStep (p q e b : Nat) : Nat :=
  if q * 2 ^ (e + b) * 8388608 ≤ p then e + b else e

/-- The largest `e ≤ 255` with `q * 2^e * 2^23 ≤ p`, and `0` when there is
none: the exponent at which `p / q` has a 24-bit significand. -/
def expoOf (p q : Nat) : Nat :=
  expoStep p q (expoStep p q (expoStep p q (expoStep p q (expoStep p q
    (expoStep p q (expoStep p q (expoStep p q 0 128) 64) 32) 16) 8) 4) 2) 1

/-- Magnitude bits of the binary32 value nearest to `p / q` units of `2^-149`
(round to nearest, ties to even, overflow to infinity). -/
def roundMag (p q : Nat) : Nat :=
  let e := expoOf p q
  min (e * 8388608 + rne p (q * 2 ^ e)) infMag

/-- The sample with sign `s` and the magnitude nearest to `p / q` units. -/
def rounded (s : Bool) (p q : Nat) : Sample :=
  ⟨s, ⟨roundMag p q, Nat.lt_of_le_of_lt (Nat.min_le_right _ _) (by decide)⟩⟩

/-- The NaN produced by an invalid operation. -/
def nan : Sample := ofBits 0x7FC00000

/-- Infinity with sign `s`. -/
def inf (s : Bool) : Sample := ⟨s, ⟨infMag, by decide⟩⟩

/-- Zero with sign `s`. -/
def zeroS (s : Bool) : Sample := ⟨s, ⟨0, by decide⟩⟩

/-- The `float` that the integer constant `0` converts to. -/
def zero : Sample := ofBits 0

/-- The `float` that the integer constant `1` converts to. -/
def one : Sample := ofBits 0x3F800000

/-- The value `-1`, which `compareFiles` stores in `maxDiff` before the loop. -/
def negOne : Sample := ofBits 0xBF800000

/-- `fabs`. -/
def fabs (a : Sample) : Sample := ⟨false, a.mag⟩

/-- Conversion of a `float` to `bool`, as in `aAbs && ...`: true unless the
value is a zero. -/
def truthy (a : Sample) : Bool := decide (a.mag.val ≠ 0)

/-- Order key of a value that is not a NaN; both zeros have key `0`. -/
def key (a : Sample) : Int := if a.neg then - (a.mag.val : Int) else (a.mag.val : Int)

/-- `a < b`. -/
def flt (a b : Sample) : Bool := !a.isNaN && !b.isNaN && decide (a.key < b.key)

/-- `a == b`. -/
def feq (a b : Sample) : Bool := !a.isNaN && !b.isNaN && decide (a.key = b.key)

/-- `a >= b`. -/
def fge (a b : Sample) : Bool := !a.isNaN && !b.isNaN && decide (b.key ≤ a.key)

/-- `a * b`. -/
def fmul (a b : Sample) : Sample :=
  if a.isNaN || b.isNaN then nan
  else if a.isInf then (if b.mag.val = 0 then nan else inf (xor a.neg b.neg))
  else if b.isInf then (if a.mag.val = 0 then nan else inf (xor a.neg b.neg))
  else rounded (xor a.neg b.neg) (a.scaled * b.scaled) (2 ^ 149)

/-- `a / b`. -/
def fdiv (a b : Sample) : Sample :=
  if a.isNaN || b.isNaN then nan
  else if a.isInf then (if b.isInf then nan else inf (xor a.neg b.neg))
  else if b.isInf then zeroS (xor a.neg b.neg)
  else if b.mag.val = 0 then (if a.mag.val = 0 then nan else inf (xor a.neg b.neg))
  else rounded (xor a.neg b.neg) (a.scaled * 2 ^ 149) b.scaled

/-- Signed value of a finite sample in units of `2^-149`. -/
def signedScaled (a : Sample) : Int :=
  if a.neg then - (a.scaled : Int) else (a.scaled : Int)

/-- `a + b`. -/
def fadd (a b : Sample) : Sample :=
  if a.isNaN || b.isNaN then nan
  else if a.isInf then (if b.isInf && (a.neg != b.neg) then nan else a)
  else if b.isInf then b
  else
    let s := a.signedScaled + b.signedScaled
    if s = 0 then zeroS (a.neg && b.neg)
    else rounded (decide (s < 0)) s.natAbs 1

/-- Unary minus. -/
def fneg (a : Sample) : Sample := ⟨!a.neg, a.mag⟩

/-- `a - b`. -/
def fsub (a b : Sample) : Sample := fadd a (fneg b)

end Sample

open Sample

/-- The per-element difference of `compareFiles`:
`((a * b) < 0) ? 1 : (aAbs && (aAbs < bAbs)) ? bAbs / aAbs - 1 :
 (bAbs && (bAbs < aAbs)) ? aAbs / bAbs - 1 : (aAbs == bAbs) ? 0 : 1`. -/
def diffOf (a b : Sample) : Sample :=
  let aAbs := fabs a
  let bAbs := fabs b
  if flt (fmul a b) zero then one
  else if truthy aAbs && flt aAbs bAbs then fsub (fdiv bAbs aAbs) one
  else if truthy bAbs && flt bAbs aAbs then fsub (fdiv aAbs bAbs) one
  else if feq aAbs bAbs then zero else one

/-! ## Files -/

/-- A byte of a file. -/
abbrev Byte := Fin 256

/-- The part of the file system the tool touches. For every path:
`content`, the bytes a reader of the path gets (`none` when the path does not
open as a file to read); `creatable`, whether `fopen(path, "w+t")` and
`fopen(path, "w+b")` succeed; `directory`, whether the path names a
directory, which `fopen(path, "rb")` opens, for which `ftell` at the end
reports a size that no array can have (`LONG_MAX` on Linux), and from which
`fread` delivers no byte; and `fileOf`, the file that the path names: two
paths name the same file exactly when their `fileOf` agree, however they are
spelled. -/
structure FileSys where
  content : String → Option (List Byte)
  creatable : String → Bool
  directory : String → Bool
  fileOf : String → String

/-- The file system after `path` has been created or truncated and `bytes`
written to it; the bytes are then read through every path that names the
same file. -/
def FileSys.write (fs : FileSys) (path : String) (bytes : List Byte) : FileSys :=
  { fs with content := fun p =>
      if fs.fileOf p = fs.fileOf path then some bytes else fs.content p }

/-- How a call ends that can throw: `thrown` when an exception leaves it,
`returned` with what it returns otherwise. Nothing in the tool catches the
exception of a failed `new`, so a call that has thrown ends the run. -/
inductive Outcome (α : Type) where
  | thrown
  | returned (value : α)
  deriving DecidableEq, Repr

/-- The four bytes of a `float` in memory. -/
def encodeSample (a : Sample) : List Byte :=
  [Fin.ofNat (a.bits % 256), Fin.ofNat (a.bits / 256 % 256),
   Fin.ofNat (a.bits / 65536 % 256), Fin.ofNat (a.bits / 16777216 % 256)]

/-- The bytes of an array of `float`. -/
def encodeSamples (l : List Sample) : List Byte := l.flatMap encodeSample

/-- The `float`s stored in a byte buffer; a last group of fewer than four
bytes is no element. -/
def decodeSamples : List Byte → List Sample
  | b0 :: b1 :: b2 :: b3 :: rest =>
      ofBits (b0.val + 256 * b1.val + 65536 * b2.val + 16777216 * b3.val) :: decodeSamples rest
  | _ => []

/-- The class `Data<float>` after a successful load: `dataPointer` holds the
`dataSize` elements. -/
structure Data where
  dataPointer : List Sample
  deriving DecidableEq, Repr

/-- `Data::getDataSize`. The member `dataSize` is an `int`; the count is kept
as a natural number, which it is for files of fewer than `2^33` bytes. -/
def Data.getDataSize (d : Data) : Nat := d.dataPointer.length

/-- The `int` that the conversion of the value `n` gives (32 bits, two's
complement), as in `dataSize = fileSize / sizeof(DataType)`. -/
def toInt (n : Nat) : Int := ((n + 2147483648) % 4294967296 : Nat) - 2147483648

/-- `Data<float>::loadFromFile`. `returned none` is the `false` return, for a
path that `fopen` does not open; for a file the whole content is read and
`dataSize = fileSize / sizeof(float)`; for a directory `fopen` succeeds,
`ftell` is not checked against anything but `-1`, and `new DataType[fileSize]`
throws `std::bad_array_new_length`. The array is taken to fit the memory for
every file. -/
def Data.loadFromFile (fs : FileSys) (fileName : String) : Outcome (Option Data) :=
  match fs.content fileName with
  | some bytes => .returned (some ⟨decodeSamples bytes⟩)
  | none => if fs.directory fileName then .thrown else .returned none

/-! ## `compareFiles` -/

/-- The arguments of one `fprintf(file, "%i;%08X;%08X;%g;%g;%g\n", ...)`. -/
structure DiffRecord where
  index : Nat
  aBits : Nat
  bBits : Nat
  diff : Sample
  a : Sample
  b : Sample
  deriving DecidableEq, Repr

/-- A call of `Log::log`, by its format string and arguments. -/
inductive LogLine where
  | loadCpuFailed (cpuFileName : String)
  | loadGpuFailed (gpuFileName : String)
  | lengthNotEqual
  | failed (fileName layerType : String)
  | success (fileName layerType : String)
  | mismatch (fileName layerType : String) (maxDiff : Sample) (diffCounter : Nat)
  deriving DecidableEq, Repr

/-- The variables the loop of `compareFiles` updates: `maxDiff`, `diffCounter`
and the lines printed to the diff file so far.  `maxDiff` is a `double` that
only ever holds `-1` or a converted `float`, so it is kept as a `Sample`. -/
structure LoopState where
  maxDiff : Sample
  diffCounter : Nat
  written : List DiffRecord
  deriving DecidableEq, Repr

/-- Element `i` of a loaded array. -/
def elemAt (dataPointer : List Sample) (i : Nat) : Sample := dataPointer.getD i zero

/-- One iteration of the loop of `compareFiles`; `file` tells whether the diff
file is open. -/
def compareStep (file : Bool) (epsilon : Sample) (cpuDataPointer gpuDataPointer : List Sample)
    (st : LoopState) (i : Nat) : LoopState :=
  let a := elemAt cpuDataPointer i
  let b := elemAt gpuDataPointer i
  let diff := diffOf a b
  let st1 : LoopState :=
    if file && fge diff epsilon then
      { st with diffCounter := st.diffCounter + 1,
                written := st.written ++ [⟨i, a.bits, b.bits, diff, a, b⟩] }
    else st
  if flt st1.maxDiff diff then { st1 with maxDiff := diff } else st1

/-- What a successful `compareFiles` leaves: the two output parameters, the
lines printed to the diff file (`none` when no diff file was open) and the file
system afterwards. -/
structure CompareOut where
  maxDiff : Sample
  diffCounter : Nat
  records : Option (List DiffRecord)
  fs : FileSys

/-- The statements `FILE *file = NULL; if(diffFileName) file = fopen(diffFileName, "w+t");`:
the name of the diff file when it has been opened, `none` when `file` stays
null. -/
def openDiffFile (fs : FileSys) : Option String → Option String
  | none => none
  | some name => if fs.creatable name then some name else none

/-- `compareFiles`.  `.error` is the `false` return, with the line it logged;
the output parameters are then left untouched.  An exception thrown by a load
leaves the call.  `fmt` is the text `fprintf` produces for one record,
`epsilon` is `(float) FLAGS_epsilon`, and `diffFileName = none` is the null
pointer.  Element counts are `int`s, so the model covers files of fewer than
`2^31` elements. -/
def compareFiles (fmt : DiffRecord → List Byte) (fs : FileSys) (epsilon : Sample)
    (diffFileName : Option String) (cpuFileName gpuFileName : String) :
    Outcome (Except LogLine CompareOut) :=
  match Data.loadFromFile fs cpuFileName with
  | .thrown => .thrown
  | .returned none => .returned (.error (.loadCpuFailed cpuFileName))
  | .returned (some cpuData) =>
    match Data.loadFromFile fs gpuFileName with
    | .thrown => .thrown
    | .returned none => .returned (.error (.loadGpuFailed gpuFileName))
    | .returned (some gpuData) =>
      if gpuData.getDataSize ≠ cpuData.getDataSize then .returned (.error .lengthNotEqual)
      else
        let file := openDiffFile fs diffFileName
        let st := (List.range gpuData.getDataSize).foldl
          (compareStep file.isSome epsilon cpuData.dataPointer gpuData.dataPointer)
          ⟨negOne, 0, []⟩
        match file with
        | some name =>
            .returned (.ok ⟨st.maxDiff, st.diffCounter, some st.written,
                 fs.write name (st.written.flatMap fmt)⟩)
        | none => .returned (.ok ⟨st.maxDiff, st.diffCounter, none, fs⟩)

/-! ## `processFile` and the loop of `compare` -/

/-- The value of `FILENAME_MAX` in `<stdio.h>` (glibc). -/
def FILENAME_MAX : Nat := 4096

/-- The string `snprintf(buf, size, ...)` leaves in `buf` when the formatted
text is `s`: at most `size - 1` characters. -/
def snprintf (size : Nat) (s : String) : String := ⟨s.data.take (size - 1)⟩

/-- The flags the comparison reads: `FLAGS_collect_dir`,
`FLAGS_compare_output_dir` and `(float) FLAGS_epsilon`. -/
structure Flags where
  collect_dir : String
  compare_output_dir : String
  epsilon : Sample

/-- `cpuFileName` of `processFile`. -/
def cpuFileName (flags : Flags) (fileName : String) : String :=
  snprintf FILENAME_MAX ("./" ++ flags.collect_dir ++ "/REF" ++ fileName)

/-- `gpuFileName` of `processFile`. -/
def gpuFileName (flags : Flags) (fileName : String) : String :=
  snprintf FILENAME_MAX ("./" ++ flags.compare_output_dir ++ "/TAR" ++ fileName)

/-- `diffFileName` of `processFile`. -/
def diffFileName (flags : Flags) (fileName : String) : String :=
  snprintf FILENAME_MAX ("./" ++ flags.compare_output_dir ++ "/OUT" ++ fileName)

/-- What the report leaves: the file system, the lines logged, in order, and
whether an exception has ended it. -/
structure Report where
  fs : FileSys
  log : List LogLine
  thrown : Bool

/-- `processFile`. When `compareFiles` throws, nothing has been logged and the
exception leaves `processFile` as well. -/
def processFile (fmt : DiffRecord → List Byte) (flags : Flags) (fs : FileSys)
    (fileName layerType : String) : Report :=
  match compareFiles fmt fs flags.epsilon (some (diffFileName flags fileName))
      (cpuFileName flags fileName) (gpuFileName flags fileName) with
  | .thrown => ⟨fs, [], true⟩
  | .returned (.error line) => ⟨fs, [line, .failed fileName layerType], false⟩
  | .returned (.ok out) =>
    if out.diffCounter = 0 then ⟨out.fs, [.success fileName layerType], false⟩
    else ⟨out.fs, [.mismatch fileName layerType out.maxDiff out.diffCounter], false⟩

/-- The last loop of `compare`: `processFile` for every name of the file list,
in order, with the label `getLayerType` gives it; an exception ends the loop
before the names that are left. -/
def compareLoop (fmt : DiffRecord → List Byte) (flags : Flags) (getLayerType : String → String) :
    FileSys → List String → Report
  | fs, [] => ⟨fs, [], false⟩
  | fs, fileName :: rest =>
    let r := processFile fmt flags fs fileName (getLayerType fileName)
    if r.thrown then r
    else
      let r2 := compareLoop fmt flags getLayerType r.1 rest
      ⟨r2.1, r.2 ++ r2.2, r2.thrown⟩

/-! ## Vocabulary of the statements -/

/-- The `maxDiff` output of a call, when it returned `true`. -/
def maxDiffOf : Outcome (Except LogLine CompareOut) → Option Sample
  | .returned (.ok out) => some out.maxDiff
  | _ => none

/-- The `diffCounter` output of a call, when it returned `true`. -/
def counterOf : Outcome (Except LogLine CompareOut) → Option Nat
  | .returned (.ok out) => some out.diffCounter
  | _ => none

/-- The lines a call printed to the diff file, when it returned `true`. -/
def recordsOf : Outcome (Except LogLine CompareOut) → Option (Option (List DiffRecord))
  | .returned (.ok out) => some out.records
  | _ => none

/-- The file system a call leaves. -/
def fsAfter (fs : FileSys) : Outcome (Except LogLine CompareOut) → FileSys
  | .returned (.ok out) => out.fs
  | _ => fs

/-- The call returned `false`. -/
def failed : Outcome (Except LogLine CompareOut) → Bool
  | .returned (.error _) => true
  | _ => false

/-- The difference at element position `i` of two loaded arrays. -/
def diffAt (cpu gpu : List Sample) (i : Nat) : Sample :=
  diffOf (elemAt cpu i) (elemAt gpu i)

/-- Position `i` has `diff >= epsilon`. -/
def isMismatch (epsilon : Sample) (cpu gpu : List Sample) (i : Nat) : Bool :=
  fge (diffAt cpu gpu i) epsilon

/-- The positions below `n` with `diff >= epsilon`, in increasing order. -/
def mismatches (epsilon : Sample) (cpu gpu : List Sample) (n : Nat) : List Nat :=
  (List.range n).filter (isMismatch epsilon cpu gpu)

/-- The diff-file line of position `i`: index, the two bit patterns, the
difference and the two values. -/
def recordAt (cpu gpu : List Sample) (i : Nat) : DiffRecord :=
  ⟨i, (elemAt cpu i).bits, (elemAt gpu i).bits, diffAt cpu gpu i, elemAt cpu i, elemAt gpu i⟩

/-- The update `if(maxDiff < diff) maxDiff = diff`. -/
def runMax (m d : Sample) : Sample := if flt m d then d else m

/-- The piecewise definition of the difference, following the words of the
specification (section 4.6), in binary32 arithmetic. -/
def specDiff (a b : Sample) : Sample :=
  let aAbs := fabs a
  let bAbs := fabs b
  if (a.neg != b.neg) && !feq a zero && !feq b zero then one
  else if flt zero aAbs && flt aAbs bAbs then fsub (fdiv bAbs aAbs) one
  else if flt zero bAbs && flt bAbs aAbs then fsub (fdiv aAbs bAbs) one
  else if feq aAbs bAbs then zero
  else one

/-- A sample that is neither negative nor a NaN. -/
def NonNeg (d : Sample) : Prop := d.neg = false ∧ d.mag.val ≤ infMag

/-- Invariant of the exponent search with a window of `w` candidates left. -/
def ExpoInv (p q e w : Nat) : Prop :=
  (e = 0 ∨ q * 2 ^ e * 8388608 ≤ p) ∧ (e + w = 256 ∨ p < q * 2 ^ (e + w) * 8388608)

/-! ## Sample data -/

/-- The reference weights `[1.0, 2.0, 3.0, 4.0]`. -/
def refWeights : List Sample :=
  [ofBits 0x3F800000, ofBits 0x40000000, ofBits 0x40400000, ofBits 0x40800000]

/-- The target weights `[1.0, 2.0, 3.0, 4.1]`. -/
def tarWeights : List Sample :=
  [ofBits 0x3F800000, ofBits 0x40000000, ofBits 0x40400000, ofBits 0x40833333]

/-- The sample `1e-30f`. -/
def tiny : Sample := ofBits 0x0DA24260

/-- The sample `-1e-30f`. -/
def negTiny : Sample := ofBits 0x8DA24260

/-- Flags with directories `ref` and `out` and `epsilon = 1e-3`. -/
def sampleFlags : Flags := ⟨"ref", "out", ofBits 0x3A83126F⟩

/-- The components of a path, between its slashes, without the empty ones
and without `.`; `cur` is the component begun so far. -/
def pathParts : List Char → List Char → List (List Char)
  | cur, [] => if cur = [] ∨ cur = ['.'] then [] else [cur]
  | cur, c :: cs =>
    if c = '/' then
      if cur = [] ∨ cur = ['.'] then pathParts [] cs else cur :: pathParts [] cs
    else pathParts (cur ++ [c]) cs

/-- The file a path names in the sample file systems, which hold no links
and whose paths hold no `..`: the components of the path, from the root for
a path that begins with a slash and from the current directory, written `.`,
otherwise. So `out/x`, `./out/x` and `././out//x` name the same file. -/
def resolvePath (path : String) : String :=
  ⟨(if path.data.head? = some '/' then [] else ['.']) ++
    (pathParts [] path.data).flatMap (fun part => '/' :: part)⟩

/-- A file system with `REFWght0000.bin` and `TARWght0000.bin` holding the
weights above, `REFWght0001.bin` and `TARWght0001.bin` both holding `[1.0]`,
`REFBwrd0000.bin` without a target file, two empty files `REFGrad0000.bin`
and `TARGrad0000.bin`, `REFFwrd0000.bin` and `TARFwrd0000.bin` both holding
one NaN, and a directory `REFOld` in the reference directory; `canCreate`
tells whether files can be created. -/
def sampleFs (canCreate : Bool) : FileSys where
  content := fun path =>
    let p := resolvePath path
    if p = "./ref/REFWght0000.bin" then some (encodeSamples refWeights)
    else if p = "./out/TARWght0000.bin" then some (encodeSamples tarWeights)
    else if p = "./ref/REFWght0001.bin" then some (encodeSamples [one])
    else if p = "./out/TARWght0001.bin" then some (encodeSamples [one])
    else if p = "./ref/REFBwrd0000.bin" then some (encodeSamples [one])
    else if p = "./ref/REFGrad0000.bin" then some []
    else if p = "./out/TARGrad0000.bin" then some []
    else if p = "./ref/REFFwrd0000.bin" then some (encodeSamples [nan])
    else if p = "./out/TARFwrd0000.bin" then some (encodeSamples [nan])
    else none
  creatable := fun _ => canCreate
  directory := fun path => decide (resolvePath path = "./ref/REFOld")
  fileOf := resolvePath

/-- A rendering of a diff-file line that keeps only a line break. -/
def lineBreak (_ : DiffRecord) : List Byte := [10]

/-! ## The snapshot codec -/

/-- `saveToFile`: the return value and the file system afterwards. `data` is
the array behind the pointer, `fwrite path n` is the number of bytes `fwrite`
gets written when handed `n` bytes for `path`. -/
def saveToFile (fwrite : String → Nat → Nat) (fs : FileSys) (file_path : String) (_id : Int)
    (data : List Sample) (count : Nat) : Bool × FileSys :=
  if fs.creatable file_path then
    let bytesToWrite := count * 4
    let written := (encodeSamples (data.take count)).take (fwrite file_path bytesToWrite)
    (decide (written.length = bytesToWrite), fs.write file_path written)
  else (false, fs)

/-- `loadFromFile`: the return value and the array behind `data` afterwards.
The bytes `fread` delivers replace the first bytes of the array, also when
they are fewer than asked for; a directory opens and delivers none. -/
def loadFromFile (fs : FileSys) (file_path : String) (_id : Int) (data : List Sample)
    (count : Nat) : Bool × List Sample :=
  match fs.content file_path with
  | none => (fs.directory file_path && decide (count = 0), data)
  | some bytes =>
    let bytesToRead := count * 4
    let read := bytes.take bytesToRead
    (decide (read.length = bytesToRead),
      decodeSamples (read ++ (encodeSamples data).drop read.length))

/-! ## File names -/

/-- The decimal digit of `d % 10`. -/
def digitChar (d : Nat) : Char := Char.ofNat (48 + d % 10)

/-- The decimal digits of `n`, most significant first (`fuel` bounds their number). -/
def decimal : Nat → Nat → List Char
  | 0, _ => []
  | fuel + 1, n => if n < 10 then [digitChar n] else decimal fuel (n / 10) ++ [digitChar n]

/-- The four digits of `n % 10000`. -/
def fourDigits (n : Nat) : List Char :=
  [digitChar (n / 1000), digitChar (n / 100), digitChar (n / 10), digitChar n]

/-- The text `printf` produces for `%04i`: at least four characters, padded
with zeros after the sign. -/
def printf04i (id : Int) : List Char :=
  if 0 ≤ id then
    if id < 10000 then fourDigits id.toNat else decimal (id.toNat + 1) id.toNat
  else if -1000 < id then
    ['-', digitChar (id.natAbs / 100), digitChar (id.natAbs / 10), digitChar id.natAbs]
  else '-' :: decimal (id.natAbs + 1) id.natAbs

/-- `getFileName`: the string left in `file_name`. -/
def getFileName (is_tar : Bool) (name : String) (id : Int) : String :=
  snprintf FILENAME_MAX ((if is_tar then "TAR" else "REF") ++ name ++ ⟨printf04i id⟩ ++ ".bin")

/-- `getBinFilePath`: the string left in `file_path`. -/
def getBinFilePath (flags : Flags) (name : String) : String :=
  snprintf FILENAME_MAX (flags.collect_dir ++ "/" ++ name)

/-- A file system with `./a.bin` of 5 bytes, `./b.bin` of 7 bytes and
`./c.bin` of 8 bytes. -/
def oddFs : FileSys where
  content := fun path =>
    let p := resolvePath path
    if p = "./a.bin" then some [0, 0, 128, 63, 7]
    else if p = "./b.bin" then some [0, 0, 0, 64, 1, 2, 3]
    else if p = "./c.bin" then some [0, 0, 128, 63, 0, 0, 0, 64]
    else none
  creatable := fun _ => true
  directory := fun _ => false
  fileOf := resolvePath

/-- The string at `&name[3]`: a file name without its first three characters. -/
def canonicalKey (name : String) : String := ⟨name.data.drop 3⟩

/-! ## File discovery -/

/-- The test `!strncmp(dirEntry->d_name, "REF", 3)` of `findFiles`. -/
def isReference (name : String) : Bool := name.data.take 3 == ['R', 'E', 'F']

/-- The order `a <= b` of `std::string`: lexicographic on the character
codes, a proper beginning of a string coming before the string. -/
def nameLe : List Char → List Char → Bool
  | [], _ => true
  | _ :: _, [] => false
  | a :: as, b :: bs =>
    if a.toNat < b.toNat then true
    else if b.toNat < a.toNat then false
    else nameLe as bs

/-- The order of `nameLe` as a relation on strings. -/
def NameLe (a b : String) : Prop := nameLe a.data b.data = true

instance : DecidableRel NameLe := fun a b => inferInstanceAs (Decidable (nameLe a.data b.data = true))

/-- `FileList::findFiles` (the `readdir` branch): the file list afterwards.
`entries` are the names `readdir` delivers, in its order, and `none` stands
for a directory that cannot be opened. -/
def FileList.findFiles (entries : Option (List String)) : List String :=
  match entries with
  | none => []
  | some names => List.insertionSort NameLe ((names.filter isReference).map canonicalKey)

/-! ## The layer dictionary -/

/-- Whitespace as `operator>>` skips it: space, tab, line feed, vertical tab,
form feed and carriage return. -/
def isSpace (c : Char) : Bool := c.toNat = 32 || (9 ≤ c.toNat && c.toNat ≤ 13)

/-- The whitespace-delimited tokens of a text; `cur` is the token begun so far. -/
def splitTokens : List Char → List Char → List String
  | cur, [] => if cur = [] then [] else [⟨cur⟩]
  | cur, c :: cs =>
    if isSpace c then
      if cur = [] then splitTokens [] cs else ⟨cur⟩ :: splitTokens [] cs
    else splitTokens (cur ++ [c]) cs

/-- The tokens taken two at a time, as `infoFile >> key >> name` reads them; a
last token without a partner ends the loop. -/
def tokenPairs : List String → List (String × String)
  | key :: name :: rest => (key, name) :: tokenPairs rest
  | _ => []

/-- The `std::string` made from `s.c_str()`: `s` up to its first NUL character. -/
def cstr (s : String) : String := ⟨s.data.takeWhile (fun c => c.toNat ≠ 0)⟩

/-- The class `LayerDictionary`: the map `layersInfo`. -/
structure LayerDictionary where
  layersInfo : String → Option String

/-- The assignment `layersInfo[key] = value`. -/
def LayerDictionary.set (d : LayerDictionary) (key value : String) : LayerDictionary :=
  ⟨fun k => if k = key then some value else d.layersInfo k⟩

/-- The loop of the constructor over the pairs read:
`layersInfo[(key + ".bin").c_str()] = name`. -/
def LayerDictionary.ofPairs (pairs : List (String × String)) : LayerDictionary :=
  pairs.foldl (fun d p => d.set (cstr (p.1 ++ ".bin")) p.2) ⟨fun _ => none⟩

/-- The dictionary built from the text of an info file. -/
def LayerDictionary.ofText (text : List Char) : LayerDictionary :=
  LayerDictionary.ofPairs (tokenPairs (splitTokens [] text))

/-- The characters of a file. -/
def textOfBytes (bytes : List Byte) : List Char := bytes.map fun b => Char.ofNat b.val

/-- The bytes of a text. -/
def bytesOfText (text : List Char) : List Byte := text.map fun c => Fin.ofNat c.toNat

/-- The constructor `LayerDictionary(dictionaryFilePath)`; a file that cannot
be opened gives the empty dictionary. -/
def LayerDictionary.load (fs : FileSys) (dictionaryFilePath : String) : LayerDictionary :=
  match fs.content dictionaryFilePath with
  | none => LayerDictionary.ofText []
  | some bytes => LayerDictionary.ofText (textOfBytes bytes)

/-- `getLayerType`: the label returned and the dictionary afterwards
(`operator[]` enters an empty label for a name it does not hold). -/
def LayerDictionary.getLayerType (d : LayerDictionary) (fileName : String) :
    String × LayerDictionary :=
  match d.layersInfo fileName with
  | some label => (label, d)
  | none => ("", d.set fileName "")

/-- The label `getLayerType` returns. -/
def LayerDictionary.label (d : LayerDictionary) (fileName : String) : String :=
  (d.getLayerType fileName).1

/-- The pairs whose key, followed by `.bin` and cut at a NUL character, is `q`. -/
def pairsFor (q : String) (pairs : List (String × String)) : List (String × String) :=
  pairs.filter fun p => decide (cstr (p.1 ++ ".bin") = q)

/-- The line `fprintf(infoFile, "Fwrd%04i: %s\n", i, type)` of `collect`
(`role` is `Fwrd` or `Bwrd`). -/
def collectInfoLine (role : String) (i : Nat) (type : String) : List Char :=
  role.data ++ printf04i i ++ [':', ' '] ++ type.data ++ ['\n']

/-- The line `fprintf(infoFile, "Fwrd%04i %s\n", i, type)` of `compare`. -/
def compareInfoLine (role : String) (i : Nat) (type : String) : List Char :=
  role.data ++ printf04i i ++ [' '] ++ type.data ++ ['\n']

/-- The text of an info file: the lines of the forward loop over the layers
`0 .. N-1`, then those of the backward loop over `N-1 .. 0`. -/
def infoText (line : String → Nat → String → List Char) (types : List String) : List Char :=
  ((List.range types.length).flatMap fun i => line "Fwrd" i (types.getD i "")) ++
    ((List.range types.length).reverse.flatMap fun i => line "Bwrd" i (types.getD i ""))

/-- The key token of a line of `compare`: the role and the digits of the index. -/
def keyToken (role : String) (i : Nat) : String := ⟨role.data ++ printf04i i⟩

/-- A token: a string that is not empty and holds no whitespace. -/
def Plain (s : String) : Prop :=
  s.data ≠ [] ∧ ∀ c, c ∈ s.data → isSpace c = false

/-! ## The net and the capture runs -/

/-- A `Blob<float>`: its values and its gradient, `count` elements each. -/
structure Blob where
  data : List Sample
  diff : List Sample
  deriving DecidableEq, Repr

/-- `Blob::count`. -/
def Blob.count (b : Blob) : Nat := b.data.length

/-- The blobs of a net, by number. -/
abbrev Blobs := Nat → Blob

/-- The blobs after the values of blob `t` have been overwritten. -/
def setData (blobs : Blobs) (t : Nat) (data : List Sample) : Blobs :=
  fun j => if j = t then { blobs j with data := data } else blobs j

/-- The blobs after the gradient of blob `t` has been overwritten. -/
def setDiff (blobs : Blobs) (t : Nat) (diff : List Sample) : Blobs :=
  fun j => if j = t then { blobs j with diff := diff } else blobs j

/-- What the tool uses of the `Net<float>` that the library builds from
`FLAGS_model`: the type of each layer (`layers[i]->type()`, one entry per
layer), the blob numbers in `top_vecs[i]` and `bottom_vecs[i]`,
`bottom_need_backward[i]`, the blob numbers of `params`, and the effect of
`layers[i]->Forward` and `layers[i]->Backward` on the blobs. -/
structure Net where
  layerTypes : List String
  top_vecs : Nat → List Nat
  bottom_vecs : Nat → List Nat
  bottom_need_backward : Nat → List Bool
  params : List Nat
  Forward : Nat → Blobs → Blobs
  Backward : Nat → Blobs → Blobs

/-- The blob `top_vecs[i][0]`. -/
def firstTop (net : Net) (i : Nat) : Nat := (net.top_vecs i).headD 0

/-- The blob `bottom_vecs[i][0]`. -/
def firstBottom (net : Net) (i : Nat) : Nat := (net.bottom_vecs i).headD 0

/-- The test `bottom_need_backward[i].size() > 0 && bottom_need_backward[i][0]`. -/
def needsGradient (net : Net) (i : Nat) : Bool :=
  match net.bottom_need_backward i with
  | [] => false
  | b :: _ => b

/-- Every vector the loops index at `[0]` has an element: each layer has an
output, and each layer whose first input needs a gradient has an input. -/
def wellFormed (net : Net) : Bool :=
  (List.range net.layerTypes.length).all fun i =>
    !(net.top_vecs i).isEmpty && (!needsGradient net i || !(net.bottom_vecs i).isEmpty)

/-- What the run finds around it: whether the tool was compiled with
`DETERMINISTIC`, whether `get_gpus` found a device, how many bytes `fwrite`
gets written, and the names `readdir` delivers for `FLAGS_collect_dir` when
`findFiles` runs (`none` when `opendir` fails). -/
structure Env where
  DETERMINISTIC : Bool
  use_gpu : Bool
  fwrite : String → Nat → Nat
  entries : Option (List String)

/-- A call of `saveToFile`: its path, the array, and the count. -/
structure SaveCall where
  path : String
  id : Int
  data : List Sample
  count : Nat
  deriving DecidableEq, Repr

/-- The state of a run: the blobs, the file system, the calls of `saveToFile`
so far, and the text printed to `infoFile` so far. -/
structure RunState where
  blobs : Blobs
  fs : FileSys
  saved : List SaveCall
  info : List Char

/-- The file system after the calls of `saveToFile` in `calls`, in order. -/
def replay (env : Env) (fs : FileSys) (calls : List SaveCall) : FileSys :=
  calls.foldl (fun fs c => (saveToFile env.fwrite fs c.path c.id c.data c.count).2) fs

/-- One call of `saveToFile` during a run (its return value is not used). -/
def saveStep (env : Env) (st : RunState) (call : SaveCall) : RunState :=
  { st with
    fs := (saveToFile env.fwrite st.fs call.path call.id call.data call.count).2
    saved := st.saved ++ [call] }

/-- The loop `caffe_set(params[i]->count(), 0.f, params[i]->mutable_cpu_diff())`. -/
def zeroParamDiffs (net : Net) (blobs : Blobs) : Blobs :=
  net.params.foldl (fun b p => setDiff b p (List.replicate (b p).count zero)) blobs

/-- The forward snapshot of layer `i` that `collect` saves, given the blobs
right after the forward step. -/
def collectFwrdCall (flags : Flags) (net : Net) (i : Nat) (blobs : Blobs) : SaveCall :=
  ⟨flags.collect_dir ++ "/" ++ getFileName false "Fwrd" i, i,
    (blobs (firstTop net i)).data, (blobs (firstTop net i)).count⟩

/-- The backward snapshot of layer `i` that `collect` saves, given the blobs
right after the backward step. -/
def collectBwrdCall (flags : Flags) (net : Net) (i : Nat) (blobs : Blobs) : SaveCall :=
  ⟨flags.collect_dir ++ "/" ++ getFileName false "Bwrd" i, i,
    (blobs (firstBottom net i)).diff, (blobs (firstBottom net i)).count⟩

/-- The gradient snapshot of parameter `p` that `collect` saves. -/
def collectGradCall (flags : Flags) (net : Net) (p : Nat) (blobs : Blobs) : SaveCall :=
  ⟨flags.collect_dir ++ "/" ++ getFileName false "Grad" p, p,
    (blobs (net.params.getD p 0)).diff, (blobs (net.params.getD p 0)).count⟩

/-- The value snapshot of parameter `p` that `collect` saves. -/
def collectWghtCall (flags : Flags) (net : Net) (p : Nat) (blobs : Blobs) : SaveCall :=
  ⟨flags.collect_dir ++ "/" ++ getFileName false "Wght" p, p,
    (blobs (net.params.getD p 0)).data, (blobs (net.params.getD p 0)).count⟩

/-- One round of the forward loop of `collect`. -/
def collectForwardStep (env : Env) (flags : Flags) (net : Net) (st : RunState) (i : Nat) :
    RunState :=
  let blobs := net.Forward i st.blobs
  saveStep env
    { st with
      blobs := blobs
      info := st.info ++ collectInfoLine "Fwrd" i (net.layerTypes.getD i "") }
    (collectFwrdCall flags net i blobs)

/-- One round of the backward loop of `collect`. -/
def collectBackwardStep (env : Env) (flags : Flags) (net : Net) (st : RunState) (i : Nat) :
    RunState :=
  let blobs := net.Backward i st.blobs
  let st1 : RunState :=
    { st with
      blobs := blobs
      info := st.info ++ collectInfoLine "Bwrd" i (net.layerTypes.getD i "") }
  if needsGradient net i then saveStep env st1 (collectBwrdCall flags net i blobs) else st1

/-- One round of the last loop of `collect`. -/
def collectParamStep (env : Env) (flags : Flags) (net : Net) (st : RunState) (p : Nat) :
    RunState :=
  saveStep env (saveStep env st (collectGradCall flags net p st.blobs))
    (collectWghtCall flags net p st.blobs)

/-- The info file of `collect`. -/
def collectInfoPath (env : Env) (flags : Flags) : String :=
  flags.collect_dir ++ "/" ++ (if env.use_gpu then "GPUInfo.txt" else "CPUInfo.txt")

/-- `collect`: the return value and the state at the end. `none` stands for a
run that does not come to an end in a defined way: `infoFile` is null and is
printed to, or an empty vector is indexed. The net is the one built from
`FLAGS_model`, `blobs` are its blobs at the start. -/
def collect (env : Env) (flags : Flags) (net : Net) (blobs : Blobs) (fs : FileSys) :
    Option (Int × RunState) :=
  if !env.DETERMINISTIC then some (1, ⟨blobs, fs, [], []⟩)
  else if !fs.creatable (collectInfoPath env flags) || !wellFormed net then none
  else
    let st0 : RunState :=
      ⟨zeroParamDiffs net blobs, fs.write (collectInfoPath env flags) [], [], []⟩
    let st1 := (List.range net.layerTypes.length).foldl (collectForwardStep env flags net) st0
    let st2 := (List.range net.layerTypes.length).reverse.foldl
      (collectBackwardStep env flags net) st1
    let st3 := (List.range net.params.length).foldl (collectParamStep env flags net) st2
    some (0, { st3 with fs := st3.fs.write (collectInfoPath env flags) (bytesOfText st3.info) })

/-- The blobs after the steps `f` of the layers in `l`, in order. -/
def runLayers (f : Nat → Blobs → Blobs) (l : List Nat) (blobs : Blobs) : Blobs :=
  l.foldl (fun b i => f i b) blobs

/-- The calls of a loop over the layers in `l`: round `i` changes the blobs
by `f i` and then makes the calls `g i`. -/
def loopCalls (f : Nat → Blobs → Blobs) (g : Nat → Blobs → List SaveCall) :
    List Nat → Blobs → List SaveCall
  | [], _ => []
  | i :: l, blobs => g i (f i blobs) ++ loopCalls f g l (f i blobs)

/-- A net of two layers: `Data` fills blob 0 with `[1.0, 2.0]`, `Scale` has
blob 0 as input and blob 1 as output and the parameter blob 2; its forward
step copies the input to the output, its backward step copies the gradient of
the output to the input and sets the gradient of the parameter to `[1.0]`. -/
def sampleNet : Net where
  layerTypes := ["Data", "Scale"]
  top_vecs := fun i => if i = 0 then [0] else [1]
  bottom_vecs := fun i => if i = 0 then [] else [0]
  bottom_need_backward := fun i => if i = 0 then [] else [true]
  params := [2]
  Forward := fun i b =>
    if i = 0 then setData b 0 [ofBits 0x3F800000, ofBits 0x40000000]
    else setData b 1 (b 0).data
  Backward := fun i b =>
    if i = 0 then b else setDiff (setDiff b 0 (b 1).diff) 2 [ofBits 0x3F800000]

/-- Blobs at the start: blob 2 holds the weight `[3.0]`, all gradients of
blobs 0 and 1 are zero. -/
def sampleBlobs : Blobs := fun j =>
  if j = 2 then ⟨[ofBits 0x40400000], [ofBits 0x40000000]⟩ else ⟨[zero, zero], [zero, zero]⟩

/-- The listing of the reference directory after `collect` has run on
`sampleNet`, in the order `readdir` happens to deliver. -/
def sampleEntries : List String :=
  [".", "..", "REFWght0000.bin", "CPUInfo.txt", "REFFwrd0001.bin", "REFBwrd0001.bin",
    "REFGrad0000.bin", "REFFwrd0000.bin"]

/-- A run on the CPU of a tool built with `DETERMINISTIC`, with a `fwrite`
that writes everything. -/
def cpuEnv : Env := ⟨true, false, fun _ n => n, some sampleEntries⟩

/-- The same run on a GPU. -/
def gpuEnv : Env := ⟨true, true, fun _ n => n, some sampleEntries⟩

/-- A run on the CPU for which `readdir` delivers, besides a snapshot of
weights, the directory `REFOld` of the reference directory. -/
def dirEnv : Env := ⟨true, false, fun _ n => n, some [".", "REFWght0000.bin", "REFOld"]⟩

/-- A file system that holds no file and lets every file be created. -/
def freshFs : FileSys := ⟨fun _ => none, fun _ => true, fun _ => false, resolvePath⟩

/-- The file system at the end of a run, `fs` itself when there is none. -/
def fsOfRun (fs : FileSys) : Option (Int × RunState) → FileSys
  | some r => r.2.fs
  | none => fs

/-! ## The comparison run -/

/-- The path of the snapshot of layer `i` that `compare` writes after the
forward step: `FLAGS_compare_output_dir + "/" + getFileName(true, "Fwrd", i)`. -/
def tarPath (flags : Flags) (role : String) (i : Nat) : String :=
  flags.compare_output_dir ++ "/" ++ getFileName true role i

/-- The path of the reference snapshot that `compare` reads back:
`getBinFilePath` of `getFileName(false, role, i)`. -/
def refPath (flags : Flags) (role : String) (i : Nat) : String :=
  getBinFilePath flags (getFileName false role i)

/-- One round of the forward loop of `compare`: the info line, the forward
step, the output saved, and the output overwritten by what `loadFromFile`
delivers for the reference snapshot (its return value is not used). -/
def compareForwardStep (env : Env) (flags : Flags) (net : Net) (st : RunState) (i : Nat) :
    RunState :=
  let blobs := net.Forward i st.blobs
  let top := blobs (firstTop net i)
  let st1 := saveStep env
    { st with
      blobs := blobs
      info := st.info ++ compareInfoLine "Fwrd" i (net.layerTypes.getD i "") }
    ⟨tarPath flags "Fwrd" i, i, top.data, top.count⟩
  { st1 with
    blobs := setData blobs (firstTop net i)
      (loadFromFile st1.fs (refPath flags "Fwrd" i) i top.data top.count).2 }

/-- One round of the backward loop of `compare`. -/
def compareBackwardStep (env : Env) (flags : Flags) (net : Net) (st : RunState) (i : Nat) :
    RunState :=
  let blobs := net.Backward i st.blobs
  let st0 : RunState :=
    { st with
      blobs := blobs
      info := st.info ++ compareInfoLine "Bwrd" i (net.layerTypes.getD i "") }
  if needsGradient net i then
    let bottom := blobs (firstBottom net i)
    let st1 := saveStep env st0 ⟨tarPath flags "Bwrd" i, i, bottom.diff, bottom.count⟩
    { st1 with
      blobs := setDiff blobs (firstBottom net i)
        (loadFromFile st1.fs (refPath flags "Bwrd" i) i bottom.diff bottom.count).2 }
  else st0

/-- One round of the last capture loop of `compare`. -/
def compareParamStep (env : Env) (flags : Flags) (net : Net) (st : RunState) (p : Nat) :
    RunState :=
  let blob := st.blobs (net.params.getD p 0)
  saveStep env (saveStep env st ⟨tarPath flags "Grad" p, p, blob.diff, blob.count⟩)
    ⟨tarPath flags "Wght" p, p, blob.data, blob.count⟩

/-- The info file that `compare` writes during the capture. -/
def compareInfoPath (env : Env) (flags : Flags) : String :=
  flags.compare_output_dir ++ "/" ++ (if env.use_gpu then "GPUInfo.txt" else "CPUInfo.txt")

/-- The file that `compare` hands to `LayerDictionary` after the capture. -/
def compareDictionaryPath (flags : Flags) : String :=
  flags.compare_output_dir ++ "/" ++ "CPUInfo.txt"

/-- The capture of `compare`, up to `fclose(infoFile)`. -/
def compareCapture (env : Env) (flags : Flags) (net : Net) (blobs : Blobs) (fs : FileSys) :
    RunState :=
  let st0 : RunState :=
    ⟨zeroParamDiffs net blobs, fs.write (compareInfoPath env flags) [], [], []⟩
  let st1 := (List.range net.layerTypes.length).foldl (compareForwardStep env flags net) st0
  let st2 := (List.range net.layerTypes.length).reverse.foldl
    (compareBackwardStep env flags net) st1
  let st3 := (List.range net.params.length).foldl (compareParamStep env flags net) st2
  { st3 with fs := st3.fs.write (compareInfoPath env flags) (bytesOfText st3.info) }

/-- The end of a run of `compare`: the return value (`none` when an exception
of the report has ended the run instead), the state, the dictionary that was
loaded, and the log. -/
structure CompareRun where
  ret : Option Int
  state : RunState
  dictionary : LayerDictionary
  log : List LogLine

/-- `compare`. `none` stands for a run that does not come to an end in a
defined way, as for `collect`. The look-ups of `getLayerType` during the
report change no label of the dictionary, so the report loop takes the labels
of the dictionary as it was loaded. -/
def compare (fmt : DiffRecord → List Byte) (env : Env) (flags : Flags) (net : Net)
    (blobs : Blobs) (fs : FileSys) : Option CompareRun :=
  if !env.DETERMINISTIC then some ⟨some 1, ⟨blobs, fs, [], []⟩, ⟨fun _ => none⟩, []⟩
  else if !fs.creatable (compareInfoPath env flags) || !wellFormed net then none
  else
    let st := compareCapture env flags net blobs fs
    let fileList := FileList.findFiles env.entries
    let layerDictionary := LayerDictionary.load st.fs (compareDictionaryPath flags)
    let r := compareLoop fmt flags layerDictionary.label st.fs fileList
    some ⟨if r.thrown then none else some 0, { st with fs := r.1 }, layerDictionary, r.2⟩

/-- The blobs at the beginning of round `k` of the forward loop, following
the description of a comparison run that finds its reference snapshots in
`fs`: the gradients of the parameters are zeroed, and each earlier layer has
had its forward step, after which `loadFromFile` has read the reference
snapshot `REFFwrd<i>` over the first output of the layer. -/
def referenceFed (flags : Flags) (net : Net) (fs : FileSys) (blobs : Blobs) : Nat → Blobs
  | 0 => zeroParamDiffs net blobs
  | k + 1 =>
    setData (net.Forward k (referenceFed flags net fs blobs k)) ((net.top_vecs k).headD 0)
      (loadFromFile fs (getBinFilePath flags (getFileName false "Fwrd" k)) k
        (net.Forward k (referenceFed flags net fs blobs k) ((net.top_vecs k).headD 0)).data
        (net.Forward k (referenceFed flags net fs blobs k)
          ((net.top_vecs k).headD 0)).data.length).2

/-- A net of three layers. `Data` has the outputs 0 and 1 and fills them with
`[1.0, 2.0]` and `[5.0]`. `Eltwise` has the inputs 1 and 0, of which the
second needs a gradient, and the outputs 2 and 3: its forward step puts the
values of blob 0 plus one into blob 2 and the values of blob 1 into blob 3,
and then overwrites blob 0 with `[7.0, 7.0]`; its backward step copies the
gradient of blob 2 to blob 0 and then overwrites the gradient of blob 2 with
`[9.0, 9.0]`. `Loss` has the inputs 2 and 3, of which the first needs a
gradient, the output 4 and the parameter blob 5: its forward step puts the
first value of blob 2 into blob 4, its backward step sets the gradients of
blob 2 and blob 3 to `[0.5, 0.5]` and `[0.25]` and adds one to the gradient of
the parameter. -/
def branchNet : Net where
  layerTypes := ["Data", "Eltwise", "Loss"]
  top_vecs := fun i => if i = 0 then [0, 1] else if i = 1 then [2, 3] else [4]
  bottom_vecs := fun i => if i = 0 then [] else if i = 1 then [1, 0] else [2, 3]
  bottom_need_backward := fun i =>
    if i = 0 then [] else if i = 1 then [false, true] else [true, false]
  params := [5]
  Forward := fun i b =>
    if i = 0 then setData (setData b 0 [ofBits 0x3F800000, ofBits 0x40000000]) 1 [ofBits 0x40A00000]
    else if i = 1 then
      setData (setData (setData b 2 ((b 0).data.map fun x => fadd x one)) 3 (b 1).data) 0
        [ofBits 0x40E00000, ofBits 0x40E00000]
    else setData b 4 ((b 2).data.take 1)
  Backward := fun i b =>
    if i = 0 then b
    else if i = 1 then setDiff (setDiff b 0 (b 2).diff) 2 [ofBits 0x41100000, ofBits 0x41100000]
    else
      setDiff (setDiff (setDiff b 2 [ofBits 0x3F000000, ofBits 0x3F000000]) 3 [ofBits 0x3E800000])
        5 ((b 5).diff.map fun x => fadd x one)

/-- Blobs at the start: the parameter blob 5 holds the weight `[3.0]` and a
gradient `[2.0]` left from before; the other blobs are empty. -/
def branchBlobs : Blobs := fun j =>
  if j = 5 then ⟨[ofBits 0x40400000], [ofBits 0x40000000]⟩ else ⟨[], []⟩

/-- A reference directory for `branchNet` in which `REFFwrd0000.bin` holds
`[10.0, 20.0, 30.0]`, `REFFwrd0001.bin` is missing and `REFFwrd0002.bin` holds
`[4.0]`. -/
def branchRefFs : FileSys :=
  (freshFs.write "ref/REFFwrd0000.bin"
    (encodeSamples [ofBits 0x41200000, ofBits 0x41A00000, ofBits 0x41F00000])).write
    "ref/REFFwrd0002.bin" (encodeSamples [ofBits 0x40800000])

/-- The layers `n - 1, ..., i`, in the order of the backward loop over `n` layers. -/
def layersFrom (n i : Nat) : List Nat := (List.range' i (n - i)).reverse

/-- The blobs of `collect` after the forward steps of the layers `0 .. k - 1`. -/
def afterForward (net : Net) (blobs : Blobs) (k : Nat) : Blobs :=
  runLayers net.Forward (List.range k) (zeroParamDiffs net blobs)

/-- The blobs of `collect` after all forward steps and the backward steps of
the layers `N - 1, ..., i`. -/
def afterBackward (net : Net) (blobs : Blobs) (i : Nat) : Blobs :=
  runLayers net.Backward (layersFrom net.layerTypes.length i)
    (afterForward net blobs net.layerTypes.length)

/-- The reference directory that a `collect` run on the CPU leaves for
`sampleNet`. -/
def sampleRefFs : FileSys :=
  fsOfRun freshFs (collect cpuEnv sampleFlags sampleNet sampleBlobs freshFs)

/-- The roles and indices of the snapshots of a `collect` run on `n` layers,
of which those with `need` save a gradient, and `p` parameters, in the order
of the run. -/
def collectKeys (n p : Nat) (need : Nat → Bool) : List (String × Nat) :=
  (List.range n).map (fun i => ("Fwrd", i)) ++
    ((List.range n).reverse.filter need).map (fun i => ("Bwrd", i)) ++
    (List.range p).flatMap (fun q => [("Grad", q), ("Wght", q)])

/-- The path of the reference snapshot with role `k.1` and index `k.2`. -/
def collectPath (flags : Flags) (k : String × Nat) : String :=
  flags.collect_dir ++ "/" ++ getFileName false k.1 k.2

/-! # Theorems -/

/-! ## Rounding lemmas -/

theorem rne_ge (p q : Nat) : p / q ≤ rne p q := by
  unfold rne
  simp only
  split_ifs <;> omega

theorem expoInv_step {p q e b : Nat} (h : ExpoInv p q e (b + b)) :
    ExpoInv p q (expoStep p q e b) b := by
  unfold expoStep
  obtain ⟨h1, h2⟩ := h
  by_cases hc : q * 2 ^ (e + b) * 8388608 ≤ p
  · rw [if_pos hc]
    refine ⟨Or.inr hc, ?_⟩
    rw [Nat.add_assoc]
    exact h2
  · rw [if_neg hc]
    exact ⟨h1, Or.inr (Nat.lt_of_not_le hc)⟩

theorem expoInv_expoOf (p q : Nat) : ExpoInv p q (expoOf p q) 1 := by
  have h0 : ExpoInv p q 0 (128 + 128) := ⟨Or.inl rfl, Or.inl rfl⟩
  have h1 := expoInv_step (b := 128) h0
  have h2 := expoInv_step (b := 64) h1
  have h3 := expoInv_step (b := 32) h2
  have h4 := expoInv_step (b := 16) h3
  have h5 := expoInv_step (b := 8) h4
  have h6 := expoInv_step (b := 4) h5
  have h7 := expoInv_step (b := 2) h6
  exact expoInv_step (b := 1) h7

theorem roundMag_le_inf (p q : Nat) : roundMag p q ≤ infMag := Nat.min_le_right _ _

/-- A quotient of at least one rounds to at least `1.0f`. -/
theorem roundMag_ge_one {p q : Nat} (hq : 0 < q) (h : q * 2 ^ 149 ≤ p) :
    1065353216 ≤ roundMag p q := by
  obtain ⟨h1, h2⟩ := expoInv_expoOf p q
  have he : 126 ≤ expoOf p q := by
    by_contra hlt
    have hlt : expoOf p q + 1 ≤ 126 := by omega
    rcases h2 with h2 | h2
    · omega
    · have hpow : 2 ^ (expoOf p q + 1) ≤ 2 ^ 126 := Nat.pow_le_pow_right (by decide) hlt
      have : q * 2 ^ (expoOf p q + 1) * 8388608 ≤ q * 2 ^ 126 * 8388608 :=
        Nat.mul_le_mul_right _ (Nat.mul_le_mul_left _ hpow)
      have e149 : q * 2 ^ 126 * 8388608 = q * 2 ^ 149 := by
        rw [Nat.mul_assoc]; congr 1
      omega
  have hlow : q * 2 ^ expoOf p q * 8388608 ≤ p := by
    rcases h1 with h1 | h1
    · omega
    · exact h1
  have hpos : 0 < q * 2 ^ expoOf p q := Nat.mul_pos hq (Nat.pow_pos (by decide))
  have hdiv : 8388608 ≤ p / (q * 2 ^ expoOf p q) := by
    rw [Nat.le_div_iff_mul_le hpos]
    rw [Nat.mul_comm]
    exact hlow
  have hr := rne_ge p (q * 2 ^ expoOf p q)
  unfold roundMag
  simp only [infMag]
  refine Nat.le_min.mpr ⟨?_, by decide⟩
  omega

/-! ## The magnitude of finite samples -/

theorem scaled_mono {a b : Sample} (h : a.mag.val ≤ b.mag.val) : a.scaled ≤ b.scaled := by
  unfold scaled
  simp only
  generalize a.mag.val = m at h
  generalize b.mag.val = n at h
  have hdiv : m / 8388608 ≤ n / 8388608 := Nat.div_le_div_right h
  have hp : ∀ k : Nat, 0 < 2 ^ k := fun k => Nat.pow_pos (by decide)
  by_cases hm : m / 8388608 = 0
  · rw [if_pos hm]
    by_cases hn : n / 8388608 = 0
    · rw [if_pos hn]; omega
    · rw [if_neg hn]
      have h1 : 8388608 + n % 8388608 ≤ (8388608 + n % 8388608) * 2 ^ (n / 8388608 - 1) :=
        Nat.le_mul_of_pos_right _ (hp _)
      have h2 : m % 8388608 < 8388608 := Nat.mod_lt _ (by decide)
      omega
  · have hn : ¬ n / 8388608 = 0 := by omega
    rw [if_neg hm, if_neg hn]
    by_cases heq : m / 8388608 = n / 8388608
    · rw [heq]
      exact Nat.mul_le_mul_right _ (by omega)
    · have hlt : m / 8388608 ≤ n / 8388608 - 1 := by omega
      have h1 : (8388608 + m % 8388608) * 2 ^ (m / 8388608 - 1)
          ≤ (8388608 + 8388608) * 2 ^ (m / 8388608 - 1) :=
        Nat.mul_le_mul_right _ (by have := Nat.mod_lt m (show 0 < 8388608 by decide); omega)
      have h2 : (8388608 + 8388608) * 2 ^ (m / 8388608 - 1) = 8388608 * 2 ^ (m / 8388608) := by
        have : m / 8388608 = (m / 8388608 - 1) + 1 := by omega
        rw [this, Nat.pow_succ]
        simp only [Nat.add_sub_cancel]
        ring
      have h3 : 8388608 * 2 ^ (m / 8388608) ≤ 8388608 * 2 ^ (n / 8388608 - 1) :=
        Nat.mul_le_mul_left _ (Nat.pow_le_pow_right (by decide) hlt)
      have h4 : 8388608 * 2 ^ (n / 8388608 - 1)
          ≤ (8388608 + n % 8388608) * 2 ^ (n / 8388608 - 1) :=
        Nat.mul_le_mul_right _ (by omega)
      omega

theorem scaled_pos {a : Sample} (h : a.mag.val ≠ 0) : 0 < a.scaled := by
  unfold scaled
  simp only
  by_cases hm : a.mag.val / 8388608 = 0
  · rw [if_pos hm]; omega
  · rw [if_neg hm]
    exact Nat.mul_pos (by omega) (Nat.pow_pos (by decide))

theorem scaled_one : one.scaled = 2 ^ 149 := by decide

/-! ## Range of the per-element difference -/

theorem flt_nonneg {x y : Sample} (hx : x.neg = false) (hy : y.neg = false)
    (h : flt x y = true) :
    x.mag.val ≤ infMag ∧ y.mag.val ≤ infMag ∧ x.mag.val < y.mag.val := by
  simp only [flt, isNaN, key, hx, hy, Bool.and_eq_true, Bool.not_eq_true', decide_eq_false_iff_not,
    decide_eq_true_eq, Nat.not_lt] at h
  obtain ⟨⟨h1, h2⟩, h3⟩ := h
  simp only [Bool.false_eq_true, if_false] at h3
  exact ⟨h1, h2, by exact_mod_cast h3⟩

theorem fdiv_ge_one {x y : Sample} (hx : x.neg = false) (hy : y.neg = false)
    (ht : truthy x = true) (h : flt x y = true) :
    (fdiv y x).neg = false ∧ 1065353216 ≤ (fdiv y x).mag.val ∧ (fdiv y x).mag.val ≤ infMag := by
  obtain ⟨h1, h2, h3⟩ := flt_nonneg hx hy h
  have hx0 : x.mag.val ≠ 0 := by simpa [truthy] using ht
  have hyN : y.isNaN = false := by simp [isNaN]; exact h2
  have hxN : x.isNaN = false := by simp [isNaN]; exact h1
  have hxI : x.isInf = false := by simp [isInf]; omega
  unfold fdiv
  simp only [hyN, hxN, Bool.or_self, Bool.false_eq_true, if_false, hxI, hx, hy, Bool.xor_self]
  by_cases hyI : y.isInf = true
  · rw [if_pos hyI]
    decide
  · rw [if_neg hyI, if_neg hx0]
    refine ⟨rfl, ?_, roundMag_le_inf _ _⟩
    exact roundMag_ge_one (scaled_pos hx0) (Nat.mul_le_mul_right _ (scaled_mono (Nat.le_of_lt h3)))

theorem fsub_one_nonNeg {z : Sample} (hneg : z.neg = false) (h1 : 1065353216 ≤ z.mag.val)
    (h2 : z.mag.val ≤ infMag) : NonNeg (fsub z one) := by
  have hzN : z.isNaN = false := by simp [isNaN]; exact h2
  have hs : (2 : Nat) ^ 149 ≤ z.scaled := by
    rw [← scaled_one]
    exact scaled_mono (a := one) h1
  have hone : (fneg one).signedScaled = - ((2 ^ 149 : Nat) : Int) := by decide
  unfold fsub fadd
  have e1 : (fneg one).isNaN = false := by decide
  have e2 : (fneg one).isInf = false := by decide
  have e3 : (fneg one).neg = true := by decide
  simp only [hzN, e1, e2, e3, Bool.or_self, Bool.false_eq_true, if_false, Bool.false_and,
    hneg, Bool.and_true]
  by_cases hzI : z.isInf = true
  · rw [if_pos hzI]
    exact ⟨hneg, h2⟩
  · rw [if_neg hzI]
    have hsz : z.signedScaled = (z.scaled : Int) := by simp [signedScaled, hneg]
    rw [hsz, hone]
    have hge : (0 : Int) ≤ (z.scaled : Int) + -((2 ^ 149 : Nat) : Int) := by
      have : ((2 ^ 149 : Nat) : Int) ≤ (z.scaled : Int) := by exact_mod_cast hs
      omega
    by_cases h0 : (z.scaled : Int) + -((2 ^ 149 : Nat) : Int) = 0
    · simp only [h0, if_true]
      exact ⟨rfl, by decide⟩
    · simp only [h0, if_false]
      refine ⟨?_, roundMag_le_inf _ _⟩
      simp only [rounded, decide_eq_false_iff_not, not_lt]
      exact hge

/-- The difference `compareFiles` computes is never negative and never a NaN. -/
theorem diffOf_nonNeg (a b : Sample) : NonNeg (diffOf a b) := by
  unfold diffOf
  simp only
  split_ifs with h1 h2 h3 h4
  · exact ⟨by decide, by decide⟩
  · simp only [Bool.and_eq_true] at h2
    obtain ⟨ha, hb, hc⟩ := fdiv_ge_one (x := fabs a) (y := fabs b) rfl rfl h2.1 h2.2
    exact fsub_one_nonNeg ha hb hc
  · simp only [Bool.and_eq_true] at h3
    obtain ⟨ha, hb, hc⟩ := fdiv_ge_one (x := fabs b) (y := fabs a) rfl rfl h3.1 h3.2
    exact fsub_one_nonNeg ha hb hc
  · exact ⟨by decide, by decide⟩
  · exact ⟨by decide, by decide⟩

/-! ## Algebra of the per-element difference -/

theorem flt_zero_iff (d : Sample) :
    flt d zero = true ↔ d.isNaN = false ∧ d.neg = true ∧ d.mag.val ≠ 0 := by
  have hz : zero.isNaN = false := by decide
  have hk : zero.key = 0 := by decide
  unfold flt
  rw [hz, hk]
  cases hn : d.neg <;> simp [key, hn]
  omega

theorem fmul_comm (a b : Sample) : fmul a b = fmul b a := by
  unfold fmul
  rw [Bool.or_comm, Bool.xor_comm, Nat.mul_comm]
  by_cases hN : (b.isNaN || a.isNaN) = true
  · simp only [hN, if_true]
  · simp only [hN, if_false]
    by_cases ha : a.isInf = true <;> by_cases hb : b.isInf = true
    · have ha0 : a.mag.val ≠ 0 := by
        simp only [isInf, infMag, decide_eq_true_eq] at ha; omega
      have hb0 : b.mag.val ≠ 0 := by
        simp only [isInf, infMag, decide_eq_true_eq] at hb; omega
      simp only [ha, hb, if_true, ha0, hb0, if_false]
    · simp only [ha, hb, if_true, if_false, Bool.false_eq_true]
    · simp only [ha, hb, if_true, if_false, Bool.false_eq_true]
    · simp only [ha, hb, if_false, Bool.false_eq_true]

theorem flt_asymm {x y : Sample} (h : flt x y = true) : flt y x = false := by
  simp only [flt, Bool.and_eq_true, Bool.not_eq_true', decide_eq_true_eq] at h
  simp only [flt, h.1.1, h.1.2, Bool.not_false, Bool.true_and, decide_eq_false_iff_not]
  omega

theorem flt_irrefl (x : Sample) : flt x x = false := by
  simp [flt]

theorem feq_comm (x y : Sample) : feq x y = feq y x := by
  simp only [feq]
  rw [Bool.and_comm (!x.isNaN) (!y.isNaN)]
  congr 1
  exact decide_eq_decide.mpr eq_comm

theorem fmul_self_not_neg (a : Sample) : flt (fmul a a) zero = false := by
  rw [Bool.eq_false_iff, Ne, flt_zero_iff]
  rintro ⟨_, hneg, _⟩
  unfold fmul at hneg
  simp only [Bool.or_self, Bool.xor_self] at hneg
  split_ifs at hneg <;> simp [nan, ofBits, inf, rounded] at hneg

theorem diffOf_self (a : Sample) : diffOf a a = if a.isNaN then one else zero := by
  unfold diffOf
  simp only [fmul_self_not_neg, flt_irrefl, Bool.and_false, Bool.false_eq_true, if_false]
  have : feq (fabs a) (fabs a) = !a.isNaN := by simp [feq, fabs, isNaN]
  rw [this]
  cases a.isNaN <;> simp

theorem diffOf_comm (a b : Sample) : diffOf a b = diffOf b a := by
  unfold diffOf
  simp only
  rw [fmul_comm b a, feq_comm (fabs b) (fabs a)]
  by_cases h1 : flt (fmul a b) zero = true
  · simp only [h1, if_true]
  · simp only [h1, if_false, Bool.false_eq_true]
    by_cases h2 : flt (fabs a) (fabs b) = true
    · have h3 := flt_asymm h2
      simp only [h2, h3, Bool.and_true, Bool.and_false, Bool.false_eq_true, if_false]
    · have h2 : flt (fabs a) (fabs b) = false := by simpa using h2
      simp only [h2, Bool.and_false, Bool.false_eq_true, if_false]

/-! ## The loop of `compareFiles` -/

theorem compareStep_maxDiff (file : Bool) (eps : Sample) (cpu gpu : List Sample)
    (st : LoopState) (i : Nat) :
    (compareStep file eps cpu gpu st i).maxDiff = runMax st.maxDiff (diffAt cpu gpu i) := by
  unfold compareStep runMax diffAt
  simp only
  split_ifs <;> rfl

theorem compareStep_open (eps : Sample) (cpu gpu : List Sample) (st : LoopState) (i : Nat) :
    (compareStep true eps cpu gpu st i).diffCounter
        = st.diffCounter + (if isMismatch eps cpu gpu i then 1 else 0) ∧
      (compareStep true eps cpu gpu st i).written
        = st.written ++ (if isMismatch eps cpu gpu i then [recordAt cpu gpu i] else []) := by
  unfold compareStep isMismatch recordAt diffAt
  simp only [Bool.true_and]
  split_ifs <;> simp

theorem compareStep_closed (eps : Sample) (cpu gpu : List Sample) (st : LoopState) (i : Nat) :
    (compareStep false eps cpu gpu st i).diffCounter = st.diffCounter ∧
      (compareStep false eps cpu gpu st i).written = st.written := by
  unfold compareStep
  simp only [Bool.false_and, Bool.false_eq_true, if_false]
  split_ifs <;> simp

theorem foldl_maxDiff (file : Bool) (eps : Sample) (cpu gpu : List Sample) (l : List Nat) :
    ∀ st : LoopState, (l.foldl (compareStep file eps cpu gpu) st).maxDiff
      = (l.map (diffAt cpu gpu)).foldl runMax st.maxDiff := by
  induction l with
  | nil => intro st; rfl
  | cons i l ih =>
    intro st
    simp only [List.foldl_cons, List.map_cons]
    rw [ih, compareStep_maxDiff]

theorem foldl_open (eps : Sample) (cpu gpu : List Sample) (l : List Nat) :
    ∀ st : LoopState,
      (l.foldl (compareStep true eps cpu gpu) st).diffCounter
          = st.diffCounter + (l.filter (isMismatch eps cpu gpu)).length ∧
        (l.foldl (compareStep true eps cpu gpu) st).written
          = st.written ++ (l.filter (isMismatch eps cpu gpu)).map (recordAt cpu gpu) := by
  induction l with
  | nil => intro st; simp
  | cons i l ih =>
    intro st
    simp only [List.foldl_cons]
    obtain ⟨h1, h2⟩ := ih (compareStep true eps cpu gpu st i)
    obtain ⟨s1, s2⟩ := compareStep_open eps cpu gpu st i
    rw [h1, h2, s1, s2]
    by_cases hm : isMismatch eps cpu gpu i = true
    · simp [List.filter_cons, hm]; omega
    · simp [List.filter_cons, hm]

theorem foldl_closed (eps : Sample) (cpu gpu : List Sample) (l : List Nat) :
    ∀ st : LoopState,
      (l.foldl (compareStep false eps cpu gpu) st).diffCounter = st.diffCounter ∧
        (l.foldl (compareStep false eps cpu gpu) st).written = st.written := by
  induction l with
  | nil => intro st; simp
  | cons i l ih =>
    intro st
    simp only [List.foldl_cons]
    obtain ⟨h1, h2⟩ := ih (compareStep false eps cpu gpu st i)
    obtain ⟨s1, s2⟩ := compareStep_closed eps cpu gpu st i
    rw [h1, h2, s1, s2]
    exact ⟨rfl, rfl⟩

/-! ## The running maximum -/

theorem NonNeg.notNaN {d : Sample} (h : NonNeg d) : d.isNaN = false := by
  simp only [isNaN, decide_eq_false_iff_not, Nat.not_lt]
  exact h.2

theorem NonNeg.key_nonneg {d : Sample} (h : NonNeg d) : 0 ≤ d.key := by
  simp only [key, h.1, Bool.false_eq_true, if_false]
  omega

theorem runMax_key {m d : Sample} (hm : m.isNaN = false) (hd : d.isNaN = false) :
    (runMax m d).isNaN = false ∧ m.key ≤ (runMax m d).key ∧ d.key ≤ (runMax m d).key ∧
      (runMax m d = m ∨ runMax m d = d) := by
  unfold runMax
  by_cases h : flt m d = true
  · rw [if_pos h]
    simp only [flt, hm, hd, Bool.not_false, Bool.true_and, decide_eq_true_eq] at h
    exact ⟨hd, by omega, by omega, Or.inr rfl⟩
  · rw [if_neg h]
    simp only [flt, hm, hd, Bool.not_false, Bool.true_and, decide_eq_true_eq] at h
    exact ⟨hm, by omega, by omega, Or.inl rfl⟩

theorem foldl_runMax (ds : List Sample) :
    ∀ m : Sample, m.isNaN = false → (∀ d ∈ ds, d.isNaN = false) →
      (ds.foldl runMax m).isNaN = false ∧ m.key ≤ (ds.foldl runMax m).key ∧
        (∀ d ∈ ds, d.key ≤ (ds.foldl runMax m).key) ∧
        (ds.foldl runMax m = m ∨ ds.foldl runMax m ∈ ds) := by
  induction ds with
  | nil => intro m hm _; simp [hm]
  | cons d ds ih =>
    intro m hm hds
    have hd : d.isNaN = false := hds d (List.mem_cons_self _ _)
    obtain ⟨r1, r2, r3, r4⟩ := runMax_key hm hd
    obtain ⟨k1, k2, k3, k4⟩ := ih (runMax m d) r1 (fun x hx => hds x (List.mem_cons_of_mem _ hx))
    simp only [List.foldl_cons]
    refine ⟨k1, by omega, ?_, ?_⟩
    · intro x hx
      rcases List.mem_cons.mp hx with rfl | hx
      · omega
      · exact k3 x hx
    · rcases k4 with k4 | k4
      · rcases r4 with r4 | r4
        · left; rw [k4, r4]
        · right; rw [k4, r4]; exact List.mem_cons_self _ _
      · right; exact List.mem_cons_of_mem _ k4

theorem fge_of_key {x y : Sample} (hx : x.isNaN = false) (hy : y.isNaN = false)
    (h : y.key ≤ x.key) : fge x y = true := by
  simp [fge, hx, hy, h]

/-- The running maximum over the positions below `n`, started at `-1`. -/
theorem maxDiff_range (cpu gpu : List Sample) (n : Nat) (hn : 0 < n) :
    (∃ i, i < n ∧ ((List.range n).map (diffAt cpu gpu)).foldl runMax negOne = diffAt cpu gpu i) ∧
      ∀ i, i < n →
        fge (((List.range n).map (diffAt cpu gpu)).foldl runMax negOne) (diffAt cpu gpu i) = true := by
  have hall : ∀ d ∈ (List.range n).map (diffAt cpu gpu), d.isNaN = false := by
    intro d hd
    obtain ⟨i, _, rfl⟩ := List.mem_map.mp hd
    exact (diffOf_nonNeg _ _).notNaN
  obtain ⟨k1, _, k3, k4⟩ := foldl_runMax _ negOne (by decide) hall
  have hmem : ∀ i, i < n → diffAt cpu gpu i ∈ (List.range n).map (diffAt cpu gpu) :=
    fun i hi => List.mem_map.mpr ⟨i, List.mem_range.mpr hi, rfl⟩
  constructor
  · rcases k4 with k4 | k4
    · exfalso
      have h0 := k3 _ (hmem 0 hn)
      have h1 : 0 ≤ (diffAt cpu gpu 0).key := (diffOf_nonNeg _ _).key_nonneg
      rw [k4] at h0
      have h2 : negOne.key < 0 := by decide
      omega
    · obtain ⟨i, hi, e⟩ := List.mem_map.mp k4
      exact ⟨i, List.mem_range.mp hi, e.symm⟩
  · intro i hi
    exact fge_of_key k1 (diffOf_nonNeg _ _).notNaN (k3 _ (hmem i hi))

/-! ## `compareFiles` on a pair that loads -/

theorem compareFiles_loaded (fmt : DiffRecord → List Byte) (fs : FileSys) (eps : Sample)
    (dfn : Option String) (c g : String) (cpu gpu : Data)
    (hc : Data.loadFromFile fs c = .returned (some cpu))
    (hg : Data.loadFromFile fs g = .returned (some gpu))
    (hlen : cpu.getDataSize = gpu.getDataSize) :
    compareFiles fmt fs eps dfn c g =
      match openDiffFile fs dfn with
      | some name =>
          .returned (.ok
            ⟨((List.range cpu.getDataSize).map (diffAt cpu.dataPointer gpu.dataPointer)).foldl
                  runMax negOne,
               (mismatches eps cpu.dataPointer gpu.dataPointer cpu.getDataSize).length,
               some ((mismatches eps cpu.dataPointer gpu.dataPointer cpu.getDataSize).map
                  (recordAt cpu.dataPointer gpu.dataPointer)),
               fs.write name (((mismatches eps cpu.dataPointer gpu.dataPointer
                  cpu.getDataSize).map (recordAt cpu.dataPointer gpu.dataPointer)).flatMap fmt)⟩)
      | none =>
          .returned (.ok
            ⟨((List.range cpu.getDataSize).map (diffAt cpu.dataPointer gpu.dataPointer)).foldl
                  runMax negOne, 0, none, fs⟩) := by
  unfold compareFiles
  simp only [hc, hg, hlen, ne_eq, not_true_eq_false, if_false]
  cases hopen : openDiffFile fs dfn with
  | none =>
    simp only [Option.isSome_none]
    rw [foldl_maxDiff, (foldl_closed _ _ _ _ _).1]
  | some name =>
    simp only [Option.isSome_some]
    rw [foldl_maxDiff, (foldl_open _ _ _ _ _).1, (foldl_open _ _ _ _ _).2]
    simp [mismatches]

/-! ## Where the code and the piecewise definition agree -/

theorem flt_zero_left (x : Sample) (hx : x.neg = false) :
    flt zero x = (!x.isNaN && truthy x) := by
  have hz : zero.isNaN = false := by decide
  have hk : zero.key = 0 := by decide
  unfold flt
  rw [hz, hk]
  simp only [key, hx, truthy, Bool.not_false, Bool.true_and, Bool.false_eq_true, if_false]
  congr 1
  apply decide_eq_decide.mpr
  omega

theorem truthy_and_flt (x y : Sample) (hx : x.neg = false) :
    (truthy x && flt x y) = (flt zero x && flt x y) := by
  by_cases h : flt x y = true
  · have hN : x.isNaN = false := by
      simp only [flt, Bool.and_eq_true, Bool.not_eq_true'] at h
      exact h.1.1
    rw [flt_zero_left x hx, hN]
    rfl
  · have h : flt x y = false := by simpa using h
    simp only [h, Bool.and_false]

theorem isNaN_nan : nan.isNaN = true := by decide

theorem isNaN_inf (s : Bool) : (inf s).isNaN = false := by cases s <;> decide

theorem isNaN_rounded (s : Bool) (p q : Nat) : (rounded s p q).isNaN = false := by
  simp only [isNaN, rounded, decide_eq_false_iff_not, Nat.not_lt]
  exact roundMag_le_inf p q

theorem scaled_zero {x : Sample} (h : x.mag.val = 0) : x.scaled = 0 := by
  simp [scaled, h]

theorem isInf_ne_zero {x : Sample} (h : x.isInf = true) : x.mag.val ≠ 0 := by
  simp only [isInf, infMag, decide_eq_true_eq] at h
  omega

/-- The test `(a * b) < 0` holds exactly when neither sample is a NaN, the
signs differ, neither is a zero, and the product does not round to zero. -/
theorem fmul_neg_iff (a b : Sample) :
    flt (fmul a b) zero = true ↔
      a.isNaN = false ∧ b.isNaN = false ∧ a.neg ≠ b.neg ∧ a.mag.val ≠ 0 ∧ b.mag.val ≠ 0 ∧
        (fmul a b).mag.val ≠ 0 := by
  rw [flt_zero_iff]
  have hx : ∀ s t : Bool, (s ^^ t) = true ↔ s ≠ t := by decide
  have hr0 : ∀ s : Bool, (rounded s 0 (2 ^ 149)).mag.val = 0 := by
    intro s; cases s <;> decide
  by_cases hNa : a.isNaN = true
  · have hf : fmul a b = nan := by simp [fmul, hNa]
    simp [hf, isNaN_nan, hNa]
  by_cases hNb : b.isNaN = true
  · have hf : fmul a b = nan := by simp [fmul, hNb]
    simp [hf, isNaN_nan, hNb]
  have hNa : a.isNaN = false := by simpa using hNa
  have hNb : b.isNaN = false := by simpa using hNb
  by_cases hIa : a.isInf = true
  · by_cases hb0 : b.mag.val = 0
    · have hf : fmul a b = nan := by simp [fmul, hNa, hNb, hIa, hb0]
      simp [hf, isNaN_nan, hb0]
    · have hf : fmul a b = inf (a.neg ^^ b.neg) := by simp [fmul, hNa, hNb, hIa, hb0]
      have ha0 := isInf_ne_zero hIa
      rw [hf]
      simp only [isNaN_inf, hNa, hNb, true_and, ne_eq, ha0, hb0, not_false_eq_true]
      simp only [inf, infMag, hx]
  by_cases hIb : b.isInf = true
  · by_cases ha0 : a.mag.val = 0
    · have hf : fmul a b = nan := by simp [fmul, hNa, hNb, hIa, hIb, ha0]
      simp [hf, isNaN_nan, ha0]
    · have hf : fmul a b = inf (a.neg ^^ b.neg) := by simp [fmul, hNa, hNb, hIa, hIb, ha0]
      have hb0 := isInf_ne_zero hIb
      rw [hf]
      simp only [isNaN_inf, hNa, hNb, true_and, ne_eq, ha0, hb0, not_false_eq_true]
      simp only [inf, infMag, hx]
  have hf : fmul a b = rounded (a.neg ^^ b.neg) (a.scaled * b.scaled) (2 ^ 149) := by
    simp [fmul, hNa, hNb, hIa, hIb]
  rw [hf]
  simp only [isNaN_rounded, hNa, hNb, true_and]
  constructor
  · rintro ⟨h1, h2⟩
    refine ⟨(hx _ _).mp h1, ?_, ?_, h2⟩
    · intro h0
      rw [scaled_zero h0, Nat.zero_mul] at h2
      exact h2 (hr0 _)
    · intro h0
      rw [scaled_zero h0, Nat.mul_zero] at h2
      exact h2 (hr0 _)
  · rintro ⟨h1, _, _, h2⟩
    exact ⟨(hx _ _).mpr h1, h2⟩

theorem feq_zero_iff (x : Sample) : feq x zero = true ↔ x.isNaN = false ∧ x.mag.val = 0 := by
  have hz : zero.isNaN = false := by decide
  have hk : zero.key = 0 := by decide
  unfold feq
  rw [hz, hk]
  cases hn : x.neg <;> simp [key, hn]

theorem isNaN_fabs (a : Sample) : (fabs a).isNaN = a.isNaN := rfl

theorem flt_nan {x y : Sample} (h : x.isNaN = true ∨ y.isNaN = true) : flt x y = false := by
  rcases h with h | h <;> simp [flt, h]

theorem feq_nan {x y : Sample} (h : x.isNaN = true ∨ y.isNaN = true) : feq x y = false := by
  rcases h with h | h <;> simp [feq, h]

/-- Apart from a product that underflows to zero, the code computes the
piecewise definition of the specification. -/
theorem diffOf_eq_specDiff (a b : Sample)
    (h : ¬ (a.isNaN = false ∧ b.isNaN = false ∧ a.neg ≠ b.neg ∧ a.mag.val ≠ 0 ∧
      b.mag.val ≠ 0 ∧ (fmul a b).mag.val = 0)) :
    diffOf a b = specDiff a b := by
  unfold diffOf specDiff
  simp only
  rw [truthy_and_flt (fabs a) (fabs b) rfl, truthy_and_flt (fabs b) (fabs a) rfl]
  by_cases c1 : flt (fmul a b) zero = true
  · obtain ⟨hNa, hNb, hs, ha, hb, _⟩ := (fmul_neg_iff a b).mp c1
    have fa : feq a zero = false := by
      rw [Bool.eq_false_iff, Ne, feq_zero_iff]; exact fun hh => ha hh.2
    have fb : feq b zero = false := by
      rw [Bool.eq_false_iff, Ne, feq_zero_iff]; exact fun hh => hb hh.2
    have hs2 : (a.neg != b.neg) = true := by simpa using hs
    simp only [c1, fa, fb, hs2, Bool.not_false, Bool.and_true, if_true]
  · rw [if_neg c1]
    by_cases s1 : ((a.neg != b.neg) && !feq a zero && !feq b zero) = true
    · rw [if_pos s1]
      simp only [Bool.and_eq_true, Bool.not_eq_true', bne_iff_ne, ne_eq] at s1
      obtain ⟨⟨hs, fa⟩, fb⟩ := s1
      by_cases hN : a.isNaN = true ∨ b.isNaN = true
      · have hN1 : (fabs a).isNaN = true ∨ (fabs b).isNaN = true := hN
        have hN2 : (fabs b).isNaN = true ∨ (fabs a).isNaN = true := hN.symm
        simp only [flt_nan hN1, flt_nan hN2, feq_nan hN1, Bool.and_false, Bool.false_eq_true,
          if_false]
      · exfalso
        have hNa : a.isNaN = false := by
          cases hh : a.isNaN
          · rfl
          · exact absurd (Or.inl hh) hN
        have hNb : b.isNaN = false := by
          cases hh : b.isNaN
          · rfl
          · exact absurd (Or.inr hh) hN
        have ha : a.mag.val ≠ 0 := by
          intro h0
          have := (feq_zero_iff a).mpr ⟨hNa, h0⟩
          rw [fa] at this
          exact absurd this (by decide)
        have hb : b.mag.val ≠ 0 := by
          intro h0
          have := (feq_zero_iff b).mpr ⟨hNb, h0⟩
          rw [fb] at this
          exact absurd this (by decide)
        have hm : (fmul a b).mag.val ≠ 0 := fun h0 => h ⟨hNa, hNb, hs, ha, hb, h0⟩
        exact c1 ((fmul_neg_iff a b).mpr ⟨hNa, hNb, hs, ha, hb, hm⟩)
    · rw [if_neg s1]

/-- An opposite-sign pair whose product does not round to zero has
difference `1`. -/
theorem diffOf_opposite_sign (a b : Sample) (hNa : a.isNaN = false) (hNb : b.isNaN = false)
    (hs : a.neg ≠ b.neg) (ha : a.mag.val ≠ 0) (hb : b.mag.val ≠ 0)
    (hm : (fmul a b).mag.val ≠ 0) : diffOf a b = one := by
  unfold diffOf
  simp only
  rw [if_pos ((fmul_neg_iff a b).mpr ⟨hNa, hNb, hs, ha, hb, hm⟩)]

/-- The four sample values of the specification: `diff(2, 1) = 1`,
`diff(1, 1) = 0`, `diff(0, 1) = 1` and `diff(0, 0) = 0`. -/
theorem diffOf_examples :
    diffOf (ofBits 0x40000000) one = one ∧ diffOf one one = zero ∧
      diffOf zero one = one ∧ diffOf zero zero = zero := by
  decide

/-! ## The claims -/

/-- C1: the difference of `compareFiles` does not follow the piecewise
definition for every pair of samples. At `a = 1e-30f`, `b = -1e-30f` (both
nonzero, opposite sign) the product `a * b` underflows to `-0.0f`, the test
`(a * b) < 0` is false, and the code yields `0` where the definition yields
`1`. -/
theorem diffOf_ne_specDiff_at_underflow :
    fmul tiny negTiny = ofBits 0x80000000 ∧ flt (fmul tiny negTiny) zero = false ∧
      diffOf tiny negTiny = zero ∧ specDiff tiny negTiny = one ∧
      diffOf tiny negTiny ≠ specDiff tiny negTiny := by
  decide

/-- C2: the mismatch count of `compareFiles` is tied to the diff file. For
REF `[1.0, 2.0, 3.0, 4.0]`, TAR `[1.0, 2.0, 3.0, 4.1]` and `epsilon = 1e-3`
exactly one position has `diff >= epsilon`; the count is `1` when the diff
file is open, and `0` when it cannot be opened or none is supplied. -/
theorem compareFiles_counter_without_diffFile :
    (mismatches sampleFlags.epsilon refWeights tarWeights 4).length = 1 ∧
      counterOf (compareFiles lineBreak (sampleFs true) sampleFlags.epsilon
        (some "./out/OUTWght0000.bin") "./ref/REFWght0000.bin" "./out/TARWght0000.bin") = some 1 ∧
      counterOf (compareFiles lineBreak (sampleFs false) sampleFlags.epsilon
        (some "./out/OUTWght0000.bin") "./ref/REFWght0000.bin" "./out/TARWght0000.bin") = some 0 ∧
      counterOf (compareFiles lineBreak (sampleFs true) sampleFlags.epsilon
        none "./ref/REFWght0000.bin" "./out/TARWght0000.bin") = some 0 := by
  decide

/-- C3: for two loaded snapshots of equal, nonzero length, `compareFiles`
returns `true` and its `maxDiff` is the maximum of the differences over all
positions: it is the difference at some position, and no position has a
larger one. Neither `epsilon` nor the diff file plays a part. -/
theorem compareFiles_maxDiff_is_maximum (fmt : DiffRecord → List Byte) (fs : FileSys)
    (eps : Sample) (dfn : Option String) (c g : String) (cpu gpu : Data)
    (hc : Data.loadFromFile fs c = .returned (some cpu))
    (hg : Data.loadFromFile fs g = .returned (some gpu))
    (hlen : cpu.getDataSize = gpu.getDataSize) (hne : 0 < cpu.getDataSize) :
    ∃ m, maxDiffOf (compareFiles fmt fs eps dfn c g) = some m ∧
      (∃ i, i < cpu.getDataSize ∧ m = diffAt cpu.dataPointer gpu.dataPointer i) ∧
      ∀ i, i < cpu.getDataSize → fge m (diffAt cpu.dataPointer gpu.dataPointer i) = true := by
  rw [compareFiles_loaded fmt fs eps dfn c g cpu gpu hc hg hlen]
  refine ⟨_, ?_, maxDiff_range cpu.dataPointer gpu.dataPointer cpu.getDataSize hne⟩
  cases openDiffFile fs dfn <;> rfl

/-- C3, on the weights of the end-to-end scenario: `maxDiff` is the binary32
value of `4.1f / 4.0f - 1`, with bit pattern `0x3CCCCCC0` (0.0249999762), the
difference at position 3, although positions 0 to 2 are below `epsilon`. As
`4.1` is no binary32 number, the value lies just below `0.025 = 1/40`, within
one part in a million. -/
theorem compareFiles_maxDiff_is_maximum_witness :
    Data.loadFromFile (sampleFs true) "./ref/REFWght0000.bin" = .returned (some ⟨refWeights⟩) ∧
      Data.loadFromFile (sampleFs true) "./out/TARWght0000.bin" = .returned (some ⟨tarWeights⟩) ∧
      (∃ m, maxDiffOf (compareFiles lineBreak (sampleFs true) sampleFlags.epsilon
          (some "./out/OUTWght0000.bin") "./ref/REFWght0000.bin" "./out/TARWght0000.bin") = some m ∧
        (∃ i, i < 4 ∧ m = diffAt refWeights tarWeights i) ∧
        ∀ i, i < 4 → fge m (diffAt refWeights tarWeights i) = true) ∧
      maxDiffOf (compareFiles lineBreak (sampleFs true) sampleFlags.epsilon
          (some "./out/OUTWght0000.bin") "./ref/REFWght0000.bin" "./out/TARWght0000.bin")
        = some (fsub (fdiv (ofBits 0x40833333) (ofBits 0x40800000)) one) ∧
      fsub (fdiv (ofBits 0x40833333) (ofBits 0x40800000)) one = ofBits 0x3CCCCCC0 ∧
      40 * (ofBits 0x3CCCCCC0).scaled ≤ 2 ^ 149 ∧
      1000000 * (2 ^ 149 - 40 * (ofBits 0x3CCCCCC0).scaled) < 2 ^ 149 :=
  ⟨by decide, by decide,
    compareFiles_maxDiff_is_maximum lineBreak (sampleFs true) sampleFlags.epsilon
      (some "./out/OUTWght0000.bin") "./ref/REFWght0000.bin" "./out/TARWght0000.bin"
      ⟨refWeights⟩ ⟨tarWeights⟩ (by decide) (by decide) (by decide) (by decide),
    by decide, by decide, by decide, by decide⟩

theorem mismatches_length_eq_zero (eps : Sample) (cpu gpu : List Sample) (n : Nat) :
    (mismatches eps cpu gpu n).length = 0 ↔
      ∀ i, i < n → fge (diffAt cpu gpu i) eps = false := by
  unfold mismatches isMismatch
  rw [List.length_eq_zero, List.filter_eq_nil_iff]
  constructor
  · intro h i hi
    simpa using h i (List.mem_range.mpr hi)
  · intro h i hi
    simp [h i (List.mem_range.mp hi)]

theorem processFile_loaded (fmt : DiffRecord → List Byte) (flags : Flags) (fs : FileSys)
    (key layer : String) (cpu gpu : Data)
    (hc : Data.loadFromFile fs (cpuFileName flags key) = .returned (some cpu))
    (hg : Data.loadFromFile fs (gpuFileName flags key) = .returned (some gpu))
    (hlen : cpu.getDataSize = gpu.getDataSize)
    (hopen : fs.creatable (diffFileName flags key) = true) :
    processFile fmt flags fs key layer =
      ⟨fs.write (diffFileName flags key)
          (((mismatches flags.epsilon cpu.dataPointer gpu.dataPointer cpu.getDataSize).map
            (recordAt cpu.dataPointer gpu.dataPointer)).flatMap fmt),
        if (mismatches flags.epsilon cpu.dataPointer gpu.dataPointer cpu.getDataSize).length = 0
        then [.success key layer]
        else [.mismatch key layer
          (((List.range cpu.getDataSize).map (diffAt cpu.dataPointer gpu.dataPointer)).foldl
            runMax negOne)
          (mismatches flags.epsilon cpu.dataPointer gpu.dataPointer cpu.getDataSize).length],
        false⟩ := by
  unfold processFile
  rw [compareFiles_loaded fmt fs flags.epsilon _ _ _ cpu gpu hc hg hlen]
  simp only [openDiffFile, hopen, if_true]
  split_ifs <;> rfl

/-- C4: for a key whose reference and target snapshots load with equal
element counts and whose diff file is opened, `processFile` logs the `success`
line exactly when no position has `diff >= epsilon`; otherwise it logs the
mismatch line with the `maxDiff` of `compareFiles` and the number of positions
with `diff >= epsilon`; it never logs a `failed` line. -/
theorem processFile_report (fmt : DiffRecord → List Byte) (flags : Flags) (fs : FileSys)
    (key layer : String) (cpu gpu : Data)
    (hc : Data.loadFromFile fs (cpuFileName flags key) = .returned (some cpu))
    (hg : Data.loadFromFile fs (gpuFileName flags key) = .returned (some gpu))
    (hlen : cpu.getDataSize = gpu.getDataSize)
    (hopen : fs.creatable (diffFileName flags key) = true) :
    ((processFile fmt flags fs key layer).2 = [.success key layer] ↔
        ∀ i, i < cpu.getDataSize →
          fge (diffAt cpu.dataPointer gpu.dataPointer i) flags.epsilon = false) ∧
      ((∃ i, i < cpu.getDataSize ∧
          fge (diffAt cpu.dataPointer gpu.dataPointer i) flags.epsilon = true) →
        ∃ m, maxDiffOf (compareFiles fmt fs flags.epsilon (some (diffFileName flags key))
              (cpuFileName flags key) (gpuFileName flags key)) = some m ∧
          (processFile fmt flags fs key layer).2 = [.mismatch key layer m
            (mismatches flags.epsilon cpu.dataPointer gpu.dataPointer cpu.getDataSize).length]) ∧
      ∀ f l, LogLine.failed f l ∉ (processFile fmt flags fs key layer).2 := by
  rw [processFile_loaded fmt flags fs key layer cpu gpu hc hg hlen hopen]
  have hz := mismatches_length_eq_zero flags.epsilon cpu.dataPointer gpu.dataPointer
    cpu.getDataSize
  by_cases h0 : (mismatches flags.epsilon cpu.dataPointer gpu.dataPointer
      cpu.getDataSize).length = 0
  · simp only [h0, if_true]
    refine ⟨⟨fun _ => hz.mp h0, fun _ => trivial⟩, ?_, ?_⟩
    · rintro ⟨i, hi, hm⟩
      rw [hz.mp h0 i hi] at hm
      exact absurd hm (by decide)
    · intro f l hmem
      simp at hmem
  · simp only [h0, if_false]
    refine ⟨⟨fun h => ?_, fun h => absurd (hz.mpr h) h0⟩, ?_, ?_⟩
    · simp at h
    · intro _
      refine ⟨_, ?_, rfl⟩
      rw [compareFiles_loaded fmt fs flags.epsilon _ _ _ cpu gpu hc hg hlen]
      simp only [openDiffFile, hopen, if_true]
      rfl
    · intro f l hmem
      simp at hmem

/-- C4, on the weights of the end-to-end scenario (one mismatch) -/
theorem processFile_report_witness :
    Data.loadFromFile (sampleFs true) (cpuFileName sampleFlags "Wght0000.bin")
        = .returned (some ⟨refWeights⟩) ∧
      Data.loadFromFile (sampleFs true) (gpuFileName sampleFlags "Wght0000.bin")
        = .returned (some ⟨tarWeights⟩) ∧
      (sampleFs true).creatable (diffFileName sampleFlags "Wght0000.bin") = true ∧
      (∀ f l, LogLine.failed f l ∉
        (processFile lineBreak sampleFlags (sampleFs true) "Wght0000.bin" "InnerProduct").2) ∧
      (processFile lineBreak sampleFlags (sampleFs true) "Wght0000.bin" "InnerProduct").2
        = [.mismatch "Wght0000.bin" "InnerProduct" (ofBits 0x3CCCCCC0) 1] ∧
      (processFile lineBreak sampleFlags (sampleFs true) "Wght0001.bin" "InnerProduct").2
        = [.success "Wght0001.bin" "InnerProduct"] :=
  ⟨by decide, by decide, by decide,
    (processFile_report lineBreak sampleFlags (sampleFs true) "Wght0000.bin" "InnerProduct"
      ⟨refWeights⟩ ⟨tarWeights⟩ (by decide) (by decide) (by decide) (by decide)).2.2,
    by decide, by decide⟩

theorem loadFromFile_directory (fs : FileSys) (c : String) (hc : fs.content c = none)
    (hd : fs.directory c = true) : Data.loadFromFile fs c = .thrown := by
  simp [Data.loadFromFile, hc, hd]

theorem compareFiles_failed_iff (fmt : DiffRecord → List Byte) (fs : FileSys) (eps : Sample)
    (dfn : Option String) (c g : String) :
    failed (compareFiles fmt fs eps dfn c g) = true ↔
      Data.loadFromFile fs c = .returned none ∨
        (∃ cpu, Data.loadFromFile fs c = .returned (some cpu) ∧
          Data.loadFromFile fs g = .returned none) ∨
        ∃ cpu gpu, Data.loadFromFile fs c = .returned (some cpu) ∧
          Data.loadFromFile fs g = .returned (some gpu) ∧
          cpu.getDataSize ≠ gpu.getDataSize := by
  unfold compareFiles
  cases hc : Data.loadFromFile fs c with
  | thrown => simp [failed]
  | returned oc =>
    cases oc with
    | none => simp [failed]
    | some cpu =>
      cases hg : Data.loadFromFile fs g with
      | thrown => simp [failed]
      | returned og =>
        cases og with
        | none => simp [failed]
        | some gpu =>
          by_cases hlen : gpu.getDataSize = cpu.getDataSize
          · simp only [hlen, ne_eq, not_true_eq_false, if_false]
            cases openDiffFile fs dfn <;> simp [failed, hlen]
          · have hlen2 : ¬ cpu.getDataSize = gpu.getDataSize := fun h => hlen h.symm
            simp [failed, hlen, hlen2]

theorem compareFiles_thrown_iff (fmt : DiffRecord → List Byte) (fs : FileSys) (eps : Sample)
    (dfn : Option String) (c g : String) :
    compareFiles fmt fs eps dfn c g = .thrown ↔
      Data.loadFromFile fs c = .thrown ∨
        ((∃ cpu, Data.loadFromFile fs c = .returned (some cpu)) ∧
          Data.loadFromFile fs g = .thrown) := by
  unfold compareFiles
  cases hc : Data.loadFromFile fs c with
  | thrown => simp
  | returned oc =>
    cases oc with
    | none => simp
    | some cpu =>
      cases hg : Data.loadFromFile fs g with
      | thrown => simp
      | returned og =>
        cases og with
        | none => simp
        | some gpu =>
          by_cases hlen : gpu.getDataSize = cpu.getDataSize
          · simp only [hlen, ne_eq, not_true_eq_false, if_false]
            cases openDiffFile fs dfn <;> simp
          · simp [hlen]

/-- C5: `compareFiles` returns `false` exactly when the reference file is not
opened, or the reference loads and the target file is not opened, or both
load with different element counts; so, where no load throws, exactly when
one of the two does not load or the counts differ. A key with a reference
file and no target file makes `processFile` log the `failed` line and leave
the file system as it was, and the loop of `compare` then processes the
remaining keys. The claim fails for a name that is a directory: the load
throws, `compareFiles` neither returns `false` nor logs a line, and the loop
ends there, with nothing logged for the key and the remaining keys not
processed. -/
theorem compareFiles_failure_and_throw (fmt : DiffRecord → List Byte) (flags : Flags)
    (fs : FileSys) (dfn : Option String) (c g key layer : String)
    (getLayerType : String → String) (rest : List String) :
    (failed (compareFiles fmt fs flags.epsilon dfn c g) = true ↔
        Data.loadFromFile fs c = .returned none ∨
          (∃ cpu, Data.loadFromFile fs c = .returned (some cpu) ∧
            Data.loadFromFile fs g = .returned none) ∨
          ∃ cpu gpu, Data.loadFromFile fs c = .returned (some cpu) ∧
            Data.loadFromFile fs g = .returned (some gpu) ∧
            cpu.getDataSize ≠ gpu.getDataSize) ∧
      (Data.loadFromFile fs c ≠ .thrown → Data.loadFromFile fs g ≠ .thrown →
        (failed (compareFiles fmt fs flags.epsilon dfn c g) = true ↔
          Data.loadFromFile fs c = .returned none ∨ Data.loadFromFile fs g = .returned none ∨
            ∃ cpu gpu, Data.loadFromFile fs c = .returned (some cpu) ∧
              Data.loadFromFile fs g = .returned (some gpu) ∧
              cpu.getDataSize ≠ gpu.getDataSize)) ∧
      (∀ cpu, Data.loadFromFile fs (cpuFileName flags key) = .returned (some cpu) →
        Data.loadFromFile fs (gpuFileName flags key) = .returned none →
        processFile fmt flags fs key layer
            = ⟨fs, [.loadGpuFailed (gpuFileName flags key), .failed key layer], false⟩ ∧
          compareLoop fmt flags getLayerType fs (key :: rest)
            = ⟨(compareLoop fmt flags getLayerType fs rest).1,
               [.loadGpuFailed (gpuFileName flags key), .failed key (getLayerType key)]
                 ++ (compareLoop fmt flags getLayerType fs rest).2,
               (compareLoop fmt flags getLayerType fs rest).thrown⟩) ∧
      (fs.content c = none → fs.directory c = true →
        compareFiles fmt fs flags.epsilon dfn c g = .thrown ∧
          failed (compareFiles fmt fs flags.epsilon dfn c g) = false) ∧
      (fs.content (cpuFileName flags key) = none →
        fs.directory (cpuFileName flags key) = true →
        processFile fmt flags fs key layer = ⟨fs, [], true⟩ ∧
          compareLoop fmt flags getLayerType fs (key :: rest) = ⟨fs, [], true⟩) := by
  refine ⟨compareFiles_failed_iff fmt fs flags.epsilon dfn c g, ?_, ?_, ?_, ?_⟩
  · intro hc hg
    rw [compareFiles_failed_iff]
    constructor
    · rintro (h | ⟨cpu, _, h⟩ | h)
      · exact Or.inl h
      · exact Or.inr (Or.inl h)
      · exact Or.inr (Or.inr h)
    · rintro (h | h | h)
      · exact Or.inl h
      · cases hc2 : Data.loadFromFile fs c with
        | thrown => exact absurd hc2 hc
        | returned oc =>
          cases oc with
          | none => exact Or.inl rfl
          | some cpu => exact Or.inr (Or.inl ⟨cpu, rfl, h⟩)
      · exact Or.inr (Or.inr h)
  · intro cpu hc hg
    have hp : ∀ l, processFile fmt flags fs key l
        = ⟨fs, [.loadGpuFailed (gpuFileName flags key), .failed key l], false⟩ := by
      intro l
      unfold processFile compareFiles
      simp [hc, hg]
    refine ⟨hp layer, ?_⟩
    simp [compareLoop, hp]
  · intro hc hd
    have ht : compareFiles fmt fs flags.epsilon dfn c g = .thrown :=
      (compareFiles_thrown_iff _ _ _ _ _ _).2 (Or.inl (loadFromFile_directory fs c hc hd))
    rw [ht]
    exact ⟨rfl, rfl⟩
  · intro hc hd
    have hp : ∀ l, processFile fmt flags fs key l = ⟨fs, [], true⟩ := by
      intro l
      unfold processFile
      rw [(compareFiles_thrown_iff _ _ _ _ _ _).2 (Or.inl (loadFromFile_directory fs _ hc hd))]
    refine ⟨hp layer, ?_⟩
    simp [compareLoop, hp]

/-- C5, on the sample file system. The key `Bwrd0000.bin` has only a reference
file: the loop logs `failed` for it and goes on to compare the next key. The
reference directory also holds a directory `REFOld`: for the key `Old` the
load throws, nothing is logged for it, and the key `Wght0000.bin`, which comes
after it, is not compared; a run of `compare` that finds this directory in
its listing ends by the exception, without a return value and with an empty
report. -/
theorem compareFiles_failure_and_throw_witness :
    (Data.loadFromFile (sampleFs true) (cpuFileName sampleFlags "Bwrd0000.bin")
        = .returned (some ⟨[one]⟩) ∧
      Data.loadFromFile (sampleFs true) (gpuFileName sampleFlags "Bwrd0000.bin")
        = .returned none ∧
      processFile lineBreak sampleFlags (sampleFs true) "Bwrd0000.bin" "Convolution"
        = ⟨sampleFs true, [.loadGpuFailed (gpuFileName sampleFlags "Bwrd0000.bin"),
            .failed "Bwrd0000.bin" "Convolution"], false⟩ ∧
      (compareLoop lineBreak sampleFlags (fun _ => "Convolution") (sampleFs true)
          ["Bwrd0000.bin", "Wght0000.bin"]).2
        = [.loadGpuFailed "./out/TARBwrd0000.bin", .failed "Bwrd0000.bin" "Convolution",
           .mismatch "Wght0000.bin" "Convolution" (ofBits 0x3CCCCCC0) 1]) ∧
      ((sampleFs true).content (cpuFileName sampleFlags "Old") = none ∧
        (sampleFs true).directory (cpuFileName sampleFlags "Old") = true ∧
        compareLoop lineBreak sampleFlags (fun _ => "Convolution") (sampleFs true)
            ["Old", "Wght0000.bin"]
          = ⟨sampleFs true, [], true⟩ ∧
        (compareLoop lineBreak sampleFlags (fun _ => "Convolution") (sampleFs true)
            ["Bwrd0000.bin", "Old", "Wght0000.bin"]).2
          = [.loadGpuFailed "./out/TARBwrd0000.bin", .failed "Bwrd0000.bin" "Convolution"] ∧
        (compareLoop lineBreak sampleFlags (fun _ => "Convolution") (sampleFs true)
            ["Bwrd0000.bin", "Old", "Wght0000.bin"]).thrown = true) ∧
      (FileList.findFiles dirEnv.entries = ["Old", "Wght0000.bin"] ∧
        (compare lineBreak dirEnv sampleFlags sampleNet sampleBlobs (sampleFs true)).map
            (fun r => (r.ret, r.log))
          = some (none, [])) :=
  ⟨⟨by decide, by decide,
    ((compareFiles_failure_and_throw lineBreak sampleFlags (sampleFs true) none "" ""
      "Bwrd0000.bin" "Convolution" (fun _ => "Convolution") []).2.2.1 ⟨[one]⟩
      (by decide) (by decide)).1,
    by decide⟩,
   ⟨by decide, by decide,
    ((compareFiles_failure_and_throw lineBreak sampleFlags (sampleFs true) none "" ""
      "Old" "Convolution" (fun _ => "Convolution") ["Wght0000.bin"]).2.2.2.2
      (by decide) (by decide)).2,
    by decide, by decide⟩,
   ⟨by decide, by decide⟩⟩

theorem elemAt_mem {l : List Sample} {i : Nat} (h : i < l.length) : elemAt l i ∈ l := by
  unfold elemAt
  rw [List.getD_eq_getElem l zero h]
  exact List.getElem_mem h

theorem fge_zero_of_pos {eps : Sample} (h : flt zero eps = true) : fge zero eps = false := by
  have hk : zero.key = 0 := by decide
  simp only [flt, Bool.and_eq_true, Bool.not_eq_true', decide_eq_true_eq, hk] at h
  simp only [fge, hk, h.1.1, h.1.2, Bool.not_false, Bool.true_and, decide_eq_false_iff_not]
  omega

/-- C6, as the claim states it, fails: comparing the empty sequence with itself
leaves `maxDiff` at its initial `-1`, not `0`; and a sequence holding a NaN
compared with itself has a mismatch, because a NaN differs from itself. -/
theorem selfCompare_empty_and_nan :
    (Data.loadFromFile (sampleFs true) "./ref/REFGrad0000.bin" = .returned (some ⟨[]⟩) ∧
      Data.loadFromFile (sampleFs true) "./out/TARGrad0000.bin" = .returned (some ⟨[]⟩) ∧
      flt zero sampleFlags.epsilon = true ∧
      maxDiffOf (compareFiles lineBreak (sampleFs true) sampleFlags.epsilon
        (some "./out/OUTGrad0000.bin") "./ref/REFGrad0000.bin" "./out/TARGrad0000.bin")
        = some negOne ∧ negOne ≠ zero) ∧
      (Data.loadFromFile (sampleFs true) "./ref/REFFwrd0000.bin" = .returned (some ⟨[nan]⟩) ∧
        Data.loadFromFile (sampleFs true) "./out/TARFwrd0000.bin" = .returned (some ⟨[nan]⟩) ∧
        counterOf (compareFiles lineBreak (sampleFs true) sampleFlags.epsilon
          (some "./out/OUTFwrd0000.bin") "./ref/REFFwrd0000.bin" "./out/TARFwrd0000.bin")
          = some 1 ∧
        maxDiffOf (compareFiles lineBreak (sampleFs true) sampleFlags.epsilon
          (some "./out/OUTFwrd0000.bin") "./ref/REFFwrd0000.bin" "./out/TARFwrd0000.bin")
          = some one) := by
  decide

/-- C6, amended: for every sample sequence `S` without a NaN and every
`epsilon > 0`, comparing `S` with itself gives 0 mismatches, with or without a
diff file; `maxDiff` is `0` when `S` is not empty and stays at its initial `-1`
when `S` is empty. -/
theorem compareFiles_self (fmt : DiffRecord → List Byte) (fs : FileSys) (eps : Sample)
    (dfn : Option String) (c g : String) (S : Data)
    (hc : Data.loadFromFile fs c = .returned (some S))
    (hg : Data.loadFromFile fs g = .returned (some S))
    (hnan : ∀ s, s ∈ S.dataPointer → s.isNaN = false) (heps : flt zero eps = true) :
    counterOf (compareFiles fmt fs eps dfn c g) = some 0 ∧
      maxDiffOf (compareFiles fmt fs eps dfn c g)
        = some (if S.getDataSize = 0 then negOne else zero) := by
  have hd : ∀ i, i < S.getDataSize → diffAt S.dataPointer S.dataPointer i = zero := by
    intro i hi
    unfold diffAt
    rw [diffOf_self, hnan _ (elemAt_mem hi)]
    rfl
  have hmis : (mismatches eps S.dataPointer S.dataPointer S.getDataSize).length = 0 := by
    rw [mismatches_length_eq_zero]
    intro i hi
    rw [hd i hi]
    exact fge_zero_of_pos heps
  have hmax : ((List.range S.getDataSize).map (diffAt S.dataPointer S.dataPointer)).foldl
      runMax negOne = if S.getDataSize = 0 then negOne else zero := by
    by_cases h0 : S.getDataSize = 0
    · rw [if_pos h0, h0]
      rfl
    · rw [if_neg h0]
      obtain ⟨⟨i, hi, e⟩, _⟩ :=
        maxDiff_range S.dataPointer S.dataPointer S.getDataSize (Nat.pos_of_ne_zero h0)
      rw [e, hd i hi]
  rw [compareFiles_loaded fmt fs eps dfn c g S S hc hg rfl, hmis, hmax]
  cases openDiffFile fs dfn <;> exact ⟨rfl, rfl⟩

/-- C6, amended, on `[1.0]` compared with itself. -/
theorem compareFiles_self_witness :
    Data.loadFromFile (sampleFs true) "./ref/REFWght0001.bin" = .returned (some ⟨[one]⟩) ∧
      Data.loadFromFile (sampleFs true) "./out/TARWght0001.bin" = .returned (some ⟨[one]⟩) ∧
      (∀ s, s ∈ [one] → s.isNaN = false) ∧ flt zero sampleFlags.epsilon = true ∧
      counterOf (compareFiles lineBreak (sampleFs true) sampleFlags.epsilon none
        "./ref/REFWght0001.bin" "./out/TARWght0001.bin") = some 0 ∧
      maxDiffOf (compareFiles lineBreak (sampleFs true) sampleFlags.epsilon none
        "./ref/REFWght0001.bin" "./out/TARWght0001.bin") = some zero :=
  ⟨by decide, by decide, by decide, by decide,
    compareFiles_self lineBreak (sampleFs true) sampleFlags.epsilon none
      "./ref/REFWght0001.bin" "./out/TARWght0001.bin" ⟨[one]⟩ (by decide) (by decide)
      (by decide) (by decide)⟩

/-- C7: opposite sign does not always give a difference of `1`. The samples
`1e-30f` and `-1e-30f` are nonzero and of opposite sign, their product
underflows to `-0.0f`, and the difference is `0`; for `1e-30f` and `-3e-30f`
it is `2`. -/
theorem diffOf_opposite_sign_at_underflow :
    tiny.neg = false ∧ negTiny.neg = true ∧ feq tiny zero = false ∧ feq negTiny zero = false ∧
      fmul tiny negTiny = ofBits 0x80000000 ∧
      diffOf tiny negTiny = zero ∧ zero ≠ one ∧
      diffOf tiny (ofBits 0x8E736390) = ofBits 0x40000000 := by
  decide

/-- C8: the difference is symmetric in its two samples. -/
theorem diffOf_symmetric (a b : Sample) : diffOf a b = diffOf b a :=
  diffOf_comm a b

/-- C9: when the diff file is open, `compareFiles` prints exactly one line for
each position with `diff >= epsilon`, in increasing order of the position,
holding the index, the two bit patterns, the difference and the two values; a
position with `diff < epsilon` gets no line; the returned count is the number
of lines, and the file holds their text. -/
theorem compareFiles_records (fmt : DiffRecord → List Byte) (fs : FileSys) (eps : Sample)
    (dfn : Option String) (name c g : String) (cpu gpu : Data)
    (hc : Data.loadFromFile fs c = .returned (some cpu))
    (hg : Data.loadFromFile fs g = .returned (some gpu))
    (hlen : cpu.getDataSize = gpu.getDataSize) (hopen : openDiffFile fs dfn = some name) :
    ∃ recs : List DiffRecord,
      recordsOf (compareFiles fmt fs eps dfn c g) = some (some recs) ∧
      recs = ((List.range cpu.getDataSize).filter fun i =>
          fge (diffOf (elemAt cpu.dataPointer i) (elemAt gpu.dataPointer i)) eps).map
        (fun i => ⟨i, (elemAt cpu.dataPointer i).bits, (elemAt gpu.dataPointer i).bits,
          diffOf (elemAt cpu.dataPointer i) (elemAt gpu.dataPointer i),
          elemAt cpu.dataPointer i, elemAt gpu.dataPointer i⟩) ∧
      List.Pairwise (fun r s : DiffRecord => r.index < s.index) recs ∧
      (∀ i, i < cpu.getDataSize →
        flt (diffOf (elemAt cpu.dataPointer i) (elemAt gpu.dataPointer i)) eps = true →
        ∀ r, r ∈ recs → r.index ≠ i) ∧
      counterOf (compareFiles fmt fs eps dfn c g) = some recs.length ∧
      (fsAfter fs (compareFiles fmt fs eps dfn c g)).content name
        = some (recs.flatMap fmt) := by
  rw [compareFiles_loaded fmt fs eps dfn c g cpu gpu hc hg hlen, hopen]
  refine ⟨_, rfl, rfl, ?_, ?_, ?_, ?_⟩
  · rw [List.pairwise_map]
    exact (List.pairwise_lt_range _).filter _
  · intro i _ hlt r hr
    obtain ⟨j, hj, rfl⟩ := List.mem_map.mp hr
    have hj2 := (List.mem_filter.mp hj).2
    intro hidx
    have hidx : j = i := hidx
    subst hidx
    simp only [recordAt, isMismatch, diffAt] at hj2
    simp only [flt, Bool.and_eq_true, Bool.not_eq_true', decide_eq_true_eq] at hlt
    simp only [fge, Bool.and_eq_true, Bool.not_eq_true', decide_eq_true_eq] at hj2
    omega
  · simp [counterOf, mismatches]
  · simp [fsAfter, FileSys.write]

/-- C9, on the weights of the end-to-end scenario: one line, for position 3. -/
theorem compareFiles_records_witness :
    Data.loadFromFile (sampleFs true) "./ref/REFWght0000.bin" = .returned (some ⟨refWeights⟩) ∧
      Data.loadFromFile (sampleFs true) "./out/TARWght0000.bin" = .returned (some ⟨tarWeights⟩) ∧
      openDiffFile (sampleFs true) (some "./out/OUTWght0000.bin")
        = some "./out/OUTWght0000.bin" ∧
      recordsOf (compareFiles lineBreak (sampleFs true) sampleFlags.epsilon
          (some "./out/OUTWght0000.bin") "./ref/REFWght0000.bin" "./out/TARWght0000.bin")
        = some (some [⟨3, 0x40800000, 0x40833333, ofBits 0x3CCCCCC0,
            ofBits 0x40800000, ofBits 0x40833333⟩]) ∧
      ∃ recs : List DiffRecord,
        recordsOf (compareFiles lineBreak (sampleFs true) sampleFlags.epsilon
            (some "./out/OUTWght0000.bin") "./ref/REFWght0000.bin" "./out/TARWght0000.bin")
          = some (some recs) ∧
        counterOf (compareFiles lineBreak (sampleFs true) sampleFlags.epsilon
            (some "./out/OUTWght0000.bin") "./ref/REFWght0000.bin" "./out/TARWght0000.bin")
          = some recs.length :=
  ⟨by decide, by decide, by decide, by decide,
    (compareFiles_records lineBreak (sampleFs true) sampleFlags.epsilon
      (some "./out/OUTWght0000.bin") "./out/OUTWght0000.bin" "./ref/REFWght0000.bin"
      "./out/TARWght0000.bin" ⟨refWeights⟩ ⟨tarWeights⟩ (by decide) (by decide) (by decide)
      (by decide)).elim fun recs h => ⟨recs, h.1, h.2.2.2.2.1⟩⟩

/-- C10, as the claim states it, fails: for the key `Wght0001.bin`, whose
reference and target both hold `[1.0]`, no position has `diff >= epsilon` and
`processFile` logs `success`, yet the file `OUTWght0001.bin`, absent before, is
there afterwards, empty. -/
theorem emptyDiffFile_left_behind :
    Data.loadFromFile (sampleFs true) (cpuFileName sampleFlags "Wght0001.bin")
        = .returned (some ⟨[one]⟩) ∧
      Data.loadFromFile (sampleFs true) (gpuFileName sampleFlags "Wght0001.bin")
        = .returned (some ⟨[one]⟩) ∧
      fge (diffAt [one] [one] 0) sampleFlags.epsilon = false ∧
      diffFileName sampleFlags "Wght0001.bin" = "./out/OUTWght0001.bin" ∧
      (sampleFs true).content "./out/OUTWght0001.bin" = none ∧
      (processFile lineBreak sampleFlags (sampleFs true) "Wght0001.bin" "InnerProduct").2
        = [.success "Wght0001.bin" "InnerProduct"] ∧
      (processFile lineBreak sampleFlags (sampleFs true) "Wght0001.bin" "InnerProduct").1.content
        "./out/OUTWght0001.bin" = some [] := by
  decide

/-- C10, amended: for every key whose reference and target snapshots load
with equal length and whose diff file can be opened, `processFile` leaves a
file `OUT<key>` holding one line per position with `diff >= epsilon`, hence an
empty file when no position mismatches; for a key whose pair does not load it
leaves the file system as it was. -/
theorem processFile_diffFile (fmt : DiffRecord → List Byte) (flags : Flags) (fs : FileSys)
    (key layer : String) :
    (∀ cpu gpu : Data,
        Data.loadFromFile fs (cpuFileName flags key) = .returned (some cpu) →
        Data.loadFromFile fs (gpuFileName flags key) = .returned (some gpu) →
        cpu.getDataSize = gpu.getDataSize →
        fs.creatable (diffFileName flags key) = true →
        (processFile fmt flags fs key layer).1.content (diffFileName flags key)
            = some (((mismatches flags.epsilon cpu.dataPointer gpu.dataPointer
                cpu.getDataSize).map (recordAt cpu.dataPointer gpu.dataPointer)).flatMap fmt) ∧
          ((∀ i, i < cpu.getDataSize →
              fge (diffAt cpu.dataPointer gpu.dataPointer i) flags.epsilon = false) →
            (processFile fmt flags fs key layer).1.content (diffFileName flags key) = some [])) ∧
      (failed (compareFiles fmt fs flags.epsilon (some (diffFileName flags key))
          (cpuFileName flags key) (gpuFileName flags key)) = true →
        (processFile fmt flags fs key layer).1 = fs) := by
  constructor
  · intro cpu gpu hc hg hlen hopen
    rw [processFile_loaded fmt flags fs key layer cpu gpu hc hg hlen hopen]
    refine ⟨by simp [FileSys.write], fun h => ?_⟩
    have h0 := (mismatches_length_eq_zero flags.epsilon cpu.dataPointer gpu.dataPointer
      cpu.getDataSize).mpr h
    rw [List.length_eq_zero] at h0
    simp [FileSys.write, h0]
  · intro hf
    unfold processFile
    cases hr : compareFiles fmt fs flags.epsilon (some (diffFileName flags key))
        (cpuFileName flags key) (gpuFileName flags key) with
    | thrown => rfl
    | returned r =>
      cases r with
      | error line => rfl
      | ok out => rw [hr] at hf; exact absurd hf (by simp [failed])

/-- C10, amended, on the key `Wght0000.bin` (one mismatch, so one line) and on
the key `Bwrd0000.bin` (no target file, so nothing is created) -/
theorem processFile_diffFile_witness :
    Data.loadFromFile (sampleFs true) (cpuFileName sampleFlags "Wght0000.bin")
        = .returned (some ⟨refWeights⟩) ∧
      Data.loadFromFile (sampleFs true) (gpuFileName sampleFlags "Wght0000.bin")
        = .returned (some ⟨tarWeights⟩) ∧
      (sampleFs true).creatable (diffFileName sampleFlags "Wght0000.bin") = true ∧
      (processFile lineBreak sampleFlags (sampleFs true) "Wght0000.bin" "t").1.content
          (diffFileName sampleFlags "Wght0000.bin")
        = some (((mismatches sampleFlags.epsilon refWeights tarWeights 4).map
            (recordAt refWeights tarWeights)).flatMap lineBreak) ∧
      (processFile lineBreak sampleFlags (sampleFs true) "Wght0000.bin" "t").1.content
          "./out/OUTWght0000.bin" = some [10] ∧
      failed (compareFiles lineBreak (sampleFs true) sampleFlags.epsilon
          (some (diffFileName sampleFlags "Bwrd0000.bin"))
          (cpuFileName sampleFlags "Bwrd0000.bin") (gpuFileName sampleFlags "Bwrd0000.bin"))
        = true ∧
      (processFile lineBreak sampleFlags (sampleFs true) "Bwrd0000.bin" "t").1 = sampleFs true :=
  ⟨by decide, by decide, by decide,
    ((processFile_diffFile lineBreak sampleFlags (sampleFs true) "Wght0000.bin" "t").1
      ⟨refWeights⟩ ⟨tarWeights⟩ (by decide) (by decide) (by decide) (by decide)).1,
    by decide, by decide,
    (processFile_diffFile lineBreak sampleFlags (sampleFs true) "Bwrd0000.bin" "t").2
      (by decide)⟩

/-! ## The snapshot codec -/

theorem ofBits_bits (a : Sample) : ofBits a.bits = a := by
  obtain ⟨neg, ⟨m, hm⟩⟩ := a
  cases neg
  · simp only [ofBits, bits, Bool.false_eq_true, if_false, Nat.zero_add, Sample.mk.injEq,
      decide_eq_false_iff_not, Fin.mk.injEq]
    constructor <;> omega
  · simp only [ofBits, bits, if_true, Sample.mk.injEq, decide_eq_true_eq, Fin.mk.injEq]
    constructor <;> omega

theorem bits_lt (a : Sample) : a.bits < 4294967296 := by
  obtain ⟨neg, ⟨m, hm⟩⟩ := a
  cases neg <;> simp [bits] <;> omega

theorem decodeSamples_encodeSample (a : Sample) (rest : List Byte) :
    decodeSamples (encodeSample a ++ rest) = a :: decodeSamples rest := by
  have hb := bits_lt a
  have hsum : a.bits % 256 + 256 * (a.bits / 256 % 256) + 65536 * (a.bits / 65536 % 256)
      + 16777216 * (a.bits / 16777216 % 256) = a.bits := by omega
  simp only [encodeSample, List.cons_append, List.nil_append, decodeSamples, Fin.ofNat,
    List.cons.injEq, and_true]
  simp only [Nat.mod_mod, hsum]
  exact ⟨ofBits_bits a, rfl⟩

theorem decodeSamples_encodeSamples_append (l : List Sample) (rest : List Byte) :
    decodeSamples (encodeSamples l ++ rest) = l ++ decodeSamples rest := by
  induction l with
  | nil => simp [encodeSamples]
  | cons a l ih =>
    simp only [encodeSamples, List.flatMap_cons, List.append_assoc] at ih ⊢
    rw [decodeSamples_encodeSample, ih]
    rfl

theorem decodeSamples_encodeSamples (l : List Sample) : decodeSamples (encodeSamples l) = l := by
  have h := decodeSamples_encodeSamples_append l []
  simpa [decodeSamples] using h

theorem length_encodeSamples (l : List Sample) : (encodeSamples l).length = 4 * l.length := by
  induction l with
  | nil => rfl
  | cons a l ih =>
    simp only [encodeSamples, List.flatMap_cons, List.length_append, List.length_cons] at ih ⊢
    rw [ih]
    simp [encodeSample]
    omega

theorem length_decodeSamples (bytes : List Byte) :
    (decodeSamples bytes).length = bytes.length / 4 := by
  induction bytes using decodeSamples.induct with
  | case1 b0 b1 b2 b3 rest ih =>
    simp only [decodeSamples, List.length_cons, ih]
    omega
  | case2 bytes h =>
    have hlen : bytes.length < 4 := by
      match bytes, h with
      | [], _ => simp
      | [_], _ => simp
      | [_, _], _ => simp
      | [_, _, _], _ => simp
      | b0 :: b1 :: b2 :: b3 :: rest, h => exact absurd rfl (h b0 b1 b2 b3 rest)
    rw [decodeSamples]
    · simp; omega
    · exact h

theorem decodeSamples_short {bytes : List Byte} (h : bytes.length < 4) :
    decodeSamples bytes = [] := by
  match bytes, h with
  | [], _ => rfl
  | [_], _ => rfl
  | [_, _], _ => rfl
  | [_, _, _], _ => rfl
  | _ :: _ :: _ :: _ :: rest, h => simp at h; omega

theorem decodeSamples_append_tail (body tail : List Byte) (hbody : body.length % 4 = 0)
    (htail : tail.length < 4) : decodeSamples (body ++ tail) = decodeSamples body := by
  induction body using decodeSamples.induct with
  | case1 b0 b1 b2 b3 rest ih =>
    have hrest : rest.length % 4 = 0 := by
      simp only [List.length_cons] at hbody
      omega
    simp only [List.cons_append, decodeSamples]
    exact congrArg _ (ih hrest)
  | case2 body h =>
    have hlen : body.length < 4 := by
      match body, h with
      | [], _ => simp
      | [_], _ => simp
      | [_, _], _ => simp
      | [_, _, _], _ => simp
      | b0 :: b1 :: b2 :: b3 :: rest, h => exact absurd rfl (h b0 b1 b2 b3 rest)
    have hnil : body = [] := by
      apply List.eq_nil_of_length_eq_zero
      omega
    subst hnil
    rw [List.nil_append, decodeSamples_short htail]
    rfl

theorem content_write_self (fs : FileSys) (path : String) (bytes : List Byte) :
    (fs.write path bytes).content path = some bytes := by
  simp [FileSys.write]

theorem content_write_other (fs : FileSys) (path : String) (bytes : List Byte) (p : String)
    (h : fs.fileOf p ≠ fs.fileOf path) :
    (fs.write path bytes).content p = fs.content p := by
  simp [FileSys.write, h]

theorem saveToFile_ok (fwrite : String → Nat → Nat) (fs : FileSys) (path : String) (id : Int)
    (data : List Sample) (hcreate : fs.creatable path = true)
    (hwrite : data.length * 4 ≤ fwrite path (data.length * 4)) :
    saveToFile fwrite fs path id data data.length = (true, fs.write path (encodeSamples data)) := by
  have hlen := length_encodeSamples data
  have htake : (encodeSamples data).take (fwrite path (data.length * 4)) = encodeSamples data :=
    List.take_of_length_le (by omega)
  unfold saveToFile
  simp only [hcreate, if_true, List.take_length, htake, hlen]
  simp
  omega

theorem encodeSamples_cons (a : Sample) (l : List Sample) :
    encodeSamples (a :: l) = encodeSample a ++ encodeSamples l := by
  simp [encodeSamples]

theorem encodeSamples_drop (l : List Sample) :
    ∀ k, (encodeSamples l).drop (4 * k) = encodeSamples (l.drop k) := by
  induction l with
  | nil => intro k; simp [encodeSamples]
  | cons a l ih =>
    intro k
    cases k with
    | zero => rfl
    | succ k =>
      rw [encodeSamples_cons, List.drop_succ_cons, ← ih k]
      have : 4 * (k + 1) = 4 * k + 1 + 1 + 1 + 1 := by omega
      rw [this]
      rfl

theorem encodeSamples_take (l : List Sample) :
    ∀ k, (encodeSamples l).take (4 * k) = encodeSamples (l.take k) := by
  induction l with
  | nil => intro k; simp [encodeSamples]
  | cons a l ih =>
    intro k
    cases k with
    | zero => rfl
    | succ k =>
      rw [encodeSamples_cons, List.take_succ_cons, encodeSamples_cons, ← ih k]
      have : 4 * (k + 1) = 4 * k + 1 + 1 + 1 + 1 := by omega
      rw [this]
      rfl

theorem short_of_no_quad {bytes : List Byte}
    (h : ∀ b0 b1 b2 b3 rest, bytes = b0 :: b1 :: b2 :: b3 :: rest → False) :
    bytes.length < 4 := by
  match bytes, h with
  | [], _ => simp
  | [_], _ => simp
  | [_, _], _ => simp
  | [_, _, _], _ => simp
  | b0 :: b1 :: b2 :: b3 :: rest, h => exact absurd rfl (h b0 b1 b2 b3 rest)

theorem decodeSamples_append (x y : List Byte) (hx : x.length % 4 = 0) :
    decodeSamples (x ++ y) = decodeSamples x ++ decodeSamples y := by
  induction x using decodeSamples.induct with
  | case1 b0 b1 b2 b3 rest ih =>
    have hrest : rest.length % 4 = 0 := by
      simp only [List.length_cons] at hx
      omega
    simp only [List.cons_append, decodeSamples]
    exact congrArg _ (ih hrest)
  | case2 x h =>
    have hlen := short_of_no_quad h
    have hnil : x = [] := by
      apply List.eq_nil_of_length_eq_zero
      omega
    subst hnil
    rfl

theorem decodeSamples_take (bytes : List Byte) :
    ∀ k, decodeSamples (bytes.take (4 * k)) = (decodeSamples bytes).take k := by
  induction bytes using decodeSamples.induct with
  | case1 b0 b1 b2 b3 rest ih =>
    intro k
    cases k with
    | zero => rfl
    | succ k =>
      have : 4 * (k + 1) = 4 * k + 1 + 1 + 1 + 1 := by omega
      rw [this]
      simp only [List.take_succ_cons, decodeSamples]
      exact congrArg _ (ih k)
  | case2 bytes h =>
    intro k
    have hlen := short_of_no_quad h
    have h1 : (bytes.take (4 * k)).length < 4 := by
      rw [List.length_take]
      omega
    rw [decodeSamples_short h1, decodeSamples_short hlen]
    simp

/-- A file that holds at least `count` elements fills the first `count`
elements of the array and `loadFromFile` returns `true`. -/
theorem loadFromFile_enough (fs : FileSys) (path : String) (id : Int) (buf : List Sample)
    (count : Nat) (bytes : List Byte) (hc : fs.content path = some bytes)
    (hlen : count * 4 ≤ bytes.length) :
    loadFromFile fs path id buf count
      = (true, (decodeSamples bytes).take count ++ buf.drop count) := by
  have hread : (bytes.take (count * 4)).length = count * 4 := by
    rw [List.length_take]
    omega
  unfold loadFromFile
  simp only [hc, hread, decide_True]
  rw [Nat.mul_comm count 4, encodeSamples_drop, decodeSamples_append _ _ (by
    rw [List.length_take]; omega), decodeSamples_take, decodeSamples_encodeSamples]

/-- A path that does not open as a file leaves the array as it was. -/
theorem loadFromFile_missing (fs : FileSys) (path : String) (id : Int) (buf : List Sample)
    (count : Nat) (hc : fs.content path = none) :
    (loadFromFile fs path id buf count).2 = buf := by
  unfold loadFromFile
  rw [hc]

theorem compareFiles_lengthNotEqual (fmt : DiffRecord → List Byte) (fs : FileSys) (eps : Sample)
    (dfn : Option String) (c g : String) (cpu gpu : Data)
    (hc : Data.loadFromFile fs c = .returned (some cpu))
    (hg : Data.loadFromFile fs g = .returned (some gpu))
    (hlen : cpu.getDataSize ≠ gpu.getDataSize) :
    compareFiles fmt fs eps dfn c g = .returned (.error .lengthNotEqual) := by
  unfold compareFiles
  simp only [hc, hg]
  rw [if_pos (fun h => hlen h.symm)]

/-! ## The claims on the codec -/

/-- C11: round trip. When the file can be created and `fwrite` completes,
`saveToFile` of the `N` samples of `data` returns `true`; afterwards
`loadFromFile` with count `N` returns `true` and leaves exactly `data` in an
array of `N` elements, and `Data::loadFromFile` succeeds with exactly `data`
and element count `N`. -/
theorem saveToFile_roundTrip (fwrite : String → Nat → Nat) (fs : FileSys) (path : String)
    (id id2 : Int) (data buf : List Sample)
    (hcreate : fs.creatable path = true)
    (hwrite : data.length * 4 ≤ fwrite path (data.length * 4))
    (hbuf : buf.length = data.length) :
    (saveToFile fwrite fs path id data data.length).1 = true ∧
      loadFromFile (saveToFile fwrite fs path id data data.length).2 path id2 buf data.length
        = (true, data) ∧
      Data.loadFromFile (saveToFile fwrite fs path id data data.length).2 path
        = .returned (some ⟨data⟩) ∧
      (Data.mk data).getDataSize = data.length := by
  rw [saveToFile_ok fwrite fs path id data hcreate hwrite]
  refine ⟨rfl, ?_, ?_, rfl⟩
  · rw [loadFromFile_enough _ path id2 buf data.length (encodeSamples data)
      (content_write_self fs path _) (by rw [length_encodeSamples]; omega)]
    rw [decodeSamples_encodeSamples, List.take_length, ← hbuf, List.drop_length,
      List.append_nil]
  · unfold Data.loadFromFile
    simp only [content_write_self, decodeSamples_encodeSamples]

/-- C11, on the weights `[1.0, 2.0, 3.0, 4.0]` written to `out/TARWght0002.bin`. -/
theorem saveToFile_roundTrip_witness :
    (sampleFs true).creatable "out/TARWght0002.bin" = true ∧
      loadFromFile (saveToFile (fun _ n => n) (sampleFs true) "out/TARWght0002.bin" 2
          refWeights 4).2 "out/TARWght0002.bin" 2 tarWeights 4 = (true, refWeights) ∧
      Data.loadFromFile (saveToFile (fun _ n => n) (sampleFs true) "out/TARWght0002.bin" 2
          refWeights 4).2 "out/TARWght0002.bin" = .returned (some ⟨refWeights⟩) :=
  ⟨by decide,
    (saveToFile_roundTrip (fun _ n => n) (sampleFs true) "out/TARWght0002.bin" 2 2
      refWeights tarWeights (by decide) (by decide) (by decide)).2.1,
    (saveToFile_roundTrip (fun _ n => n) (sampleFs true) "out/TARWght0002.bin" 2 2
      refWeights tarWeights (by decide) (by decide) (by decide)).2.2.1⟩

theorem toInt_of_small {n : Nat} (h : n < 2147483648) : toInt n = (n : Int) := by
  unfold toInt
  have e : (n + 2147483648) % 4294967296 = n + 2147483648 := Nat.mod_eq_of_lt (by omega)
  rw [e]
  push_cast
  ring

/-- C19: for a readable file of `n` bytes with `n < 2^33`, written here as a
body of whole elements followed by fewer than four trailing bytes,
`Data::loadFromFile` succeeds; the quotient `n / 4` fits the `int dataSize`
that stores it, it is the element count, and the elements are those of the
body; and when the target file is readable and shorter than `2^33` bytes as
well, `compareFiles` gets past its length check exactly when the two byte
counts have the same quotient by four, which is when the two `int`s it
compares are equal. -/
theorem loadFromFile_element_count (fmt : DiffRecord → List Byte) (fs : FileSys) (eps : Sample)
    (dfn : Option String) (c g : String) (body tail bytesG : List Byte)
    (hbody : body.length % 4 = 0) (htail : tail.length < 4)
    (hc : fs.content c = some (body ++ tail)) (hg : fs.content g = some bytesG)
    (hsmall : (body ++ tail).length < 8589934592) (hsmallG : bytesG.length < 8589934592) :
    (∃ d, Data.loadFromFile fs c = .returned (some d) ∧
        toInt ((body ++ tail).length / 4) = ((body ++ tail).length / 4 : Nat) ∧
        d.getDataSize = (body ++ tail).length / 4 ∧
        d.dataPointer = decodeSamples body) ∧
      (∃ d, Data.loadFromFile fs g = .returned (some d) ∧
        toInt (bytesG.length / 4) = (bytesG.length / 4 : Nat) ∧
        d.getDataSize = bytesG.length / 4) ∧
      (failed (compareFiles fmt fs eps dfn c g) = false ↔
        (body ++ tail).length / 4 = bytesG.length / 4) ∧
      (failed (compareFiles fmt fs eps dfn c g) = false ↔
        toInt ((body ++ tail).length / 4) = toInt (bytesG.length / 4)) := by
  have hlc : Data.loadFromFile fs c = .returned (some ⟨decodeSamples (body ++ tail)⟩) := by
    simp [Data.loadFromFile, hc]
  have hlg : Data.loadFromFile fs g = .returned (some ⟨decodeSamples bytesG⟩) := by
    simp [Data.loadFromFile, hg]
  have hiff : failed (compareFiles fmt fs eps dfn c g) = false ↔
      (body ++ tail).length / 4 = bytesG.length / 4 := ?_
  · refine ⟨⟨_, hlc, toInt_of_small (by omega), ?_, ?_⟩,
      ⟨_, hlg, toInt_of_small (by omega), ?_⟩, hiff, ?_⟩
    · simp only [Data.getDataSize, length_decodeSamples]
    · exact decodeSamples_append_tail body tail hbody htail
    · simp only [Data.getDataSize, length_decodeSamples]
    · rw [hiff, toInt_of_small (show (body ++ tail).length / 4 < 2147483648 by omega),
        toInt_of_small (show bytesG.length / 4 < 2147483648 by omega)]
      exact ⟨fun h => congrArg Int.ofNat h, fun h => Int.ofNat.inj h⟩
  · rw [← length_decodeSamples, ← length_decodeSamples]
    constructor
    · intro hf
      by_contra hne
      rw [compareFiles_lengthNotEqual fmt fs eps dfn c g _ _ hlc hlg hne] at hf
      exact absurd hf (by decide)
    · intro heq
      rw [compareFiles_loaded fmt fs eps dfn c g _ _ hlc hlg heq]
      cases openDiffFile fs dfn <;> rfl

/-- C19, on a file of 5 bytes against one of 7 bytes: both hold one element
and the length check passes; against a file of 8 bytes it does not. -/
theorem loadFromFile_element_count_witness :
    oddFs.content "./a.bin" = some ([0, 0, 128, 63] ++ [7]) ∧
      oddFs.content "./b.bin" = some [0, 0, 0, 64, 1, 2, 3] ∧
      Data.loadFromFile oddFs "./a.bin" = .returned (some ⟨[one]⟩) ∧
      (failed (compareFiles lineBreak oddFs sampleFlags.epsilon none "./a.bin" "./b.bin") = false ↔
        ([0, 0, 128, 63] ++ [7] : List Byte).length / 4
          = ([0, 0, 0, 64, 1, 2, 3] : List Byte).length / 4) ∧
      failed (compareFiles lineBreak oddFs sampleFlags.epsilon none "./a.bin" "./b.bin") = false ∧
      failed (compareFiles lineBreak oddFs sampleFlags.epsilon none "./a.bin" "./c.bin") = true :=
  ⟨by decide, by decide, by decide,
    (loadFromFile_element_count lineBreak oddFs sampleFlags.epsilon none "./a.bin" "./b.bin"
      [0, 0, 128, 63] [7] [0, 0, 0, 64, 1, 2, 3] (by decide) (by decide) (by decide)
      (by decide) (by decide) (by decide)).2.2.1,
    by decide, by decide⟩

/-! ## Strict positivity of the ratio branches -/

/-- The next larger magnitude is at least one unit in the last place away. -/
theorem scaled_gap {a b : Sample} (h : a.mag.val < b.mag.val) :
    a.scaled + 2 ^ (a.mag.val / 8388608 - 1) ≤ b.scaled := by
  unfold scaled
  simp only
  generalize a.mag.val = m at h
  generalize b.mag.val = n at h
  have hdiv : m / 8388608 ≤ n / 8388608 := Nat.div_le_div_right (Nat.le_of_lt h)
  have hp : ∀ k : Nat, 0 < 2 ^ k := fun k => Nat.pow_pos (by decide)
  have hfm : m % 8388608 < 8388608 := Nat.mod_lt _ (by decide)
  by_cases hm : m / 8388608 = 0
  · rw [if_pos hm, hm]
    simp only [Nat.zero_sub, Nat.pow_zero]
    by_cases hn : n / 8388608 = 0
    · rw [if_pos hn]; omega
    · rw [if_neg hn]
      have h1 : 8388608 + n % 8388608 ≤ (8388608 + n % 8388608) * 2 ^ (n / 8388608 - 1) :=
        Nat.le_mul_of_pos_right _ (hp _)
      omega
  · have hn : ¬ n / 8388608 = 0 := by omega
    rw [if_neg hm, if_neg hn]
    have hadd : (8388608 + m % 8388608) * 2 ^ (m / 8388608 - 1) + 2 ^ (m / 8388608 - 1)
        = (8388608 + m % 8388608 + 1) * 2 ^ (m / 8388608 - 1) := by ring
    rw [hadd]
    by_cases heq : m / 8388608 = n / 8388608
    · rw [heq]
      exact Nat.mul_le_mul_right _ (by omega)
    · have hlt : m / 8388608 ≤ n / 8388608 - 1 := by omega
      have h1 : (8388608 + m % 8388608 + 1) * 2 ^ (m / 8388608 - 1)
          ≤ (8388608 + 8388608) * 2 ^ (m / 8388608 - 1) :=
        Nat.mul_le_mul_right _ (by omega)
      have h2 : (8388608 + 8388608) * 2 ^ (m / 8388608 - 1) = 8388608 * 2 ^ (m / 8388608) := by
        have : m / 8388608 = (m / 8388608 - 1) + 1 := by omega
        rw [this, Nat.pow_succ]
        simp only [Nat.add_sub_cancel]
        ring
      have h3 : 8388608 * 2 ^ (m / 8388608) ≤ 8388608 * 2 ^ (n / 8388608 - 1) :=
        Nat.mul_le_mul_left _ (Nat.pow_le_pow_right (by decide) hlt)
      have h4 : 8388608 * 2 ^ (n / 8388608 - 1)
          ≤ (8388608 + n % 8388608) * 2 ^ (n / 8388608 - 1) :=
        Nat.mul_le_mul_right _ (by omega)
      omega

theorem scaled_lt_ulp (a : Sample) :
    a.scaled < 16777216 * 2 ^ (a.mag.val / 8388608 - 1) := by
  unfold scaled
  simp only
  generalize a.mag.val = m
  have hfm : m % 8388608 < 8388608 := Nat.mod_lt _ (by decide)
  have hp : 0 < 2 ^ (m / 8388608 - 1) := Nat.pow_pos (by decide)
  by_cases hm : m / 8388608 = 0
  · rw [if_pos hm]
    have : 16777216 ≤ 16777216 * 2 ^ (m / 8388608 - 1) := Nat.le_mul_of_pos_right _ hp
    omega
  · rw [if_neg hm]
    exact Nat.mul_lt_mul_of_pos_right (by omega) hp

theorem rne_succ_of_gt_half {p q n : Nat} (hn : n * q ≤ p) (hhalf : q < 2 * (p - n * q))
    (hq : 0 < q) : n + 1 ≤ rne p q := by
  have hdiv : n ≤ p / q := (Nat.le_div_iff_mul_le hq).mpr hn
  have hge := rne_ge p q
  by_cases hlt : n < p / q
  · omega
  · have heq : p / q = n := by omega
    have hmod : p % q = p - n * q := by
      have := Nat.div_add_mod p q
      rw [heq] at this
      have h2 : q * n = n * q := Nat.mul_comm _ _
      omega
    unfold rne
    simp only [heq, hmod]
    rw [if_neg (by omega), if_pos hhalf]

/-- A quotient that exceeds one by more than `2^-24` rounds above `1.0f`. -/
theorem roundMag_gt_one {p q u : Nat} (hq : 0 < q) (hu : q < 16777216 * u)
    (h : (q + u) * 2 ^ 149 ≤ p) : 1065353216 < roundMag p q := by
  have hq149 : q * 2 ^ 149 ≤ p := by
    have : q * 2 ^ 149 ≤ (q + u) * 2 ^ 149 := Nat.mul_le_mul_right _ (by omega)
    omega
  obtain ⟨h1, h2⟩ := expoInv_expoOf p q
  have he : 126 ≤ expoOf p q := by
    by_contra hlt
    have hlt : expoOf p q + 1 ≤ 126 := by omega
    rcases h2 with h2 | h2
    · omega
    · have hpow : 2 ^ (expoOf p q + 1) ≤ 2 ^ 126 := Nat.pow_le_pow_right (by decide) hlt
      have : q * 2 ^ (expoOf p q + 1) * 8388608 ≤ q * 2 ^ 126 * 8388608 :=
        Nat.mul_le_mul_right _ (Nat.mul_le_mul_left _ hpow)
      have e149 : q * 2 ^ 126 * 8388608 = q * 2 ^ 149 := by
        rw [Nat.mul_assoc]; congr 1
      omega
  have hlow : q * 2 ^ expoOf p q * 8388608 ≤ p := by
    rcases h1 with h1 | h1
    · omega
    · exact h1
  have hpos : 0 < q * 2 ^ expoOf p q := Nat.mul_pos hq (Nat.pow_pos (by decide))
  unfold roundMag
  simp only [infMag]
  refine Nat.lt_min.mpr ⟨?_, by decide⟩
  by_cases he2 : expoOf p q = 126
  · rw [he2] at hlow hpos ⊢
    have hmul : (q + u) * 2 ^ 149 = 8388608 * (q * 2 ^ 126) + u * 2 ^ 149 := by
      have : (2 : Nat) ^ 149 = 8388608 * 2 ^ 126 := by norm_num
      rw [this]; ring
    have hu2 : q * 2 ^ 126 < 2 * (u * 2 ^ 149) := by
      have e1 : 2 * (u * 2 ^ 149) = 16777216 * u * 2 ^ 126 := by
        have : (2 : Nat) ^ 149 = 8388608 * 2 ^ 126 := by norm_num
        rw [this]; ring
      rw [e1]
      exact Nat.mul_lt_mul_of_pos_right hu (Nat.pow_pos (by decide))
    have hr := rne_succ_of_gt_half (p := p) (q := q * 2 ^ 126) (n := 8388608)
      (by omega) (by omega) hpos
    omega
  · have hdiv : 8388608 ≤ p / (q * 2 ^ expoOf p q) := by
      rw [Nat.le_div_iff_mul_le hpos, Nat.mul_comm]
      exact hlow
    have hr := rne_ge p (q * 2 ^ expoOf p q)
    omega

theorem roundMag_pos {p : Nat} (hp : 0 < p) : 0 < roundMag p 1 := by
  unfold roundMag
  simp only [infMag]
  refine Nat.lt_min.mpr ⟨?_, by decide⟩
  by_cases he : expoOf p 1 = 0
  · rw [he]
    have : rne p (1 * 2 ^ 0) = p := by
      unfold rne
      simp [Nat.mod_one]
    omega
  · omega

theorem fdiv_gt_one {x y : Sample} (hx : x.neg = false) (hy : y.neg = false)
    (ht : truthy x = true) (h : flt x y = true) : 1065353216 < (fdiv y x).mag.val := by
  obtain ⟨h1, h2, h3⟩ := flt_nonneg hx hy h
  have hx0 : x.mag.val ≠ 0 := by simpa [truthy] using ht
  have hyN : y.isNaN = false := by simp [isNaN]; exact h2
  have hxN : x.isNaN = false := by simp [isNaN]; exact h1
  have hxI : x.isInf = false := by simp [isInf]; omega
  unfold fdiv
  simp only [hyN, hxN, Bool.or_self, Bool.false_eq_true, if_false, hxI, hx, hy, Bool.xor_self]
  by_cases hyI : y.isInf = true
  · rw [if_pos hyI]
    decide
  · rw [if_neg hyI, if_neg hx0]
    exact roundMag_gt_one (scaled_pos hx0) (scaled_lt_ulp x)
      (Nat.mul_le_mul_right _ (scaled_gap h3))

theorem fsub_one_pos {z : Sample} (hneg : z.neg = false) (h1 : 1065353216 < z.mag.val)
    (h2 : z.mag.val ≤ infMag) : (fsub z one).mag.val ≠ 0 := by
  have hzN : z.isNaN = false := by simp [isNaN]; exact h2
  have hs : (2 : Nat) ^ 149 < z.scaled := by
    have hg := scaled_gap (a := one) (b := z) h1
    rw [scaled_one] at hg
    have : 0 < 2 ^ (one.mag.val / 8388608 - 1) := Nat.pow_pos (by decide)
    omega
  have hone : (fneg one).signedScaled = - ((2 ^ 149 : Nat) : Int) := by decide
  unfold fsub fadd
  have e1 : (fneg one).isNaN = false := by decide
  have e2 : (fneg one).isInf = false := by decide
  have e3 : (fneg one).neg = true := by decide
  simp only [hzN, e1, e2, e3, Bool.or_self, Bool.false_eq_true, if_false, Bool.false_and,
    hneg, Bool.and_true]
  by_cases hzI : z.isInf = true
  · rw [if_pos hzI]
    simp only [isInf, infMag, decide_eq_true_eq] at hzI
    omega
  · rw [if_neg hzI]
    have hsz : z.signedScaled = (z.scaled : Int) := by simp [signedScaled, hneg]
    rw [hsz, hone]
    have hgt : (0 : Int) < (z.scaled : Int) + -((2 ^ 149 : Nat) : Int) := by
      have : ((2 ^ 149 : Nat) : Int) < (z.scaled : Int) := by exact_mod_cast hs
      omega
    have h0 : ¬ (z.scaled : Int) + -((2 ^ 149 : Nat) : Int) = 0 := by omega
    simp only [h0, if_false, rounded]
    have hpos : 0 < ((z.scaled : Int) + -((2 ^ 149 : Nat) : Int)).natAbs := by omega
    have := roundMag_pos hpos
    omega

/-- A sample that is neither negative, nor a NaN, nor a zero is greater than
zero. -/
theorem flt_zero_of_pos {d : Sample} (h : NonNeg d) (h0 : d.mag.val ≠ 0) :
    flt zero d = true := by
  rw [flt_zero_left d h.1, h.notNaN]
  simp [truthy, h0]

theorem ratio_pos {x y : Sample} (hx : x.neg = false) (hy : y.neg = false)
    (ht : truthy x = true) (h : flt x y = true) : flt zero (fsub (fdiv y x) one) = true := by
  obtain ⟨ha, hb, hc⟩ := fdiv_ge_one hx hy ht h
  exact flt_zero_of_pos (fsub_one_nonNeg ha hb hc) (fsub_one_pos ha (fdiv_gt_one hx hy ht h) hc)

theorem feq_iff {a b : Sample} (ha : a.isNaN = false) (hb : b.isNaN = false) :
    feq a b = true ↔ a.key = b.key := by
  simp [feq, ha, hb]

theorem key_eq_iff (a b : Sample) :
    a.key = b.key ↔ (a.mag.val = 0 ∧ b.mag.val = 0) ∨ (a.neg = b.neg ∧ a.mag.val = b.mag.val) := by
  unfold key
  cases a.neg <;> cases b.neg <;> simp <;> omega

theorem flt_fabs (a b : Sample) (ha : a.isNaN = false) (hb : b.isNaN = false) :
    flt (fabs a) (fabs b) = decide (a.mag.val < b.mag.val) := by
  have h1 : (fabs a).isNaN = false := ha
  have h2 : (fabs b).isNaN = false := hb
  unfold flt
  rw [h1, h2]
  simp only [Bool.not_false, Bool.true_and, key, fabs, Bool.false_eq_true, if_false]
  apply decide_eq_decide.mpr
  omega

theorem feq_fabs (a b : Sample) (ha : a.isNaN = false) (hb : b.isNaN = false) :
    feq (fabs a) (fabs b) = decide (a.mag.val = b.mag.val) := by
  have h1 : (fabs a).isNaN = false := ha
  have h2 : (fabs b).isNaN = false := hb
  unfold feq
  rw [h1, h2]
  simp only [Bool.not_false, Bool.true_and, key, fabs, Bool.false_eq_true, if_false]
  apply decide_eq_decide.mpr
  omega

theorem diffOf_of_nan {a b : Sample} (h : a.isNaN = true ∨ b.isNaN = true) :
    diffOf a b = one := by
  have c1 : ¬ flt (fmul a b) zero = true := by
    intro hc
    obtain ⟨ha, hb, _⟩ := (fmul_neg_iff a b).mp hc
    rcases h with h | h
    · rw [ha] at h; exact absurd h (by decide)
    · rw [hb] at h; exact absurd h (by decide)
  have hN1 : (fabs a).isNaN = true ∨ (fabs b).isNaN = true := h
  have hN2 : (fabs b).isNaN = true ∨ (fabs a).isNaN = true := h.symm
  unfold diffOf
  simp only [c1, flt_nan hN1, flt_nan hN2, feq_nan hN1, Bool.and_false, Bool.false_eq_true,
    if_false]

theorem diffOf_of_feq {a b : Sample} (ha : a.isNaN = false) (hb : b.isNaN = false)
    (h : feq a b = true) : diffOf a b = zero := by
  have hk := (key_eq_iff a b).mp ((feq_iff ha hb).mp h)
  have hmag : a.mag.val = b.mag.val := by
    rcases hk with ⟨h1, h2⟩ | ⟨_, h2⟩
    · omega
    · exact h2
  have c1 : ¬ flt (fmul a b) zero = true := by
    intro hc
    obtain ⟨_, _, hs, h1, h2, _⟩ := (fmul_neg_iff a b).mp hc
    rcases hk with ⟨k1, _⟩ | ⟨k1, _⟩
    · exact h1 k1
    · exact hs k1
  unfold diffOf
  simp only [c1, flt_fabs a b ha hb, flt_fabs b a hb ha, feq_fabs a b ha hb, hmag,
    Nat.lt_irrefl, decide_False, Bool.and_false, Bool.false_eq_true, if_false, decide_True,
    if_true]

theorem diffOf_pos_of_ne {a b : Sample} (ha : a.isNaN = false) (hb : b.isNaN = false)
    (h : feq a b = false)
    (hslip : ¬ (a.neg ≠ b.neg ∧ a.mag.val ≠ 0 ∧ a.mag.val = b.mag.val ∧
      (fmul a b).mag.val = 0)) :
    flt zero (diffOf a b) = true := by
  have hone : flt zero one = true := by decide
  have hk : ¬ ((a.mag.val = 0 ∧ b.mag.val = 0) ∨ (a.neg = b.neg ∧ a.mag.val = b.mag.val)) := by
    intro hh
    have := (feq_iff ha hb).mpr ((key_eq_iff a b).mpr hh)
    rw [h] at this
    exact absurd this (by decide)
  unfold diffOf
  simp only
  by_cases c1 : flt (fmul a b) zero = true
  · rw [if_pos c1]; exact hone
  · rw [if_neg c1]
    by_cases c2 : (truthy (fabs a) && flt (fabs a) (fabs b)) = true
    · rw [if_pos c2]
      simp only [Bool.and_eq_true] at c2
      exact ratio_pos rfl rfl c2.1 c2.2
    · rw [if_neg c2]
      by_cases c3 : (truthy (fabs b) && flt (fabs b) (fabs a)) = true
      · rw [if_pos c3]
        simp only [Bool.and_eq_true] at c3
        exact ratio_pos rfl rfl c3.1 c3.2
      · rw [if_neg c3]
        by_cases c4 : feq (fabs a) (fabs b) = true
        · exfalso
          rw [feq_fabs a b ha hb, decide_eq_true_eq] at c4
          have hns : ¬ (a.neg ≠ b.neg ∧ a.mag.val ≠ 0 ∧ b.mag.val ≠ 0) := by
            rintro ⟨hs, h1, h2⟩
            by_cases hm : (fmul a b).mag.val = 0
            · exact hslip ⟨hs, h1, c4, hm⟩
            · exact c1 ((fmul_neg_iff a b).mpr ⟨ha, hb, hs, h1, h2, hm⟩)
          apply hk
          by_cases hs : a.neg = b.neg
          · exact Or.inr ⟨hs, c4⟩
          · left
            by_cases h1 : a.mag.val = 0
            · exact ⟨h1, by omega⟩
            · exact absurd ⟨hs, h1, by omega⟩ hns
        · rw [if_neg c4]; exact hone

theorem diffOf_of_slip {a b : Sample} (ha : a.isNaN = false)
    (hmag : a.mag.val = b.mag.val) (hm : (fmul a b).mag.val = 0) : diffOf a b = zero := by
  have hb : b.isNaN = false := by
    simp only [isNaN, decide_eq_false_iff_not] at ha ⊢
    omega
  have c1 : ¬ flt (fmul a b) zero = true := by
    intro hc
    obtain ⟨_, _, _, _, _, h3⟩ := (fmul_neg_iff a b).mp hc
    exact h3 hm
  unfold diffOf
  simp only [c1, flt_fabs a b ha hb, flt_fabs b a hb ha, feq_fabs a b ha hb, hmag,
    Nat.lt_irrefl, decide_False, Bool.and_false, Bool.false_eq_true, if_false, decide_True,
    if_true]

theorem isNaN_of_feq {a b : Sample} (h : feq a b = true) : a.isNaN = false ∧ b.isNaN = false := by
  simp only [feq, Bool.and_eq_true, Bool.not_eq_true'] at h
  exact ⟨h.1.1, h.1.2⟩

/-! ## The claim on equal and unequal samples -/

/-- C17, with `a = b` read as the comparison `a == b` of the two `float`s.
For all samples the difference is either `0` or greater than zero, and it is
`0` exactly when the samples compare equal or when they form a pair of the
following kind: not NaN, of opposite sign, of the same nonzero magnitude, and
with a product that rounds to zero. Such pairs are unequal samples with
difference `0`, which the claim excludes; `1e-30f` and `-1e-30f` are one. (A
NaN does not compare equal to itself and has difference `1` from itself;
`+0.0f` and `-0.0f` compare equal and have difference `0`.) -/
theorem diffOf_zero_iff :
    (∀ a b : Sample,
      (diffOf a b = zero ↔
        feq a b = true ∨
          (a.isNaN = false ∧ a.neg ≠ b.neg ∧ a.mag.val ≠ 0 ∧ a.mag.val = b.mag.val ∧
            (fmul a b).mag.val = 0)) ∧
      (diffOf a b = zero ∨ flt zero (diffOf a b) = true)) ∧
    (feq tiny negTiny = false ∧ tiny.neg ≠ negTiny.neg ∧ tiny.mag.val ≠ 0 ∧
      tiny.mag.val = negTiny.mag.val ∧ (fmul tiny negTiny).mag.val = 0 ∧
      diffOf tiny negTiny = zero) ∧
    (feq nan nan = false ∧ diffOf nan nan = one ∧
      feq zero (zeroS true) = true ∧ diffOf zero (zeroS true) = zero ∧
      flt zero (diffOf one negOne) = true ∧ flt zero (diffOf zero one) = true) := by
  refine ⟨fun a b => ?_, by decide, by decide⟩
  have hmain : diffOf a b = zero ↔
      feq a b = true ∨
        (a.isNaN = false ∧ a.neg ≠ b.neg ∧ a.mag.val ≠ 0 ∧ a.mag.val = b.mag.val ∧
          (fmul a b).mag.val = 0) := by
    constructor
    · intro h0
      by_cases hN : a.isNaN = true ∨ b.isNaN = true
      · rw [diffOf_of_nan hN] at h0
        exact absurd h0 (by decide)
      · have ha : a.isNaN = false := by
          cases h : a.isNaN
          · rfl
          · exact absurd (Or.inl h) hN
        have hb : b.isNaN = false := by
          cases h : b.isNaN
          · rfl
          · exact absurd (Or.inr h) hN
        by_cases he : feq a b = true
        · exact Or.inl he
        · right
          by_contra hslip
          have hpos := diffOf_pos_of_ne ha hb (by simpa using he)
            (fun h => hslip ⟨ha, h⟩)
          rw [h0] at hpos
          exact absurd hpos (by decide)
    · rintro (he | ⟨ha, _, _, hmag, hm⟩)
      · exact diffOf_of_feq (isNaN_of_feq he).1 (isNaN_of_feq he).2 he
      · exact diffOf_of_slip ha hmag hm
  refine ⟨hmain, ?_⟩
  by_cases h0 : diffOf a b = zero
  · exact Or.inl h0
  · right
    have hnn := diffOf_nonNeg a b
    apply flt_zero_of_pos hnn
    intro hm
    apply h0
    obtain ⟨hneg, _⟩ := hnn
    have : diffOf a b = ⟨false, ⟨0, by decide⟩⟩ := by
      cases hd : diffOf a b with
      | mk n m =>
        rw [hd] at hneg hm
        simp only at hneg hm
        subst hneg
        congr
        exact Fin.ext hm
    rw [this]
    rfl

/-! ## File names -/

theorem snprintf_length_le (size : Nat) (s : String) : (snprintf size s).length ≤ size - 1 := by
  simp only [snprintf, String.length, List.length_take]
  omega

theorem snprintf_of_fits (size : Nat) (s : String) (h : s.length ≤ size - 1) :
    snprintf size s = s := by
  unfold snprintf
  rw [List.take_of_length_le h]

theorem length_fourDigits (n : Nat) : (fourDigits n).length = 4 := rfl

theorem printf04i_of_small (i : Int) (h0 : 0 ≤ i) (h1 : i ≤ 9999) :
    printf04i i = fourDigits i.toNat := by
  unfold printf04i
  rw [if_pos h0, if_pos (by omega)]

theorem length_append4 (a b c d : String) :
    (a ++ b ++ c ++ d).length = a.length + b.length + c.length + d.length := by
  simp only [String.length_append]

theorem getFileName_of_fits (is_tar : Bool) (role : String) (i : Int) (h0 : 0 ≤ i)
    (h1 : i ≤ 9999) (hlen : role.length + 12 ≤ FILENAME_MAX) :
    getFileName is_tar role i
      = (if is_tar then "TAR" else "REF") ++ role ++ ⟨fourDigits i.toNat⟩ ++ ".bin" := by
  unfold getFileName
  rw [printf04i_of_small i h0 h1]
  apply snprintf_of_fits
  rw [length_append4]
  have e1 : (if is_tar then "TAR" else "REF").length = 3 := by cases is_tar <;> rfl
  have e2 : (⟨fourDigits i.toNat⟩ : String).length = 4 := rfl
  have e3 : ".bin".length = 4 := rfl
  rw [e1, e2, e3]
  simp only [FILENAME_MAX] at hlen ⊢
  omega

theorem canonicalKey_name (pre role digits : String) (hpre : pre.length = 3) :
    canonicalKey (pre ++ role ++ digits ++ ".bin") = role ++ digits ++ ".bin" := by
  unfold canonicalKey
  apply String.ext
  simp only [String.data_append, List.append_assoc]
  rw [List.drop_append_of_le_length (by rw [← String.length, hpre])]
  have : List.drop 3 pre.data = [] := by
    apply List.drop_eq_nil_of_le
    rw [← String.length, hpre]
  rw [this, List.nil_append]

/-! ## The claim on file names -/

/-- C12: for every role name of the tool (`Fwrd`, `Bwrd`, `Grad`, `Wght`),
side flag and index `0 <= i <= 9999`, `getFileName` gives the side name (`TAR`
or `REF`), the role, the four digits of `i` and `.bin`; the reference and the
target name have the same canonical key, the role, the digits and `.bin`; and
the three paths of `processFile` for that key are `./`, the directory, a
slash and then the reference name, the target name, and `OUT` with the key,
as far as the buffer of `FILENAME_MAX` characters takes them, which is in
full for a directory name of at most 4000 characters. -/
theorem getFileName_spec (flags : Flags) (is_tar : Bool) (role : String) (i : Int)
    (hrole : role ∈ ["Fwrd", "Bwrd", "Grad", "Wght"]) (h0 : 0 ≤ i) (h1 : i ≤ 9999) :
    getFileName is_tar role i
        = (if is_tar then "TAR" else "REF") ++ role ++ ⟨fourDigits i.toNat⟩ ++ ".bin" ∧
      canonicalKey (getFileName false role i) = role ++ ⟨fourDigits i.toNat⟩ ++ ".bin" ∧
      canonicalKey (getFileName true role i) = role ++ ⟨fourDigits i.toNat⟩ ++ ".bin" ∧
      cpuFileName flags (canonicalKey (getFileName false role i))
        = snprintf FILENAME_MAX ("./" ++ flags.collect_dir ++ "/" ++ getFileName false role i) ∧
      gpuFileName flags (canonicalKey (getFileName false role i))
        = snprintf FILENAME_MAX
            ("./" ++ flags.compare_output_dir ++ "/" ++ getFileName true role i) ∧
      diffFileName flags (canonicalKey (getFileName false role i))
        = snprintf FILENAME_MAX ("./" ++ flags.compare_output_dir ++ "/OUT" ++ role
            ++ ⟨fourDigits i.toNat⟩ ++ ".bin") ∧
      (flags.collect_dir.length ≤ 4000 →
        cpuFileName flags (canonicalKey (getFileName false role i))
          = "./" ++ flags.collect_dir ++ "/" ++ "REF" ++ role ++ ⟨fourDigits i.toNat⟩ ++ ".bin") ∧
      (flags.compare_output_dir.length ≤ 4000 →
        gpuFileName flags (canonicalKey (getFileName false role i))
            = "./" ++ flags.compare_output_dir ++ "/" ++ "TAR" ++ role ++ ⟨fourDigits i.toNat⟩
              ++ ".bin" ∧
          diffFileName flags (canonicalKey (getFileName false role i))
            = "./" ++ flags.compare_output_dir ++ "/" ++ "OUT" ++ role ++ ⟨fourDigits i.toNat⟩
              ++ ".bin") := by
  have hlen4 : role.length = 4 := by
    simp only [List.mem_cons, List.mem_singleton, List.not_mem_nil, or_false] at hrole
    rcases hrole with rfl | rfl | rfl | rfl <;> rfl
  have hlen : role.length + 12 ≤ FILENAME_MAX := by
    rw [hlen4]
    decide
  have hr := getFileName_of_fits false role i h0 h1 hlen
  have ht := getFileName_of_fits true role i h0 h1 hlen
  simp only [Bool.false_eq_true, if_false, if_true] at hr ht
  have kr := canonicalKey_name "REF" role ⟨fourDigits i.toNat⟩ rfl
  have kt := canonicalKey_name "TAR" role ⟨fourDigits i.toNat⟩ rfl
  have e4 : (⟨fourDigits i.toNat⟩ : String).length = 4 := rfl
  have hcpu : cpuFileName flags (canonicalKey (getFileName false role i))
      = snprintf FILENAME_MAX ("./" ++ flags.collect_dir ++ "/" ++ getFileName false role i) := by
    rw [hr, kr]
    unfold cpuFileName
    congr 1
    apply String.ext
    simp [String.data_append]
  have hgpu : gpuFileName flags (canonicalKey (getFileName false role i))
      = snprintf FILENAME_MAX
          ("./" ++ flags.compare_output_dir ++ "/" ++ getFileName true role i) := by
    rw [hr, kr, ht]
    unfold gpuFileName
    congr 1
    apply String.ext
    simp [String.data_append]
  have hdiff : diffFileName flags (canonicalKey (getFileName false role i))
      = snprintf FILENAME_MAX ("./" ++ flags.compare_output_dir ++ "/OUT" ++ role
          ++ ⟨fourDigits i.toNat⟩ ++ ".bin") := by
    rw [hr, kr]
    unfold diffFileName
    congr 1
    apply String.ext
    simp [String.data_append]
  refine ⟨getFileName_of_fits is_tar role i h0 h1 hlen, ?_, ?_, hcpu, hgpu, hdiff, ?_, ?_⟩
  · rw [hr, kr]
  · rw [ht, kt]
  · intro hd
    rw [hcpu, hr, snprintf_of_fits]
    · apply String.ext
      simp [String.data_append]
    · simp only [String.length_append, hlen4, e4, FILENAME_MAX]
      have e1 : "./".length = 2 := rfl
      have e2 : "/".length = 1 := rfl
      have e3 : "REF".length = 3 := rfl
      have e5 : ".bin".length = 4 := rfl
      omega
  · intro hd
    constructor
    · rw [hgpu, ht, snprintf_of_fits]
      · apply String.ext
        simp [String.data_append]
      · simp only [String.length_append, hlen4, e4, FILENAME_MAX]
        have e1 : "./".length = 2 := rfl
        have e2 : "/".length = 1 := rfl
        have e3 : "TAR".length = 3 := rfl
        have e5 : ".bin".length = 4 := rfl
        omega
    · rw [hdiff, snprintf_of_fits]
      · apply String.ext
        simp [String.data_append]
      · simp only [String.length_append, hlen4, e4, FILENAME_MAX]
        have e1 : "./".length = 2 := rfl
        have e2 : "/OUT".length = 4 := rfl
        have e5 : ".bin".length = 4 := rfl
        omega

/-- C12, on the role `Fwrd` and the index 7, and on `Wght` and the index 12. -/
theorem getFileName_spec_witness :
    getFileName false "Fwrd" 7 = "REFFwrd0007.bin" ∧
      getFileName true "Fwrd" 7 = "TARFwrd0007.bin" ∧
      getFileName true "Wght" 12 = "TARWght0012.bin" ∧
      canonicalKey (getFileName false "Fwrd" 7) = "Fwrd" ++ ⟨fourDigits 7⟩ ++ ".bin" ∧
      canonicalKey "REFFwrd0007.bin" = "Fwrd0007.bin" ∧
      cpuFileName sampleFlags "Fwrd0007.bin" = "./ref/REFFwrd0007.bin" ∧
      gpuFileName sampleFlags "Fwrd0007.bin" = "./out/TARFwrd0007.bin" ∧
      diffFileName sampleFlags "Fwrd0007.bin" = "./out/OUTFwrd0007.bin" :=
  ⟨by decide, by decide, by decide,
    (getFileName_spec sampleFlags false "Fwrd" 7 (by decide) (by decide) (by decide)).2.1,
    by decide, by decide, by decide, by decide⟩

/-! ## File discovery -/

theorem char_eq_of_toNat {a b : Char} (h1 : ¬ a.toNat < b.toNat) (h2 : ¬ b.toNat < a.toNat) :
    a = b := by
  have h : a.toNat = b.toNat := by omega
  rw [← Char.ofNat_toNat a, ← Char.ofNat_toNat b, h]

theorem nameLe_total : ∀ a b : List Char, nameLe a b = true ∨ nameLe b a = true
  | [], _ => Or.inl rfl
  | _ :: _, [] => Or.inr rfl
  | a :: as, b :: bs => by
    unfold nameLe
    by_cases h1 : a.toNat < b.toNat
    · left; rw [if_pos h1]
    · by_cases h2 : b.toNat < a.toNat
      · right; rw [if_pos h2]
      · rw [if_neg h1, if_neg h2, if_neg h2, if_neg h1]
        exact nameLe_total as bs

theorem nameLe_trans : ∀ a b c : List Char, nameLe a b = true → nameLe b c = true →
    nameLe a c = true
  | [], _, _, _, _ => by unfold nameLe; rfl
  | _ :: _, [], _, h, _ => by simp [nameLe] at h
  | _ :: _, _ :: _, [], _, h => by simp [nameLe] at h
  | a :: as, b :: bs, c :: cs, h1, h2 => by
    unfold nameLe at h1 h2 ⊢
    by_cases ab : a.toNat < b.toNat
    · by_cases bc : b.toNat < c.toNat
      · rw [if_pos (by omega)]
      · by_cases cb : c.toNat < b.toNat
        · rw [if_neg bc, if_pos cb] at h2
          exact absurd h2 (by decide)
        · rw [if_pos (by omega)]
    · by_cases ba : b.toNat < a.toNat
      · rw [if_neg ab, if_pos ba] at h1
        exact absurd h1 (by decide)
      · rw [if_neg ab, if_neg ba] at h1
        by_cases bc : b.toNat < c.toNat
        · rw [if_pos (by omega)]
        · by_cases cb : c.toNat < b.toNat
          · rw [if_neg bc, if_pos cb] at h2
            exact absurd h2 (by decide)
          · rw [if_neg bc, if_neg cb] at h2
            rw [if_neg (by omega), if_neg (by omega)]
            exact nameLe_trans as bs cs h1 h2

theorem nameLe_antisymm : ∀ a b : List Char, nameLe a b = true → nameLe b a = true → a = b
  | [], [], _, _ => rfl
  | [], _ :: _, _, h => by simp [nameLe] at h
  | _ :: _, [], h, _ => by simp [nameLe] at h
  | a :: as, b :: bs, h1, h2 => by
    unfold nameLe at h1 h2
    by_cases ab : a.toNat < b.toNat
    · rw [if_neg (by omega), if_pos ab] at h2
      exact absurd h2 (by decide)
    · by_cases ba : b.toNat < a.toNat
      · rw [if_neg ab, if_pos ba] at h1
        exact absurd h1 (by decide)
      · rw [if_neg ab, if_neg ba] at h1
        rw [if_neg ba, if_neg ab] at h2
        rw [char_eq_of_toNat ab ba, nameLe_antisymm as bs h1 h2]

theorem NameLe.isTotal : IsTotal String NameLe := ⟨fun a b => nameLe_total a.data b.data⟩

theorem NameLe.isTrans : IsTrans String NameLe :=
  ⟨fun a b c => nameLe_trans a.data b.data c.data⟩

theorem NameLe.isAntisymm : IsAntisymm String NameLe :=
  ⟨fun a b h1 h2 => String.ext (nameLe_antisymm a.data b.data h1 h2)⟩

/-! ## The claim on file discovery -/

/-- C13: for every directory listing, `findFiles` leaves in the file list one
item for each entry whose name begins with `REF`, that name without its first
three characters, and nothing else; the list is in ascending lexicographic
order; and it is the same list for every order in which the entries are
enumerated. A directory that cannot be opened gives the empty list. -/
theorem findFiles_spec (names names2 : List String) :
    (FileList.findFiles (some names)).Perm ((names.filter isReference).map canonicalKey) ∧
      List.Sorted NameLe (FileList.findFiles (some names)) ∧
      (names2.Perm names → FileList.findFiles (some names2) = FileList.findFiles (some names)) ∧
      FileList.findFiles none = [] := by
  haveI := NameLe.isTotal
  haveI := NameLe.isTrans
  haveI := NameLe.isAntisymm
  refine ⟨List.perm_insertionSort _ _, List.sorted_insertionSort _ _, fun hp => ?_, rfl⟩
  apply List.eq_of_perm_of_sorted (r := NameLe) _ (List.sorted_insertionSort _ _)
    (List.sorted_insertionSort _ _)
  exact (List.perm_insertionSort _ _).trans
    (((hp.filter _).map _).trans (List.perm_insertionSort _ _).symm)

/-- C13, on the listing `REFFwrd0000.bin`, `REFFwrd0001.bin`,
`TARFwrd0000.bin`, enumerated in two orders. -/
theorem findFiles_spec_witness :
    ["TARFwrd0000.bin", "REFFwrd0001.bin", "REFFwrd0000.bin"].Perm
        ["REFFwrd0000.bin", "REFFwrd0001.bin", "TARFwrd0000.bin"] ∧
      FileList.findFiles (some ["TARFwrd0000.bin", "REFFwrd0001.bin", "REFFwrd0000.bin"])
        = FileList.findFiles (some ["REFFwrd0000.bin", "REFFwrd0001.bin", "TARFwrd0000.bin"]) ∧
      FileList.findFiles (some ["REFFwrd0000.bin", "REFFwrd0001.bin", "TARFwrd0000.bin"])
        = ["Fwrd0000.bin", "Fwrd0001.bin"] :=
  ⟨by decide,
    (findFiles_spec ["REFFwrd0000.bin", "REFFwrd0001.bin", "TARFwrd0000.bin"]
      ["TARFwrd0000.bin", "REFFwrd0001.bin", "REFFwrd0000.bin"]).2.2.1 (by decide),
    by decide⟩

/-! ## The layer dictionary -/

theorem ofPairs_concat (ps : List (String × String)) (p : String × String) :
    LayerDictionary.ofPairs (ps ++ [p])
      = (LayerDictionary.ofPairs ps).set (cstr (p.1 ++ ".bin")) p.2 := by
  simp [LayerDictionary.ofPairs, List.foldl_append]

theorem layersInfo_ofPairs (q : String) (ps : List (String × String)) :
    (LayerDictionary.ofPairs ps).layersInfo q = ((pairsFor q ps).getLast?).map Prod.snd := by
  induction ps using List.reverseRecOn with
  | nil => rfl
  | append_singleton ps p ih =>
    rw [ofPairs_concat]
    simp only [LayerDictionary.set, pairsFor, List.filter_append]
    by_cases h : cstr (p.1 ++ ".bin") = q
    · have h2 : q = cstr (p.1 ++ ".bin") := h.symm
      simp [h, List.filter_cons]
    · have h2 : ¬ q = cstr (p.1 ++ ".bin") := fun e => h e.symm
      simp only [h2, if_false, ih, pairsFor]
      simp [h, List.filter_cons]

theorem label_eq (d : LayerDictionary) (q : String) :
    d.label q = (d.layersInfo q).getD "" := by
  unfold LayerDictionary.label LayerDictionary.getLayerType
  cases d.layersInfo q <;> rfl

/-- A look-up changes no label. -/
theorem label_getLayerType (d : LayerDictionary) (q r : String) :
    (d.getLayerType q).2.label r = d.label r := by
  rw [label_eq, label_eq]
  unfold LayerDictionary.getLayerType
  cases h : d.layersInfo q with
  | some v => rfl
  | none =>
    simp only [LayerDictionary.set]
    by_cases hr : r = q
    · subst hr
      simp [h]
    · simp [hr]

theorem cstr_of_noNul (s : String) (h : ∀ c, c ∈ s.data → c.toNat ≠ 0) : cstr s = s := by
  unfold cstr
  apply String.ext
  simp only
  rw [List.takeWhile_eq_self_iff]
  intro c hc
  simpa using h c hc

theorem cstr_key (k : String) (h : ∀ c, c ∈ k.data → c.toNat ≠ 0) :
    cstr (k ++ ".bin") = k ++ ".bin" := by
  apply cstr_of_noNul
  intro c hc
  rw [String.data_append, List.mem_append] at hc
  rcases hc with hc | hc
  · exact h c hc
  · have : c = '.' ∨ c = 'b' ∨ c = 'i' ∨ c = 'n' := by simpa using hc
    rcases this with rfl | rfl | rfl | rfl <;> decide

theorem splitTokens_chars (P : Char → Prop) :
    ∀ (text cur : List Char), (∀ c, c ∈ cur → P c) → (∀ c, c ∈ text → P c) →
      ∀ t, t ∈ splitTokens cur text → ∀ c, c ∈ t.data → P c := by
  intro text
  induction text with
  | nil =>
    intro cur hcur _ t ht c hc
    unfold splitTokens at ht
    split at ht
    · cases ht
    · rw [List.mem_singleton] at ht
      subst ht
      exact hcur c hc
  | cons x xs ih =>
    intro cur hcur htext t ht c hc
    have hxs : ∀ c, c ∈ xs → P c := fun c h => htext c (List.mem_cons_of_mem _ h)
    unfold splitTokens at ht
    split at ht
    · split at ht
      · exact ih [] (fun _ h => by cases h) hxs t ht c hc
      · rcases List.mem_cons.1 ht with h | h
        · subst h
          exact hcur c hc
        · exact ih [] (fun _ h => by cases h) hxs t h c hc
    · refine ih (cur ++ [x]) ?_ hxs t ht c hc
      intro d hd
      rcases List.mem_append.1 hd with h | h
      · exact hcur d h
      · rw [List.mem_singleton] at h
        subst h
        exact htext _ (List.mem_cons_self _ _)

theorem tokenPairs_key_mem : ∀ (toks : List String) (p : String × String),
    p ∈ tokenPairs toks → p.1 ∈ toks
  | [], p, h => by simp [tokenPairs] at h
  | [_], p, h => by simp [tokenPairs] at h
  | k :: n :: rest, p, h => by
    simp only [tokenPairs, List.mem_cons] at h
    rcases h with rfl | h
    · simp
    · have := tokenPairs_key_mem rest p h
      simp [this]

theorem pairsFor_of_noNul (text : List Char) (q : String)
    (hnul : ∀ c, c ∈ text → c.toNat ≠ 0) :
    pairsFor q (tokenPairs (splitTokens [] text))
      = (tokenPairs (splitTokens [] text)).filter fun p => decide (p.1 ++ ".bin" = q) := by
  unfold pairsFor
  apply List.filter_congr
  intro p hp
  rw [cstr_key p.1 (splitTokens_chars (fun c => c.toNat ≠ 0) text [] (fun _ h => by cases h)
    hnul p.1 (tokenPairs_key_mem _ p hp))]

theorem pairsFor_of_keys (pairs : List (String × String)) (q : String)
    (hnul : ∀ p, p ∈ pairs → ∀ c, c ∈ p.1.data → c.toNat ≠ 0) :
    pairsFor q pairs = pairs.filter fun p => decide (p.1 ++ ".bin" = q) := by
  unfold pairsFor
  apply List.filter_congr
  intro p hp
  rw [cstr_key p.1 (hnul p hp)]

theorem label_ofText (text : List Char) (q : String) :
    (LayerDictionary.ofText text).label q
      = (((pairsFor q (tokenPairs (splitTokens [] text))).getLast?).map Prod.snd).getD "" := by
  rw [label_eq]
  unfold LayerDictionary.ofText
  rw [layersInfo_ofPairs]

/-! ## The claim on the layer dictionary -/

/-- C14: for every index file, read as pairs of whitespace-delimited tokens
of which no key holds a NUL character (so for every text file), and every
query `q`, `getLayerType(q)` returns the label of the last pair whose key
followed by `.bin` equals `q`, and the empty string when no pair has such a
key, also when the file cannot be opened; the look-up always returns and
changes no label. -/
theorem getLayerType_spec (fs : FileSys) (path : String) (q : String) :
    (∀ bytes, fs.content path = some bytes →
      (∀ p, p ∈ tokenPairs (splitTokens [] (textOfBytes bytes)) →
        ∀ c, c ∈ p.1.data → c.toNat ≠ 0) →
      (LayerDictionary.load fs path).label q
          = ((((tokenPairs (splitTokens [] (textOfBytes bytes))).filter
              fun p => decide (p.1 ++ ".bin" = q)).getLast?).map Prod.snd).getD "" ∧
        ((∀ p, p ∈ tokenPairs (splitTokens [] (textOfBytes bytes)) → p.1 ++ ".bin" ≠ q) →
          (LayerDictionary.load fs path).label q = "")) ∧
      (fs.content path = none → (LayerDictionary.load fs path).label q = "") ∧
      (∀ r, ((LayerDictionary.load fs path).getLayerType q).2.label r
        = (LayerDictionary.load fs path).label r) := by
  refine ⟨fun bytes hc hnul => ?_, fun h => ?_, fun r => label_getLayerType _ q r⟩
  · have hl : (LayerDictionary.load fs path).label q
        = ((((tokenPairs (splitTokens [] (textOfBytes bytes))).filter
            fun p => decide (p.1 ++ ".bin" = q)).getLast?).map Prod.snd).getD "" := by
      unfold LayerDictionary.load
      rw [hc]
      simp only
      rw [label_ofText, pairsFor_of_keys _ q hnul]
    refine ⟨hl, fun hno => ?_⟩
    rw [hl]
    have hnil : (tokenPairs (splitTokens [] (textOfBytes bytes))).filter
        (fun p => decide (p.1 ++ ".bin" = q)) = [] := by
      rw [List.filter_eq_nil_iff]
      intro p hp
      simpa using hno p hp
    rw [hnil]
    rfl
  · unfold LayerDictionary.load
    rw [h]
    rfl

/-- C14, on an index file with a repeated key: the later label wins, and a
key that the file does not hold has the empty label. -/
theorem getLayerType_spec_witness :
    (freshFs.write "out/CPUInfo.txt"
        (bytesOfText "Fwrd0000 Data\nFwrd0001 ReLU\nFwrd0000 Conv".data)).content
        "out/CPUInfo.txt"
      = some (bytesOfText "Fwrd0000 Data\nFwrd0001 ReLU\nFwrd0000 Conv".data) ∧
    tokenPairs (splitTokens []
        (textOfBytes (bytesOfText "Fwrd0000 Data\nFwrd0001 ReLU\nFwrd0000 Conv".data)))
      = [("Fwrd0000", "Data"), ("Fwrd0001", "ReLU"), ("Fwrd0000", "Conv")] ∧
    (LayerDictionary.load (freshFs.write "out/CPUInfo.txt"
        (bytesOfText "Fwrd0000 Data\nFwrd0001 ReLU\nFwrd0000 Conv".data))
      "out/CPUInfo.txt").label "Fwrd0000.bin"
      = ((((tokenPairs (splitTokens [] (textOfBytes
            (bytesOfText "Fwrd0000 Data\nFwrd0001 ReLU\nFwrd0000 Conv".data)))).filter
          fun p => decide (p.1 ++ ".bin" = "Fwrd0000.bin")).getLast?).map Prod.snd).getD "" ∧
    (LayerDictionary.load (freshFs.write "out/CPUInfo.txt"
        (bytesOfText "Fwrd0000 Data\nFwrd0001 ReLU\nFwrd0000 Conv".data))
      "out/CPUInfo.txt").label "Fwrd0000.bin" = "Conv" ∧
    (LayerDictionary.load (freshFs.write "out/CPUInfo.txt"
        (bytesOfText "Fwrd0000 Data\nFwrd0001 ReLU\nFwrd0000 Conv".data))
      "out/CPUInfo.txt").label "Fwrd0002.bin" = "" :=
  ⟨by decide, by decide,
    ((getLayerType_spec (freshFs.write "out/CPUInfo.txt"
        (bytesOfText "Fwrd0000 Data\nFwrd0001 ReLU\nFwrd0000 Conv".data))
      "out/CPUInfo.txt" "Fwrd0000.bin").1 _ (by decide) (by decide)).1,
    by decide, by decide⟩

/-! ## The text of an info file -/

theorem digitChar_toNat (d : Nat) : (digitChar d).toNat = 48 + d % 10 := by
  unfold digitChar
  have h := Nat.mod_lt d (show 0 < 10 by decide)
  generalize d % 10 = k at h
  interval_cases k <;> rfl

theorem digitChar_inj {a b : Nat} (h : digitChar a = digitChar b) : a % 10 = b % 10 := by
  have := congrArg Char.toNat h
  rw [digitChar_toNat, digitChar_toNat] at this
  omega

theorem fourDigits_inj {i j : Nat} (hi : i < 10000) (hj : j < 10000)
    (h : fourDigits i = fourDigits j) : i = j := by
  simp only [fourDigits, List.cons.injEq, and_true] at h
  obtain ⟨h1, h2, h3, h4⟩ := h
  have e1 := digitChar_inj h1
  have e2 := digitChar_inj h2
  have e3 := digitChar_inj h3
  have e4 := digitChar_inj h4
  omega

theorem decimal_length (k : Nat) : ∀ fuel n, 10 ^ k ≤ n → k < fuel →
    k + 1 ≤ (decimal fuel n).length := by
  induction k with
  | zero =>
    intro fuel n _ hf
    cases fuel with
    | zero => omega
    | succ f =>
      unfold decimal
      split_ifs <;> simp
  | succ k ih =>
    intro fuel n hn hf
    cases fuel with
    | zero => omega
    | succ f =>
      have h10 : 10 ≤ n := by
        have : 10 ^ 1 ≤ 10 ^ (k + 1) := Nat.pow_le_pow_right (by decide) (by omega)
        omega
      have hdiv : 10 ^ k ≤ n / 10 := by
        rw [Nat.le_div_iff_mul_le (by decide)]
        rw [Nat.pow_succ] at hn
        exact hn
      unfold decimal
      rw [if_neg (by omega), List.length_append]
      have := ih f (n / 10) hdiv (by omega)
      simp only [List.length_singleton]
      omega

theorem decimal_digits : ∀ fuel n c, c ∈ decimal fuel n → ∃ d, c = digitChar d := by
  intro fuel
  induction fuel with
  | zero => intro n c hc; simp [decimal] at hc
  | succ f ih =>
    intro n c hc
    unfold decimal at hc
    split_ifs at hc
    · exact ⟨n, by simpa using hc⟩
    · rcases List.mem_append.mp hc with hc | hc
      · exact ih _ c hc
      · exact ⟨n, by simpa using hc⟩

theorem printf04i_digits (j : Nat) (c : Char) (hc : c ∈ printf04i (j : Int)) :
    ∃ d, c = digitChar d := by
  unfold printf04i at hc
  rw [if_pos (Int.ofNat_nonneg j)] at hc
  split_ifs at hc
  · simp only [fourDigits, List.mem_cons, List.mem_singleton, List.not_mem_nil, or_false] at hc
    rcases hc with rfl | rfl | rfl | rfl <;> exact ⟨_, rfl⟩
  · exact decimal_digits _ _ c hc

theorem printf04i_eq_fourDigits {i j : Nat} (hi : i < 10000)
    (h : printf04i (j : Int) = fourDigits i) : j = i := by
  unfold printf04i at h
  rw [if_pos (Int.ofNat_nonneg j)] at h
  by_cases hj : (j : Int) < 10000
  · rw [if_pos hj, Int.toNat_ofNat] at h
    exact fourDigits_inj (by omega) hi h
  · rw [if_neg hj, Int.toNat_ofNat] at h
    have hl := decimal_length 4 (j + 1) j (by omega) (by omega)
    rw [h] at hl
    simp [fourDigits] at hl

theorem digitChar_plain (d : Nat) : isSpace (digitChar d) = false ∧ (digitChar d).toNat ≠ 0 := by
  have h := digitChar_toNat d
  have h10 := Nat.mod_lt d (show 0 < 10 by decide)
  constructor
  · simp only [isSpace, h, Bool.or_eq_false_iff, decide_eq_false_iff_not, Bool.and_eq_false_iff]
    omega
  · omega

theorem splitTokens_word (w : List Char) (hw : ∀ c, c ∈ w → isSpace c = false) :
    ∀ cur rest, splitTokens cur (w ++ rest) = splitTokens (cur ++ w) rest := by
  induction w with
  | nil => intro cur rest; simp
  | cons c w ih =>
    intro cur rest
    have hc : isSpace c = false := hw c (List.mem_cons_self _ _)
    rw [List.cons_append, splitTokens]
    simp only [hc, Bool.false_eq_true, if_false]
    rw [ih (fun x hx => hw x (List.mem_cons_of_mem _ hx))]
    simp

theorem splitTokens_space (cur rest : List Char) (s : Char) (hs : isSpace s = true)
    (hcur : cur ≠ []) : splitTokens cur (s :: rest) = ⟨cur⟩ :: splitTokens [] rest := by
  rw [splitTokens]
  simp only [hs, if_true, hcur, if_false]

/-- A line of two words gives two tokens. -/
theorem splitTokens_line (w1 w2 rest : List Char) (s1 s2 : Char)
    (h1 : ∀ c, c ∈ w1 → isSpace c = false) (h2 : ∀ c, c ∈ w2 → isSpace c = false)
    (n1 : w1 ≠ []) (n2 : w2 ≠ []) (hs1 : isSpace s1 = true) (hs2 : isSpace s2 = true) :
    splitTokens [] (w1 ++ s1 :: (w2 ++ s2 :: rest)) = ⟨w1⟩ :: ⟨w2⟩ :: splitTokens [] rest := by
  rw [splitTokens_word w1 h1, List.nil_append, splitTokens_space _ _ _ hs1 n1,
    splitTokens_word w2 h2, List.nil_append, splitTokens_space _ _ _ hs2 n2]

theorem tokenPairs_flatMap {ι : Type} (a b : ι → String) (l : List ι) (rest : List String) :
    tokenPairs (l.flatMap (fun i => [a i, b i]) ++ rest)
      = l.map (fun i => (a i, b i)) ++ tokenPairs rest := by
  induction l with
  | nil => rfl
  | cons i l ih =>
    show tokenPairs (a i :: b i :: (l.flatMap (fun i => [a i, b i]) ++ rest)) = _
    rw [tokenPairs, ih]
    rfl

theorem keyToken_plain (role : String) (hrole : Plain role) (i : Nat) :
    Plain (keyToken role i) := by
  refine ⟨?_, ?_⟩
  · intro h
    simp only [keyToken, List.append_eq_nil] at h
    exact hrole.1 h.1
  · intro c hc
    simp only [keyToken, List.mem_append] at hc
    rcases hc with hc | hc
    · exact hrole.2 c hc
    · obtain ⟨d, rfl⟩ := printf04i_digits i c hc
      exact (digitChar_plain d).1

theorem tokens_lines (role : String) (hrole : Plain role) (ty : Nat → String) (l : List Nat)
    (hty : ∀ i, i ∈ l → Plain (ty i)) (rest : List Char) :
    splitTokens [] (l.flatMap (fun i => compareInfoLine role i (ty i)) ++ rest)
      = l.flatMap (fun i => [keyToken role i, ty i]) ++ splitTokens [] rest := by
  induction l with
  | nil => rfl
  | cons i l ih =>
    have hk := keyToken_plain role hrole i
    have ht := hty i (List.mem_cons_self _ _)
    have hline : (i :: l).flatMap (fun i => compareInfoLine role i (ty i)) ++ rest
        = (keyToken role i).data ++ ' ' :: ((ty i).data ++ '\n' ::
            (l.flatMap (fun i => compareInfoLine role i (ty i)) ++ rest)) := by
      simp [compareInfoLine, keyToken]
    rw [hline, splitTokens_line _ _ _ _ _ hk.2 ht.2 hk.1 ht.1 (by decide) (by decide),
      ih (fun j hj => hty j (List.mem_cons_of_mem _ hj))]
    rfl

theorem getD_mem {types : List String} {i : Nat} (hi : i < types.length) :
    types.getD i "" ∈ types := by
  rw [List.getD_eq_getElem types "" hi]
  exact List.getElem_mem hi

/-- The pairs `LayerDictionary` reads from the info file of `compare`. -/
theorem pairs_infoText (types : List String) (hgood : ∀ t, t ∈ types → Plain t) :
    tokenPairs (splitTokens [] (infoText compareInfoLine types))
      = (List.range types.length).map (fun i => (keyToken "Fwrd" i, types.getD i "")) ++
        (List.range types.length).reverse.map
          (fun i => (keyToken "Bwrd" i, types.getD i "")) := by
  have hF : Plain "Fwrd" := ⟨by decide, by decide⟩
  have hB : Plain "Bwrd" := ⟨by decide, by decide⟩
  have hty : ∀ l : List Nat, (∀ i, i ∈ l → i < types.length) →
      ∀ i, i ∈ l → Plain (types.getD i "") :=
    fun l hl i hi => hgood _ (getD_mem (hl i hi))
  have h1 := hty (List.range types.length) (fun i hi => List.mem_range.mp hi)
  have h2 := hty (List.range types.length).reverse
    (fun i hi => List.mem_range.mp (List.mem_reverse.mp hi))
  unfold infoText
  rw [tokens_lines "Fwrd" hF (fun i => types.getD i "") _ h1]
  have hb := tokens_lines "Bwrd" hB (fun i => types.getD i "") _ h2 []
  rw [List.append_nil] at hb
  rw [hb, tokenPairs_flatMap]
  have ht := tokenPairs_flatMap (fun i => keyToken "Bwrd" i) (fun i => types.getD i "")
    (List.range types.length).reverse (splitTokens [] [])
  rw [ht]
  simp [splitTokens, tokenPairs]

theorem keyToken_noNul (role : String) (hrole : ∀ c, c ∈ role.data → c.toNat ≠ 0) (j : Nat) :
    ∀ c, c ∈ (keyToken role j).data → c.toNat ≠ 0 := by
  intro c hc
  simp only [keyToken, List.mem_append] at hc
  rcases hc with hc | hc
  · exact hrole c hc
  · obtain ⟨d, rfl⟩ := printf04i_digits j c hc
    exact (digitChar_plain d).2

theorem fwrdKey_eq_iff {i : Nat} (hi : i < 10000) (j : Nat) :
    cstr (keyToken "Fwrd" j ++ ".bin") = "Fwrd" ++ ⟨fourDigits i⟩ ++ ".bin" ↔ j = i := by
  rw [cstr_key _ (keyToken_noNul "Fwrd" (by decide) j)]
  constructor
  · intro h
    have hd := congrArg String.data h
    simp only [String.data_append, keyToken, List.append_assoc] at hd
    have h1 := List.append_cancel_left hd
    have h2 := List.append_cancel_right h1
    exact printf04i_eq_fourDigits hi h2
  · rintro rfl
    apply String.ext
    simp only [String.data_append, keyToken]
    rw [printf04i_of_small (j : Int) (Int.ofNat_nonneg j) (by omega), Int.toNat_ofNat]

theorem bwrdKey_ne (i j : Nat) :
    cstr (keyToken "Bwrd" j ++ ".bin") ≠ "Fwrd" ++ ⟨fourDigits i⟩ ++ ".bin" := by
  rw [cstr_key _ (keyToken_noNul "Bwrd" (by decide) j)]
  intro h
  have hd := congrArg String.data h
  simp only [String.data_append, keyToken, List.append_assoc] at hd
  have hh := congrArg List.head? hd
  simp at hh

theorem pairsFor_append (q : String) (xs ys : List (String × String)) :
    pairsFor q (xs ++ ys) = pairsFor q xs ++ pairsFor q ys := by
  unfold pairsFor
  exact List.filter_append _ _

theorem pairsFor_map_none (q : String) (k v : Nat → String) (l : List Nat)
    (hk : ∀ j, cstr (k j ++ ".bin") ≠ q) : pairsFor q (l.map fun j => (k j, v j)) = [] := by
  induction l with
  | nil => rfl
  | cons j l ih =>
    rw [List.map_cons, pairsFor, List.filter_cons]
    have : decide (cstr (k j ++ ".bin") = q) = false := decide_eq_false (hk j)
    simp only [this]
    exact ih

theorem pairsFor_map_other (q : String) (k v : Nat → String) (i : Nat) (l : List Nat)
    (hk : ∀ j, cstr (k j ++ ".bin") = q ↔ j = i) (hi : i ∉ l) :
    pairsFor q (l.map fun j => (k j, v j)) = [] := by
  induction l with
  | nil => rfl
  | cons j l ih =>
    rw [List.map_cons, pairsFor, List.filter_cons]
    have hj : j ≠ i := fun e => hi (e ▸ List.mem_cons_self _ _)
    have : decide (cstr (k j ++ ".bin") = q) = false :=
      decide_eq_false (fun e => hj ((hk j).mp e))
    simp only [this]
    exact ih (fun h => hi (List.mem_cons_of_mem _ h))

theorem pairsFor_map_unique (q : String) (k v : Nat → String) (i : Nat) (l : List Nat)
    (hk : ∀ j, cstr (k j ++ ".bin") = q ↔ j = i) (hn : l.Nodup) (hi : i ∈ l) :
    pairsFor q (l.map fun j => (k j, v j)) = [(k i, v i)] := by
  induction l with
  | nil => simp at hi
  | cons j l ih =>
    rw [List.map_cons, pairsFor, List.filter_cons]
    have hn2 := List.nodup_cons.mp hn
    by_cases hj : j = i
    · subst hj
      have : decide (cstr (k j ++ ".bin") = q) = true := decide_eq_true ((hk j).mpr rfl)
      simp only [this, if_true]
      have := pairsFor_map_other q k v j l hk hn2.1
      unfold pairsFor at this
      rw [this]
    · have : decide (cstr (k j ++ ".bin") = q) = false :=
        decide_eq_false (fun e => hj ((hk j).mp e))
      simp only [this]
      have hi2 : i ∈ l := by
        rcases List.mem_cons.mp hi with h | h
        · exact absurd h.symm hj
        · exact h
      exact ih hn2.2 hi2

/-! ## The sequence of snapshots of `collect` -/

theorem runLayers_append (f : Nat → Blobs → Blobs) (l1 l2 : List Nat) (b : Blobs) :
    runLayers f (l1 ++ l2) b = runLayers f l2 (runLayers f l1 b) := by
  simp [runLayers]

theorem runLayers_range_succ (f : Nat → Blobs → Blobs) (n : Nat) (b : Blobs) :
    runLayers f (List.range (n + 1)) b = f n (runLayers f (List.range n) b) := by
  rw [List.range_succ, runLayers_append]
  rfl

theorem runLayers_id (l : List Nat) (b : Blobs) : runLayers (fun _ b => b) l b = b := by
  induction l with
  | nil => rfl
  | cons i l ih => exact ih

theorem loopCalls_append (f : Nat → Blobs → Blobs) (g : Nat → Blobs → List SaveCall)
    (l1 l2 : List Nat) (b : Blobs) :
    loopCalls f g (l1 ++ l2) b = loopCalls f g l1 b ++ loopCalls f g l2 (runLayers f l1 b) := by
  induction l1 generalizing b with
  | nil => rfl
  | cons i l ih =>
    show g i (f i b) ++ loopCalls f g (l ++ l2) (f i b) = _
    rw [ih]
    simp [loopCalls, runLayers]

theorem loopCalls_range (f : Nat → Blobs → Blobs) (g : Nat → Blobs → List SaveCall)
    (n : Nat) (b : Blobs) :
    loopCalls f g (List.range n) b
      = (List.range n).flatMap (fun i => g i (runLayers f (List.range (i + 1)) b)) := by
  induction n with
  | zero => rfl
  | succ n ih =>
    rw [List.range_succ, loopCalls_append, ih, List.flatMap_append]
    simp [loopCalls, runLayers_range_succ]

theorem flatMap_congr_mem {α β : Type} (l : List α) (f g : α → List β)
    (h : ∀ a, a ∈ l → f a = g a) : l.flatMap f = l.flatMap g := by
  induction l with
  | nil => rfl
  | cons a l ih =>
    rw [List.flatMap_cons, List.flatMap_cons, h a (List.mem_cons_self _ _),
      ih (fun x hx => h x (List.mem_cons_of_mem _ hx))]

theorem layersFrom_succ (n i : Nat) (h : i ≤ n) : layersFrom (n + 1) i = n :: layersFrom n i := by
  unfold layersFrom
  have e : n + 1 - i = (n - i) + 1 := by omega
  rw [e, List.range'_concat, List.reverse_append]
  have e2 : i + 1 * (n - i) = n := by omega
  rw [e2]
  rfl

theorem reverse_range_succ (n : Nat) :
    (List.range (n + 1)).reverse = n :: (List.range n).reverse := by
  rw [List.range_succ, List.reverse_append]
  rfl

theorem loopCalls_range_reverse (f : Nat → Blobs → Blobs) (g : Nat → Blobs → List SaveCall)
    (n : Nat) (b : Blobs) :
    loopCalls f g (List.range n).reverse b
      = (List.range n).reverse.flatMap (fun i => g i (runLayers f (layersFrom n i) b)) := by
  induction n generalizing b with
  | zero => rfl
  | succ n ih =>
    rw [reverse_range_succ]
    show g n (f n b) ++ loopCalls f g (List.range n).reverse (f n b) = _
    rw [ih, List.flatMap_cons, layersFrom_succ n n (Nat.le_refl n)]
    have e0 : layersFrom n n = [] := by simp [layersFrom]
    rw [e0]
    congr 1
    apply flatMap_congr_mem
    intro i hi
    have hlt : i < n := by simpa using hi
    rw [layersFrom_succ n i (Nat.le_of_lt hlt)]
    rfl

theorem flatMap_if_singleton {α β : Type} (l : List α) (p : α → Bool) (h : α → β) :
    l.flatMap (fun a => if p a then [h a] else []) = (l.filter p).map h := by
  induction l with
  | nil => rfl
  | cons a l ih =>
    rw [List.flatMap_cons, ih]
    cases hp : p a <;> simp [List.filter_cons, hp]

theorem flatMap_singleton_map {α β : Type} (l : List α) (h : α → β) :
    l.flatMap (fun a => [h a]) = l.map h := by
  induction l with
  | nil => rfl
  | cons a l ih => rw [List.flatMap_cons, ih]; rfl

theorem replay_append (env : Env) (fs : FileSys) (a b : List SaveCall) :
    replay env fs (a ++ b) = replay env (replay env fs a) b := by
  simp [replay]

theorem foldl_calls (env : Env) (step : RunState → Nat → RunState) (f : Nat → Blobs → Blobs)
    (g : Nat → Blobs → List SaveCall)
    (hb : ∀ st i, (step st i).blobs = f i st.blobs)
    (hs : ∀ st i, (step st i).saved = st.saved ++ g i (f i st.blobs))
    (hf : ∀ st i, (step st i).fs = replay env st.fs (g i (f i st.blobs)))
    (l : List Nat) (st : RunState) :
    (l.foldl step st).blobs = runLayers f l st.blobs ∧
      (l.foldl step st).saved = st.saved ++ loopCalls f g l st.blobs ∧
      (l.foldl step st).fs = replay env st.fs (loopCalls f g l st.blobs) := by
  induction l generalizing st with
  | nil => simp [runLayers, loopCalls, replay]
  | cons i l ih =>
    obtain ⟨h1, h2, h3⟩ := ih (step st i)
    rw [List.foldl_cons, h1, h2, h3, hb, hs, hf]
    refine ⟨rfl, ?_, ?_⟩
    · simp [loopCalls]
    · rw [← replay_append]
      rfl

theorem foldl_info (step : RunState → Nat → RunState) (line : Nat → List Char)
    (hi : ∀ st i, (step st i).info = st.info ++ line i) (l : List Nat) (st : RunState) :
    (l.foldl step st).info = st.info ++ l.flatMap line := by
  induction l generalizing st with
  | nil => simp
  | cons i l ih => rw [List.foldl_cons, ih, hi, List.flatMap_cons, List.append_assoc]

/-! ## The files at the end of `collect` -/

theorem saveToFile_fileOf (fwrite : String → Nat → Nat) (fs : FileSys) (path : String)
    (id : Int) (data : List Sample) (count : Nat) :
    (saveToFile fwrite fs path id data count).2.fileOf = fs.fileOf := by
  unfold saveToFile
  split <;> rfl

theorem saveToFile_directory (fwrite : String → Nat → Nat) (fs : FileSys) (path : String)
    (id : Int) (data : List Sample) (count : Nat) :
    (saveToFile fwrite fs path id data count).2.directory = fs.directory := by
  unfold saveToFile
  split <;> rfl

theorem saveToFile_creatable (fwrite : String → Nat → Nat) (fs : FileSys) (path : String)
    (id : Int) (data : List Sample) (count : Nat) :
    (saveToFile fwrite fs path id data count).2.creatable = fs.creatable := by
  unfold saveToFile
  split <;> rfl

theorem saveToFile_other (fwrite : String → Nat → Nat) (fs : FileSys) (path : String) (id : Int)
    (data : List Sample) (count : Nat) (p : String)
    (hp : fs.fileOf p ≠ fs.fileOf path) :
    (saveToFile fwrite fs path id data count).2.content p = fs.content p := by
  unfold saveToFile
  split
  · exact content_write_other _ _ _ _ hp
  · rfl

theorem saveToFile_content (fwrite : String → Nat → Nat) (fs : FileSys) (path : String)
    (id : Int) (data : List Sample) (count : Nat)
    (hcreate : fs.creatable path = true)
    (hwrite : count * 4 ≤ fwrite path (count * 4)) :
    (saveToFile fwrite fs path id data count).2.content path
      = some (encodeSamples (data.take count)) := by
  have hlen := length_encodeSamples (data.take count)
  have hle : (data.take count).length ≤ count := by
    rw [List.length_take]
    exact Nat.min_le_left _ _
  have htake : (encodeSamples (data.take count)).take (fwrite path (count * 4))
      = encodeSamples (data.take count) := List.take_of_length_le (by omega)
  unfold saveToFile
  simp only [hcreate, if_true, htake]
  exact content_write_self _ _ _

theorem replay_cons (env : Env) (fs : FileSys) (c : SaveCall) (l : List SaveCall) :
    replay env fs (c :: l)
      = replay env (saveToFile env.fwrite fs c.path c.id c.data c.count).2 l := rfl

theorem replay_creatable (env : Env) (fs : FileSys) (l : List SaveCall) :
    (replay env fs l).creatable = fs.creatable := by
  induction l generalizing fs with
  | nil => rfl
  | cons c l ih => rw [replay_cons, ih, saveToFile_creatable]

theorem replay_fileOf (env : Env) (fs : FileSys) (l : List SaveCall) :
    (replay env fs l).fileOf = fs.fileOf := by
  induction l generalizing fs with
  | nil => rfl
  | cons c l ih => rw [replay_cons, ih, saveToFile_fileOf]

theorem replay_other (env : Env) (fs : FileSys) (l : List SaveCall) (p : String)
    (h : ∀ c, c ∈ l → fs.fileOf p ≠ fs.fileOf c.path) :
    (replay env fs l).content p = fs.content p := by
  induction l generalizing fs with
  | nil => rfl
  | cons c l ih =>
    rw [replay_cons, ih]
    · exact saveToFile_other _ _ _ _ _ _ _ (h c (List.mem_cons_self _ _))
    · intro x hx
      rw [saveToFile_fileOf]
      exact h x (List.mem_cons_of_mem _ hx)

theorem replay_content (env : Env) (fs : FileSys) (l : List SaveCall) (c : SaveCall)
    (hcreate : ∀ p, fs.creatable p = true) (hwrite : ∀ p n, n ≤ env.fwrite p n)
    (hd : l.Pairwise (fun a b => fs.fileOf a.path ≠ fs.fileOf b.path)) (hc : c ∈ l) :
    (replay env fs l).content c.path = some (encodeSamples (c.data.take c.count)) := by
  induction l generalizing fs with
  | nil => cases hc
  | cons a l ih =>
    rw [replay_cons]
    rw [List.pairwise_cons] at hd
    rcases List.mem_cons.1 hc with h | h
    · subst h
      rw [replay_other]
      · exact saveToFile_content _ _ _ _ _ _ (hcreate _) (hwrite _ _)
      · intro x hx
        rw [saveToFile_fileOf]
        exact hd.1 x hx
    · apply ih
      · intro p
        rw [saveToFile_creatable]
        exact hcreate p
      · rw [saveToFile_fileOf]
        exact hd.2
      · exact h

theorem refName_inj (r s : String) (i j : Nat) (hr : r.length = 4) (hs : s.length = 4)
    (hi : i < 10000) (hj : j < 10000)
    (h : getFileName false r i = getFileName false s j) : r = s ∧ i = j := by
  rw [getFileName_of_fits false r i (by omega) (by omega) (by rw [hr]; decide),
    getFileName_of_fits false s j (by omega) (by omega) (by rw [hs]; decide)] at h
  have hd := congrArg String.data h
  simp only [Bool.false_eq_true, if_false, String.data_append, List.append_assoc,
    Int.toNat_ofNat] at hd
  have h1 := List.append_cancel_left hd
  have hlen : r.data.length = s.data.length := by
    show r.length = s.length
    rw [hr, hs]
  obtain ⟨h2, h3⟩ := List.append_inj h1 hlen
  have h4 := List.append_cancel_right h3
  exact ⟨String.ext h2, fourDigits_inj hi hj h4⟩

theorem refName_ne_info (r : String) (i : Nat) (hr : r.length = 4) (hi : i < 10000)
    (gpu : Bool) :
    getFileName false r i ≠ (if gpu then "GPUInfo.txt" else "CPUInfo.txt") := by
  rw [getFileName_of_fits false r i (by omega) (by omega) (by rw [hr]; decide)]
  intro h
  have hd := congrArg (fun s => s.data.head?) h
  cases gpu <;> simp [String.data_append] at hd

theorem nodup_gradWght (p : Nat) :
    ((List.range p).flatMap (fun q => [("Grad", q), ("Wght", q)])).Nodup := by
  induction p with
  | zero => simp
  | succ p ih =>
    rw [List.range_succ, List.flatMap_append, List.nodup_append]
    refine ⟨ih, by simp, ?_⟩
    rw [List.disjoint_left]
    intro a ha hb
    simp only [List.mem_flatMap, List.mem_range, List.mem_cons, List.mem_singleton,
      List.not_mem_nil, or_false] at ha hb
    obtain ⟨q, hq, hq2⟩ := ha
    obtain ⟨q2, hq3, hq4⟩ := hb
    subst hq3
    rcases hq2 with h | h <;> rcases hq4 with h2 | h2 <;> rw [h] at h2 <;>
      simp only [Prod.mk.injEq] at h2 <;> omega

theorem mem_collectKeys {n p : Nat} {need : Nat → Bool} {k : String × Nat}
    (h : k ∈ collectKeys n p need) :
    (k.1 = "Fwrd" ∧ k.2 < n) ∨ (k.1 = "Bwrd" ∧ k.2 < n ∧ need k.2 = true) ∨
      (k.1 = "Grad" ∧ k.2 < p) ∨ (k.1 = "Wght" ∧ k.2 < p) := by
  simp only [collectKeys, List.mem_append, List.mem_map, List.mem_range, List.mem_filter,
    List.mem_reverse, List.mem_flatMap, List.mem_cons, List.mem_singleton, List.not_mem_nil,
    or_false] at h
  rcases h with (⟨i, hi, rfl⟩ | ⟨i, ⟨hi, hn⟩, rfl⟩) | ⟨q, hq, rfl | rfl⟩
  · exact Or.inl ⟨rfl, hi⟩
  · exact Or.inr (Or.inl ⟨rfl, hi, hn⟩)
  · exact Or.inr (Or.inr (Or.inl ⟨rfl, hq⟩))
  · exact Or.inr (Or.inr (Or.inr ⟨rfl, hq⟩))

theorem nodup_collectKeys (n p : Nat) (need : Nat → Bool) : (collectKeys n p need).Nodup := by
  have hF : ((List.range n).map (fun i => ("Fwrd", i))).Nodup :=
    (List.nodup_range n).map (fun a b h => (Prod.mk.inj h).2)
  have hB : (((List.range n).reverse.filter need).map (fun i => ("Bwrd", i))).Nodup :=
    ((List.nodup_reverse.2 (List.nodup_range n)).filter _).map (fun a b h => (Prod.mk.inj h).2)
  unfold collectKeys
  rw [List.nodup_append, List.nodup_append]
  refine ⟨⟨hF, hB, ?_⟩, nodup_gradWght p, ?_⟩
  · rw [List.disjoint_left]
    intro a ha hb
    simp only [List.mem_map] at ha hb
    obtain ⟨i, _, rfl⟩ := ha
    obtain ⟨j, _, hj⟩ := hb
    have := (Prod.mk.inj hj).1
    exact absurd this (by decide)
  · rw [List.disjoint_left]
    intro a ha hb
    simp only [List.mem_append, List.mem_map, List.mem_flatMap, List.mem_cons,
      List.mem_singleton, List.not_mem_nil, or_false] at ha hb
    obtain ⟨q, _, hq⟩ := hb
    rcases ha with ⟨i, _, rfl⟩ | ⟨i, _, rfl⟩ <;> rcases hq with h | h <;>
      exact absurd (Prod.mk.inj h).1 (by decide)

theorem length_of_collectKey {n p : Nat} {need : Nat → Bool} {k : String × Nat}
    (h : k ∈ collectKeys n p need) : k.1.length = 4 ∧ k.2 < max n p := by
  rcases mem_collectKeys h with ⟨h1, h2⟩ | ⟨h1, h2, _⟩ | ⟨h1, h2⟩ | ⟨h1, h2⟩ <;>
    exact ⟨by rw [h1]; rfl, by omega⟩

theorem collectPath_pairwise (f : String → String) (flags : Flags) (n p : Nat)
    (need : Nat → Bool) (hn : n ≤ 10000) (hp : p ≤ 10000)
    (hdir : ∀ x y : String, x ≠ y →
      f (flags.collect_dir ++ "/" ++ x) ≠ f (flags.collect_dir ++ "/" ++ y)) :
    (collectKeys n p need).Pairwise
      (fun a b => f (collectPath flags a) ≠ f (collectPath flags b)) := by
  have hnd : (collectKeys n p need).Pairwise (fun a b => a ≠ b) := nodup_collectKeys n p need
  refine hnd.imp_of_mem ?_
  intro a b ha hb hab
  obtain ⟨la, ia⟩ := length_of_collectKey ha
  obtain ⟨lb, ib⟩ := length_of_collectKey hb
  apply hdir
  intro h1
  obtain ⟨e1, e2⟩ := refName_inj a.1 b.1 a.2 b.2 la lb (by omega) (by omega) h1
  exact hab (Prod.ext e1 e2)

theorem collectPath_ne_info (f : String → String) (env : Env) (flags : Flags) (n p : Nat)
    (need : Nat → Bool) (hn : n ≤ 10000) (hp : p ≤ 10000)
    (hdir : ∀ x y : String, x ≠ y →
      f (flags.collect_dir ++ "/" ++ x) ≠ f (flags.collect_dir ++ "/" ++ y))
    (k : String × Nat) (hk : k ∈ collectKeys n p need) :
    f (collectPath flags k) ≠ f (collectInfoPath env flags) := by
  obtain ⟨lk, ik⟩ := length_of_collectKey hk
  exact hdir _ _ (refName_ne_info k.1 k.2 lk (by omega) env.use_gpu)

theorem layersFrom_zero (n : Nat) : layersFrom n 0 = (List.range n).reverse := by
  simp [layersFrom, List.range_eq_range']

theorem collectForward_loop (env : Env) (flags : Flags) (net : Net) (l : List Nat)
    (st : RunState) :
    (l.foldl (collectForwardStep env flags net) st).blobs = runLayers net.Forward l st.blobs ∧
      (l.foldl (collectForwardStep env flags net) st).saved
        = st.saved ++ loopCalls net.Forward (fun i b => [collectFwrdCall flags net i b]) l
            st.blobs ∧
      (l.foldl (collectForwardStep env flags net) st).fs
        = replay env st.fs
            (loopCalls net.Forward (fun i b => [collectFwrdCall flags net i b]) l st.blobs) :=
  foldl_calls env _ _ _ (fun _ _ => rfl) (fun _ _ => rfl) (fun _ _ => rfl) l st

theorem collectBackward_loop (env : Env) (flags : Flags) (net : Net) (l : List Nat)
    (st : RunState) :
    (l.foldl (collectBackwardStep env flags net) st).blobs = runLayers net.Backward l st.blobs ∧
      (l.foldl (collectBackwardStep env flags net) st).saved
        = st.saved ++ loopCalls net.Backward
            (fun i b => if needsGradient net i then [collectBwrdCall flags net i b] else []) l
            st.blobs ∧
      (l.foldl (collectBackwardStep env flags net) st).fs
        = replay env st.fs (loopCalls net.Backward
            (fun i b => if needsGradient net i then [collectBwrdCall flags net i b] else []) l
            st.blobs) := by
  apply foldl_calls
  · intro st i
    unfold collectBackwardStep
    cases needsGradient net i <;> rfl
  · intro st i
    unfold collectBackwardStep
    cases needsGradient net i
    · simp
    · rfl
  · intro st i
    unfold collectBackwardStep
    cases needsGradient net i <;> rfl

theorem collectParam_loop (env : Env) (flags : Flags) (net : Net) (l : List Nat)
    (st : RunState) :
    (l.foldl (collectParamStep env flags net) st).blobs = st.blobs ∧
      (l.foldl (collectParamStep env flags net) st).saved
        = st.saved ++ l.flatMap
            (fun p => [collectGradCall flags net p st.blobs, collectWghtCall flags net p st.blobs]) ∧
      (l.foldl (collectParamStep env flags net) st).fs
        = replay env st.fs (l.flatMap
            (fun p =>
              [collectGradCall flags net p st.blobs, collectWghtCall flags net p st.blobs])) := by
  have h := foldl_calls env (collectParamStep env flags net) (fun _ b => b)
    (fun p b => [collectGradCall flags net p b, collectWghtCall flags net p b])
    (fun _ _ => rfl) (fun st i => by simp [collectParamStep, saveStep]) (fun _ _ => rfl) l st
  have hc : ∀ (l : List Nat) (b : Blobs),
      loopCalls (fun _ b => b)
          (fun p b => [collectGradCall flags net p b, collectWghtCall flags net p b]) l b
        = l.flatMap (fun p => [collectGradCall flags net p b, collectWghtCall flags net p b]) := by
    intro l b
    induction l with
    | nil => rfl
    | cons i l ih =>
      show _ ++ loopCalls _ _ l b = _
      rw [ih]
      rfl
  rw [runLayers_id, hc] at h
  exact h

theorem collectForward_info (env : Env) (flags : Flags) (net : Net) (l : List Nat)
    (st : RunState) :
    (l.foldl (collectForwardStep env flags net) st).info
      = st.info ++ l.flatMap (fun i => collectInfoLine "Fwrd" i (net.layerTypes.getD i "")) :=
  foldl_info _ _ (fun _ _ => rfl) l st

theorem collectBackward_info (env : Env) (flags : Flags) (net : Net) (l : List Nat)
    (st : RunState) :
    (l.foldl (collectBackwardStep env flags net) st).info
      = st.info ++ l.flatMap (fun i => collectInfoLine "Bwrd" i (net.layerTypes.getD i "")) := by
  apply foldl_info
  intro st i
  unfold collectBackwardStep
  cases needsGradient net i <;> rfl

theorem collectParam_info (env : Env) (flags : Flags) (net : Net) (l : List Nat)
    (st : RunState) : (l.foldl (collectParamStep env flags net) st).info = st.info := by
  induction l generalizing st with
  | nil => rfl
  | cons i l ih =>
    rw [List.foldl_cons, ih]
    rfl

theorem needsGradient_eq (net : Net) (i : Nat) :
    needsGradient net i = decide ((net.bottom_need_backward i).head? = some true) := by
  unfold needsGradient
  cases net.bottom_need_backward i with
  | nil => rfl
  | cons b l => cases b <;> rfl

theorem wellFormed_of (net : Net)
    (htop : ∀ i, i < net.layerTypes.length → net.top_vecs i ≠ [])
    (hbot : ∀ i, i < net.layerTypes.length →
      (net.bottom_need_backward i).head? = some true → net.bottom_vecs i ≠ []) :
    wellFormed net = true := by
  unfold wellFormed
  rw [List.all_eq_true]
  intro i hi
  have hi2 := List.mem_range.1 hi
  have h1 := htop i hi2
  have h2 := hbot i hi2
  rw [needsGradient_eq]
  cases ht : net.top_vecs i with
  | nil => exact absurd ht h1
  | cons t ts =>
    by_cases hn : (net.bottom_need_backward i).head? = some true
    · cases hb : net.bottom_vecs i with
      | nil => exact absurd hb (h2 hn)
      | cons b bs => simp [hn]
    · simp [hn]

theorem collectCalls_paths (flags : Flags) (net : Net) (f g : Nat → Blobs) (b : Blobs) :
    ((List.range net.layerTypes.length).map (fun i => collectFwrdCall flags net i (f i)) ++
      ((List.range net.layerTypes.length).reverse.filter (needsGradient net)).map
        (fun i => collectBwrdCall flags net i (g i)) ++
      (List.range net.params.length).flatMap
        (fun p => [collectGradCall flags net p b, collectWghtCall flags net p b])).map
        (fun c => c.path)
      = (collectKeys net.layerTypes.length net.params.length (needsGradient net)).map
          (collectPath flags) := by
  have hP : ∀ l : List Nat,
      (l.flatMap (fun p => [collectGradCall flags net p b, collectWghtCall flags net p b])).map
          (fun c => c.path)
        = (l.flatMap (fun q => [("Grad", q), ("Wght", q)])).map (collectPath flags) := by
    intro l
    induction l with
    | nil => rfl
    | cons q l ih =>
      rw [List.flatMap_cons, List.flatMap_cons, List.map_append, List.map_append, ih]
      rfl
  unfold collectKeys
  rw [List.map_append, List.map_append, List.map_append, List.map_append, hP, List.map_map,
    List.map_map, List.map_map, List.map_map]
  rfl

/-- The run of `collect` in terms of the loops: the calls, the file system and
the info text at the end. -/
theorem collect_run (env : Env) (flags : Flags) (net : Net) (blobs : Blobs) (fs : FileSys)
    (hdet : env.DETERMINISTIC = true)
    (hinfo : fs.creatable (collectInfoPath env flags) = true)
    (hwf : wellFormed net = true) :
    ∃ st, collect env flags net blobs fs = some (0, st) ∧
      st.saved
        = (List.range net.layerTypes.length).map
            (fun i => collectFwrdCall flags net i (afterForward net blobs (i + 1))) ++
          ((List.range net.layerTypes.length).reverse.filter (needsGradient net)).map
            (fun i => collectBwrdCall flags net i (afterBackward net blobs i)) ++
          (List.range net.params.length).flatMap
            (fun p => [collectGradCall flags net p (afterBackward net blobs 0),
              collectWghtCall flags net p (afterBackward net blobs 0)]) ∧
      st.fs = (replay env (fs.write (collectInfoPath env flags) []) st.saved).write
        (collectInfoPath env flags) (bytesOfText (infoText collectInfoLine net.layerTypes)) := by
  obtain ⟨fb, fsv, ffs⟩ := collectForward_loop env flags net (List.range net.layerTypes.length)
    ⟨zeroParamDiffs net blobs, fs.write (collectInfoPath env flags) [], [], []⟩
  have fi := collectForward_info env flags net (List.range net.layerTypes.length)
    ⟨zeroParamDiffs net blobs, fs.write (collectInfoPath env flags) [], [], []⟩
  unfold collect
  simp only [hdet, hinfo, hwf, Bool.not_true, Bool.or_self, Bool.false_eq_true, if_false]
  refine ⟨_, rfl, ?_⟩
  generalize (List.range net.layerTypes.length).foldl (collectForwardStep env flags net)
    ⟨zeroParamDiffs net blobs, fs.write (collectInfoPath env flags) [], [], []⟩ = st1
    at fb fsv ffs fi ⊢
  obtain ⟨bb, bsv, bfs⟩ := collectBackward_loop env flags net
    (List.range net.layerTypes.length).reverse st1
  have bi := collectBackward_info env flags net (List.range net.layerTypes.length).reverse st1
  generalize (List.range net.layerTypes.length).reverse.foldl
    (collectBackwardStep env flags net) st1 = st2 at bb bsv bfs bi ⊢
  obtain ⟨pb, psv, pfs⟩ := collectParam_loop env flags net (List.range net.params.length) st2
  have pi := collectParam_info env flags net (List.range net.params.length) st2
  generalize (List.range net.params.length).foldl (collectParamStep env flags net) st2 = st3
    at pb psv pfs pi ⊢
  have hA : loopCalls net.Forward (fun i b => [collectFwrdCall flags net i b])
      (List.range net.layerTypes.length) (zeroParamDiffs net blobs)
      = (List.range net.layerTypes.length).map
          (fun i => collectFwrdCall flags net i (afterForward net blobs (i + 1))) := by
    rw [loopCalls_range, flatMap_singleton_map]
    rfl
  have hst1 : st1.blobs = afterForward net blobs net.layerTypes.length := fb
  have hB : loopCalls net.Backward
      (fun i b => if needsGradient net i then [collectBwrdCall flags net i b] else [])
      (List.range net.layerTypes.length).reverse st1.blobs
      = ((List.range net.layerTypes.length).reverse.filter (needsGradient net)).map
          (fun i => collectBwrdCall flags net i (afterBackward net blobs i)) := by
    rw [loopCalls_range_reverse, flatMap_if_singleton, hst1]
    rfl
  have hst2 : st2.blobs = afterBackward net blobs 0 := by
    rw [bb, hst1]
    unfold afterBackward
    rw [layersFrom_zero]
  rw [hst2] at psv pfs
  rw [hB] at bsv bfs
  rw [hA] at fsv ffs
  have hsaved : st3.saved
      = (List.range net.layerTypes.length).map
          (fun i => collectFwrdCall flags net i (afterForward net blobs (i + 1))) ++
        ((List.range net.layerTypes.length).reverse.filter (needsGradient net)).map
          (fun i => collectBwrdCall flags net i (afterBackward net blobs i)) ++
        (List.range net.params.length).flatMap
          (fun p => [collectGradCall flags net p (afterBackward net blobs 0),
            collectWghtCall flags net p (afterBackward net blobs 0)]) := by
    rw [psv, bsv, fsv, List.nil_append]
  refine ⟨hsaved, ?_⟩
  show st3.fs.write (collectInfoPath env flags) (bytesOfText st3.info) = _
  rw [hsaved, replay_append, replay_append, pfs, bfs, ffs, pi, bi, fi]
  simp [infoText]

theorem collectDir_inj (flags : Flags) (x y : String) (h : x ≠ y) :
    id (flags.collect_dir ++ "/" ++ x) ≠ id (flags.collect_dir ++ "/" ++ y) := by
  intro e
  apply h
  have hd := congrArg String.data e
  simp only [id, String.data_append] at hd
  exact String.ext (List.append_cancel_left hd)

/-- With at most 10000 layers and parameters the paths of the calls of
`collect` are pairwise different, and none is the path of the info file. -/
theorem collectCalls_nodup (env : Env) (flags : Flags) (net : Net) (f g : Nat → Blobs)
    (b : Blobs) (hn : net.layerTypes.length ≤ 10000) (hp : net.params.length ≤ 10000) :
    (((List.range net.layerTypes.length).map (fun i => collectFwrdCall flags net i (f i)) ++
      ((List.range net.layerTypes.length).reverse.filter (needsGradient net)).map
        (fun i => collectBwrdCall flags net i (g i)) ++
      (List.range net.params.length).flatMap
        (fun p => [collectGradCall flags net p b, collectWghtCall flags net p b])).map
        (fun c => c.path)).Nodup ∧
      collectInfoPath env flags ∉
        ((List.range net.layerTypes.length).map (fun i => collectFwrdCall flags net i (f i)) ++
        ((List.range net.layerTypes.length).reverse.filter (needsGradient net)).map
          (fun i => collectBwrdCall flags net i (g i)) ++
        (List.range net.params.length).flatMap
          (fun p => [collectGradCall flags net p b, collectWghtCall flags net p b])).map
          (fun c => c.path) := by
  rw [collectCalls_paths]
  constructor
  · exact List.pairwise_map.2 (collectPath_pairwise id flags _ _ _ hn hp (collectDir_inj flags))
  · intro hmem
    obtain ⟨k, hk, hkc⟩ := List.mem_map.1 hmem
    exact collectPath_ne_info id env flags _ _ _ hn hp (collectDir_inj flags) k hk hkc

/-- Claim C16. A run of `collect` of a tool built with `DETERMINISTIC`, whose
info file can be created, on a net of `N` layers that each have an output
(and an input where the first input needs a gradient) and `P` parameters,
returns 0, and its calls of `saveToFile` are exactly, in this order: for
`i = 0 .. N-1` the file `REFFwrd<i>` of the reference directory with the
values of the first blob of `top_vecs[i]`, as the blobs are after the forward
steps of the layers `0 .. i`; then for `i = N-1 .. 0`, for just the layers
whose `bottom_need_backward[i]` is not empty and begins with `true`, the file
`REFBwrd<i>` with the gradient of the first blob of `bottom_vecs[i]`, as the
blobs are after the backward steps of the layers `N-1 .. i`; then for
`p = 0 .. P-1` the file `REFGrad<p>` with the gradient of parameter `p` and
the file `REFWght<p>` with its values, as the blobs are after all backward
steps. The file system at the end is the one these calls leave one after the
other, with the info file written in addition. With at most 10000 layers and
parameters (names of four digits) the paths of the calls are pairwise
different and none is the path of the info file; when, in addition,
different paths among these name different files, every file can be created
and `fwrite` writes all bytes, the file of each call holds at the end of the
run the samples of that call. -/
theorem collect_sequence (env : Env) (flags : Flags) (net : Net) (blobs : Blobs) (fs : FileSys)
    (hdet : env.DETERMINISTIC = true)
    (hinfo : fs.creatable (collectInfoPath env flags) = true)
    (htop : ∀ i, i < net.layerTypes.length → net.top_vecs i ≠ [])
    (hbot : ∀ i, i < net.layerTypes.length →
      (net.bottom_need_backward i).head? = some true → net.bottom_vecs i ≠ []) :
    ∃ st, collect env flags net blobs fs = some (0, st) ∧
      st.saved
        = (List.range net.layerTypes.length).map (fun (i : Nat) =>
            (⟨flags.collect_dir ++ "/" ++ getFileName false "Fwrd" i, i,
              (afterForward net blobs (i + 1) ((net.top_vecs i).headD 0)).data,
              (afterForward net blobs (i + 1) ((net.top_vecs i).headD 0)).data.length⟩ :
              SaveCall)) ++
          ((List.range net.layerTypes.length).reverse.filter
            (fun i => decide ((net.bottom_need_backward i).head? = some true))).map
            (fun (i : Nat) =>
            (⟨flags.collect_dir ++ "/" ++ getFileName false "Bwrd" i, i,
              (afterBackward net blobs i ((net.bottom_vecs i).headD 0)).diff,
              (afterBackward net blobs i ((net.bottom_vecs i).headD 0)).data.length⟩ :
              SaveCall)) ++
          (List.range net.params.length).flatMap (fun (p : Nat) =>
            [(⟨flags.collect_dir ++ "/" ++ getFileName false "Grad" p, p,
                (afterBackward net blobs 0 (net.params.getD p 0)).diff,
                (afterBackward net blobs 0 (net.params.getD p 0)).data.length⟩ : SaveCall),
              ⟨flags.collect_dir ++ "/" ++ getFileName false "Wght" p, p,
                (afterBackward net blobs 0 (net.params.getD p 0)).data,
                (afterBackward net blobs 0 (net.params.getD p 0)).data.length⟩]) ∧
      st.fs = (replay env (fs.write (collectInfoPath env flags) []) st.saved).write
        (collectInfoPath env flags) (bytesOfText (infoText collectInfoLine net.layerTypes)) ∧
      (net.layerTypes.length ≤ 10000 → net.params.length ≤ 10000 →
        (st.saved.map fun c => c.path).Nodup ∧
          collectInfoPath env flags ∉ st.saved.map fun c => c.path) ∧
      (net.layerTypes.length ≤ 10000 → net.params.length ≤ 10000 →
        (∀ p, p ∈ collectInfoPath env flags :: st.saved.map (fun c => c.path) →
          ∀ q, q ∈ collectInfoPath env flags :: st.saved.map (fun c => c.path) →
          p ≠ q → fs.fileOf p ≠ fs.fileOf q) →
        (∀ p, fs.creatable p = true) → (∀ p n, n ≤ env.fwrite p n) →
        ∀ c, c ∈ st.saved →
          st.fs.content c.path = some (encodeSamples (c.data.take c.count))) := by
  obtain ⟨st, hrun, hsaved, hfs⟩ := collect_run env flags net blobs fs hdet hinfo
    (wellFormed_of net htop hbot)
  have hfilter : (List.range net.layerTypes.length).reverse.filter (needsGradient net)
      = (List.range net.layerTypes.length).reverse.filter
          (fun i => decide ((net.bottom_need_backward i).head? = some true)) :=
    List.filter_congr (fun i _ => needsGradient_eq net i)
  have hnodup : net.layerTypes.length ≤ 10000 → net.params.length ≤ 10000 →
      (st.saved.map fun c => c.path).Nodup ∧
        collectInfoPath env flags ∉ st.saved.map fun c => c.path := by
    intro hn hp
    rw [hsaved]
    exact collectCalls_nodup env flags net _ _ _ hn hp
  refine ⟨st, hrun, ?_, hfs, hnodup, ?_⟩
  · rw [hsaved, hfilter]
    rfl
  · intro hn hp hfile hcreate hwrite c hc
    obtain ⟨hnd, hni⟩ := hnodup hn hp
    have hmem : c.path ∈ st.saved.map (fun c => c.path) := List.mem_map_of_mem _ hc
    have hpw : st.saved.Pairwise (fun a b => fs.fileOf a.path ≠ fs.fileOf b.path) := by
      have h2 : (st.saved.map (fun c => c.path)).Pairwise
          (fun p q => fs.fileOf p ≠ fs.fileOf q) := by
        refine List.Pairwise.imp_of_mem ?_ hnd
        intro p q hp2 hq2 hpq
        exact hfile p (List.mem_cons_of_mem _ hp2) q (List.mem_cons_of_mem _ hq2) hpq
      exact (List.pairwise_map (f := fun c : SaveCall => c.path)
        (R := fun p q => fs.fileOf p ≠ fs.fileOf q)).1 h2
    have hne : fs.fileOf c.path ≠ fs.fileOf (collectInfoPath env flags) :=
      hfile _ (List.mem_cons_of_mem _ hmem) _ (List.mem_cons_self _ _)
        (fun e => hni (e ▸ hmem))
    rw [hfs, content_write_other _ _ _ _ (by rw [replay_fileOf]; exact hne)]
    exact replay_content env _ _ c hcreate hwrite hpw hc

/-- Claim C16 on `branchNet`, on a file system that holds no file. The layers
`Data` and `Eltwise` have two outputs each and the first is saved; `Eltwise`
overwrites blob 0 after the snapshot of `Data` has been taken; of the
layers only `Loss` has a mask that begins with `true`, and the gradient of
its first input is saved before `Eltwise` overwrites it; the gradient of the
parameter, `[2.0]` before the run, is zeroed and then raised by one. At the
end `REFFwrd0001.bin` holds the eight bytes of `[2.0, 3.0]`. -/
theorem collect_sequence_witness :
    cpuEnv.DETERMINISTIC = true ∧
      (∀ i, i < branchNet.layerTypes.length → branchNet.top_vecs i ≠ []) ∧
      ∃ st, collect cpuEnv sampleFlags branchNet branchBlobs freshFs = some (0, st) ∧
        st.saved
          = [⟨"ref/REFFwrd0000.bin", 0, [ofBits 0x3F800000, ofBits 0x40000000], 2⟩,
              ⟨"ref/REFFwrd0001.bin", 1, [ofBits 0x40000000, ofBits 0x40400000], 2⟩,
              ⟨"ref/REFFwrd0002.bin", 2, [ofBits 0x40000000], 1⟩,
              ⟨"ref/REFBwrd0002.bin", 2, [ofBits 0x3F000000, ofBits 0x3F000000], 2⟩,
              ⟨"ref/REFGrad0000.bin", 0, [ofBits 0x3F800000], 1⟩,
              ⟨"ref/REFWght0000.bin", 0, [ofBits 0x40400000], 1⟩] ∧
        (∀ p, p ∈ collectInfoPath cpuEnv sampleFlags :: st.saved.map (fun c => c.path) →
          ∀ q, q ∈ collectInfoPath cpuEnv sampleFlags :: st.saved.map (fun c => c.path) →
          p ≠ q → freshFs.fileOf p ≠ freshFs.fileOf q) ∧
        st.fs.content "ref/REFFwrd0001.bin" = some [0, 0, 0, 64, 0, 0, 64, 64] ∧
        st.fs.content "./ref/REFFwrd0001.bin" = some [0, 0, 0, 64, 0, 0, 64, 64] := by
  have htop : ∀ i, i < branchNet.layerTypes.length → branchNet.top_vecs i ≠ [] := by decide
  obtain ⟨st, h1, h2, h3, _, h4⟩ := collect_sequence cpuEnv sampleFlags branchNet branchBlobs
    freshFs (by decide) (by decide) htop (by decide)
  have h5 : st.saved
      = [⟨"ref/REFFwrd0000.bin", 0, [ofBits 0x3F800000, ofBits 0x40000000], 2⟩,
          ⟨"ref/REFFwrd0001.bin", 1, [ofBits 0x40000000, ofBits 0x40400000], 2⟩,
          ⟨"ref/REFFwrd0002.bin", 2, [ofBits 0x40000000], 1⟩,
          ⟨"ref/REFBwrd0002.bin", 2, [ofBits 0x3F000000, ofBits 0x3F000000], 2⟩,
          ⟨"ref/REFGrad0000.bin", 0, [ofBits 0x3F800000], 1⟩,
          ⟨"ref/REFWght0000.bin", 0, [ofBits 0x40400000], 1⟩] := by
    rw [h2]
    decide
  have hfile : ∀ p, p ∈ collectInfoPath cpuEnv sampleFlags :: st.saved.map (fun c => c.path) →
      ∀ q, q ∈ collectInfoPath cpuEnv sampleFlags :: st.saved.map (fun c => c.path) →
      p ≠ q → freshFs.fileOf p ≠ freshFs.fileOf q := by
    rw [h5]
    decide
  have h6 := h4 (by decide) (by decide) hfile (fun _ => rfl) (fun _ n => Nat.le_refl n)
    ⟨"ref/REFFwrd0001.bin", 1, [ofBits 0x40000000, ofBits 0x40400000], 2⟩
    (by rw [h5]; decide)
  refine ⟨by decide, htop, st, h1, h5, hfile, ?_, ?_⟩
  · rw [h6]
    decide
  · rw [h3, h5]
    decide

/-! ## The info files and the dictionary -/

theorem compareForward_info (env : Env) (flags : Flags) (net : Net) (l : List Nat)
    (st : RunState) :
    (l.foldl (compareForwardStep env flags net) st).info
      = st.info ++ l.flatMap (fun i => compareInfoLine "Fwrd" i (net.layerTypes.getD i "")) :=
  foldl_info _ _ (fun _ _ => rfl) l st

theorem compareBackward_info (env : Env) (flags : Flags) (net : Net) (l : List Nat)
    (st : RunState) :
    (l.foldl (compareBackwardStep env flags net) st).info
      = st.info ++ l.flatMap (fun i => compareInfoLine "Bwrd" i (net.layerTypes.getD i "")) := by
  apply foldl_info
  intro st i
  unfold compareBackwardStep
  cases needsGradient net i <;> rfl

theorem compareParam_info (env : Env) (flags : Flags) (net : Net) (l : List Nat)
    (st : RunState) : (l.foldl (compareParamStep env flags net) st).info = st.info := by
  induction l generalizing st with
  | nil => rfl
  | cons i l ih =>
    rw [List.foldl_cons, ih]
    rfl

theorem compareCapture_info (env : Env) (flags : Flags) (net : Net) (blobs : Blobs)
    (fs : FileSys) :
    (compareCapture env flags net blobs fs).info = infoText compareInfoLine net.layerTypes := by
  show (List.foldl (compareParamStep env flags net) _ (List.range net.params.length)).info = _
  rw [compareParam_info, compareBackward_info, compareForward_info]
  rfl

theorem compareCapture_infoFile (env : Env) (flags : Flags) (net : Net) (blobs : Blobs)
    (fs : FileSys) :
    (compareCapture env flags net blobs fs).fs.content (compareInfoPath env flags)
      = some (bytesOfText (infoText compareInfoLine net.layerTypes)) := by
  have h := compareCapture_info env flags net blobs fs
  show (FileSys.write _ (compareInfoPath env flags) (bytesOfText _)).content _ = _
  rw [content_write_self]
  exact congrArg (fun t => some (bytesOfText t)) h

theorem compare_dictionary_cpu (fmt : DiffRecord → List Byte) (env : Env) (flags : Flags)
    (net : Net) (blobs : Blobs) (fs : FileSys) (hdet : env.DETERMINISTIC = true)
    (hinfo : fs.creatable (compareInfoPath env flags) = true)
    (hwf : wellFormed net = true) (hcpu : env.use_gpu = false) :
    ∃ r, compare fmt env flags net blobs fs = some r ∧
      r.state.saved = (compareCapture env flags net blobs fs).saved ∧
      r.dictionary
        = LayerDictionary.ofText
            (textOfBytes (bytesOfText (infoText compareInfoLine net.layerTypes))) := by
  have hp : compareDictionaryPath flags = compareInfoPath env flags := by
    simp [compareDictionaryPath, compareInfoPath, hcpu]
  unfold compare
  simp only [hdet, hinfo, hwf, Bool.not_true, Bool.or_self, Bool.false_eq_true, if_false]
  refine ⟨_, rfl, rfl, ?_⟩
  show LayerDictionary.load _ _ = _
  unfold LayerDictionary.load
  rw [hp, compareCapture_infoFile]

theorem textOfBytes_bytesOfText (text : List Char) (h : ∀ c, c ∈ text → c.toNat < 256) :
    textOfBytes (bytesOfText text) = text := by
  induction text with
  | nil => rfl
  | cons c text ih =>
    have hc := h c (List.mem_cons_self _ _)
    show Char.ofNat (Fin.ofNat c.toNat : Byte).val :: textOfBytes (bytesOfText text) = c :: text
    rw [ih (fun x hx => h x (List.mem_cons_of_mem _ hx))]
    have hv : (Fin.ofNat c.toNat : Byte).val = c.toNat := Nat.mod_eq_of_lt hc
    rw [hv, Char.ofNat_toNat]

theorem infoText_mem (line : String → Nat → String → List Char) (types : List String)
    (c : Char) (hc : c ∈ infoText line types) :
    ∃ role i, (role = "Fwrd" ∨ role = "Bwrd") ∧ i < types.length ∧
      c ∈ line role i (types.getD i "") := by
  unfold infoText at hc
  rw [List.mem_append, List.mem_flatMap, List.mem_flatMap] at hc
  rcases hc with ⟨i, hi, hc⟩ | ⟨i, hi, hc⟩
  · exact ⟨"Fwrd", i, Or.inl rfl, List.mem_range.1 hi, hc⟩
  · exact ⟨"Bwrd", i, Or.inr rfl, List.mem_range.1 (List.mem_reverse.1 hi), hc⟩

theorem printf04i_byte (j : Nat) (c : Char) (hc : c ∈ printf04i (j : Int)) : c.toNat < 256 := by
  obtain ⟨d, rfl⟩ := printf04i_digits j c hc
  have h := digitChar_toNat d
  have h10 := Nat.mod_lt d (show 0 < 10 by decide)
  omega

theorem role_byte (role : String) (hrole : role = "Fwrd" ∨ role = "Bwrd") (c : Char)
    (hc : c ∈ role.data) : c.toNat < 256 := by
  rcases hrole with rfl | rfl <;>
    (simp only [List.mem_cons, List.mem_singleton, List.not_mem_nil, or_false] at hc
     rcases hc with rfl | rfl | rfl | rfl <;> decide)

theorem infoText_byte (line : String → Nat → String → List Char)
    (hline : line = collectInfoLine ∨ line = compareInfoLine) (types : List String)
    (hbyte : ∀ t, t ∈ types → ∀ c, c ∈ t.data → c.toNat < 256) :
    ∀ c, c ∈ infoText line types → c.toNat < 256 := by
  intro c hc
  obtain ⟨role, i, hrole, hi, hc⟩ := infoText_mem line types c hc
  have ht := hbyte _ (getD_mem hi)
  rcases hline with rfl | rfl
  · simp only [collectInfoLine, List.mem_append, List.mem_cons, List.mem_singleton,
      List.not_mem_nil, or_false] at hc
    rcases hc with (((hc | hc) | (rfl | rfl)) | hc) | rfl
    · exact role_byte role hrole c hc
    · exact printf04i_byte i c hc
    · decide
    · decide
    · exact ht c hc
    · decide
  · simp only [compareInfoLine, List.mem_append, List.mem_cons, List.mem_singleton,
      List.not_mem_nil, or_false] at hc
    rcases hc with (((hc | hc) | rfl) | hc) | rfl
    · exact role_byte role hrole c hc
    · exact printf04i_byte i c hc
    · decide
    · exact ht c hc
    · decide

/-- The label of the key of layer `i` in the dictionary read from the lines
of `compare`. -/
theorem label_compareText (types : List String) (i : Nat) (hi : i < types.length)
    (h9 : i ≤ 9999) (hgood : ∀ t, t ∈ types → Plain t) :
    (LayerDictionary.ofText (infoText compareInfoLine types)).label
        ("Fwrd" ++ ⟨fourDigits i⟩ ++ ".bin") = types.getD i "" := by
  have h10 : i < 10000 := by omega
  have hkF := fun j => fwrdKey_eq_iff h10 j
  have hkB := fun j => bwrdKey_ne i j
  generalize "Fwrd" ++ (⟨fourDigits i⟩ : String) ++ ".bin" = q at hkF hkB ⊢
  rw [label_eq]
  unfold LayerDictionary.ofText
  rw [layersInfo_ofPairs, pairs_infoText types hgood, pairsFor_append,
    pairsFor_map_none q _ _ _ hkB,
    pairsFor_map_unique q _ _ i _ hkF (List.nodup_range _) (List.mem_range.mpr hi)]
  rfl

theorem colonToken_plain (role : String) (hrole : Plain role) (i : Nat) :
    Plain (keyToken role i ++ ":") := by
  have hk := keyToken_plain role hrole i
  refine ⟨?_, ?_⟩
  · intro h
    rw [String.data_append, List.append_eq_nil] at h
    exact hk.1 h.1
  · intro c hc
    rw [String.data_append, List.mem_append] at hc
    rcases hc with hc | hc
    · exact hk.2 c hc
    · have : c = ':' := by simpa using hc
      subst this
      decide

theorem tokens_collectLines (role : String) (hrole : Plain role) (ty : Nat → String)
    (l : List Nat) (hty : ∀ i, i ∈ l → Plain (ty i)) (rest : List Char) :
    splitTokens [] (l.flatMap (fun i => collectInfoLine role i (ty i)) ++ rest)
      = l.flatMap (fun i => [keyToken role i ++ ":", ty i]) ++ splitTokens [] rest := by
  induction l with
  | nil => rfl
  | cons i l ih =>
    have hk := colonToken_plain role hrole i
    have ht := hty i (List.mem_cons_self _ _)
    have hline : (i :: l).flatMap (fun i => collectInfoLine role i (ty i)) ++ rest
        = (keyToken role i ++ ":").data ++ ' ' :: ((ty i).data ++ '\n' ::
            (l.flatMap (fun i => collectInfoLine role i (ty i)) ++ rest)) := by
      simp [collectInfoLine, keyToken]
    rw [hline, splitTokens_line _ _ _ _ _ hk.2 ht.2 hk.1 ht.1 (by decide) (by decide),
      ih (fun j hj => hty j (List.mem_cons_of_mem _ hj))]
    rfl

/-- The pairs `LayerDictionary` reads from the info file of `collect`. -/
theorem pairs_collectText (types : List String) (hgood : ∀ t, t ∈ types → Plain t) :
    tokenPairs (splitTokens [] (infoText collectInfoLine types))
      = (List.range types.length).map (fun i => (keyToken "Fwrd" i ++ ":", types.getD i "")) ++
        (List.range types.length).reverse.map
          (fun i => (keyToken "Bwrd" i ++ ":", types.getD i "")) := by
  have hF : Plain "Fwrd" := ⟨by decide, by decide⟩
  have hB : Plain "Bwrd" := ⟨by decide, by decide⟩
  have hty : ∀ l : List Nat, (∀ i, i ∈ l → i < types.length) →
      ∀ i, i ∈ l → Plain (types.getD i "") :=
    fun l hl i hi => hgood _ (getD_mem (hl i hi))
  have h1 := hty (List.range types.length) (fun i hi => List.mem_range.mp hi)
  have h2 := hty (List.range types.length).reverse
    (fun i hi => List.mem_range.mp (List.mem_reverse.mp hi))
  unfold infoText
  rw [tokens_collectLines "Fwrd" hF (fun i => types.getD i "") _ h1]
  have hb := tokens_collectLines "Bwrd" hB (fun i => types.getD i "") _ h2 []
  rw [List.append_nil] at hb
  rw [hb, tokenPairs_flatMap]
  have ht := tokenPairs_flatMap (fun i => keyToken "Bwrd" i ++ ":") (fun i => types.getD i "")
    (List.range types.length).reverse (splitTokens [] [])
  rw [ht]
  simp [splitTokens, tokenPairs]

theorem colonToken_noNul (role : String) (hrole : ∀ c, c ∈ role.data → c.toNat ≠ 0) (j : Nat) :
    ∀ c, c ∈ (keyToken role j ++ ":").data → c.toNat ≠ 0 := by
  intro c hc
  rw [String.data_append, List.mem_append] at hc
  rcases hc with hc | hc
  · exact keyToken_noNul role hrole j c hc
  · have : c = ':' := by simpa using hc
    subst this
    decide

/-- No key of a line of `collect` is the key of a forward snapshot: it ends
in a colon, where the key of the snapshot ends in a digit. -/
theorem colonKey_ne (role : String) (hrole : ∀ c, c ∈ role.data → c.toNat ≠ 0) (i j : Nat) :
    cstr (keyToken role j ++ ":" ++ ".bin") ≠ "Fwrd" ++ ⟨fourDigits i⟩ ++ ".bin" := by
  rw [cstr_key _ (colonToken_noNul role hrole j)]
  intro h
  have hd := congrArg String.data h
  simp only [String.data_append] at hd
  have h1 := List.append_cancel_right hd
  have h2 := congrArg List.getLast? h1
  have h3 : (':' : Char) = digitChar i := by
    simpa [fourDigits, List.getLast?_append] using h2
  have h4 := congrArg Char.toNat h3
  rw [digitChar_toNat] at h4
  have h10 := Nat.mod_lt i (show 0 < 10 by decide)
  have h5 : (':' : Char).toNat = 58 := by decide
  omega

theorem fwrdColonKey_eq_iff {i : Nat} (hi : i < 10000) (j : Nat) :
    cstr (keyToken "Fwrd" j ++ ":" ++ ".bin") = "Fwrd" ++ ⟨fourDigits i⟩ ++ ":.bin" ↔ j = i := by
  rw [cstr_key _ (colonToken_noNul "Fwrd" (by decide) j)]
  constructor
  · intro h
    have hd := congrArg String.data h
    simp only [String.data_append, keyToken, List.append_assoc] at hd
    have h1 := List.append_cancel_left hd
    have h2 : printf04i (j : Int) ++ ":.bin".data = fourDigits i ++ ":.bin".data := h1
    exact printf04i_eq_fourDigits hi (List.append_cancel_right h2)
  · rintro rfl
    apply String.ext
    simp only [String.data_append, keyToken]
    rw [printf04i_of_small (j : Int) (Int.ofNat_nonneg j) (by omega), Int.toNat_ofNat]
    simp

theorem bwrdColonKey_ne (i j : Nat) :
    cstr (keyToken "Bwrd" j ++ ":" ++ ".bin") ≠ "Fwrd" ++ ⟨fourDigits i⟩ ++ ":.bin" := by
  rw [cstr_key _ (colonToken_noNul "Bwrd" (by decide) j)]
  intro h
  have hd := congrArg String.data h
  simp only [String.data_append, keyToken, List.append_assoc] at hd
  have hh := congrArg List.head? hd
  simp at hh

/-- The labels in the dictionary read from the lines of `collect`: none under
the key of the forward snapshot, the type under that key with a colon. -/
theorem label_collectText (types : List String) (i : Nat) (hi : i < types.length)
    (h9 : i ≤ 9999) (hgood : ∀ t, t ∈ types → Plain t) :
    (LayerDictionary.ofText (infoText collectInfoLine types)).label
        ("Fwrd" ++ ⟨fourDigits i⟩ ++ ".bin") = "" ∧
      (LayerDictionary.ofText (infoText collectInfoLine types)).label
        ("Fwrd" ++ ⟨fourDigits i⟩ ++ ":.bin") = types.getD i "" := by
  have h10 : i < 10000 := by omega
  constructor
  · have hkF := fun j => colonKey_ne "Fwrd" (by decide) i j
    have hkB := fun j => colonKey_ne "Bwrd" (by decide) i j
    generalize "Fwrd" ++ (⟨fourDigits i⟩ : String) ++ ".bin" = q at hkF hkB ⊢
    rw [label_eq]
    unfold LayerDictionary.ofText
    rw [layersInfo_ofPairs, pairs_collectText types hgood, pairsFor_append,
      pairsFor_map_none q _ _ _ hkF, pairsFor_map_none q _ _ _ hkB]
    rfl
  · have hkF := fun j => fwrdColonKey_eq_iff h10 j
    have hkB := fun j => bwrdColonKey_ne i j
    generalize "Fwrd" ++ (⟨fourDigits i⟩ : String) ++ ":.bin" = q at hkF hkB ⊢
    rw [label_eq]
    unfold LayerDictionary.ofText
    rw [layersInfo_ofPairs, pairs_collectText types hgood, pairsFor_append,
      pairsFor_map_none q _ _ _ hkB,
      pairsFor_map_unique q _ _ i _ hkF (List.nodup_range _) (List.mem_range.mpr hi)]
    rfl

theorem load_of_content (fs : FileSys) (path : String) (text : List Char)
    (hbyte : ∀ c, c ∈ text → c.toNat < 256)
    (hc : fs.content path = some (bytesOfText text)) :
    LayerDictionary.load fs path = LayerDictionary.ofText text := by
  unfold LayerDictionary.load
  rw [hc]
  show LayerDictionary.ofText (textOfBytes (bytesOfText text)) = _
  rw [textOfBytes_bytesOfText text hbyte]

/-- Claim C15. A run of `collect` and a run of `compare`, of a tool built
with `DETERMINISTIC`, on a net whose layers each have an output (and an input
where the first input needs a gradient) and whose layer types are tokens (not
empty, no whitespace) of one-byte characters; `i` is a layer position up to
9999. The info file that `collect` leaves holds the lines
`Fwrd<iiii>: <type>`, with a colon after the index, and the dictionary that
`LayerDictionary` builds from it has the empty label for the key
`Fwrd<iiii>.bin` of the forward snapshot of layer `i`; the type of the layer
stands under `Fwrd<iiii>:.bin`, a key that no file has. The info file that
the capture of `compare` leaves holds the lines `Fwrd<iiii> <type>`, and the
dictionary built from it maps `Fwrd<iiii>.bin` to the type of layer `i`; on
the CPU this is the dictionary the run of `compare` labels its report
with. -/
theorem infoFile_collect_key_has_colon (fmt : DiffRecord → List Byte) (env : Env)
    (flags : Flags) (net : Net) (blobs : Blobs) (fs : FileSys)
    (hdet : env.DETERMINISTIC = true)
    (hinfo : fs.creatable (collectInfoPath env flags) = true)
    (hinfo2 : fs.creatable (compareInfoPath env flags) = true)
    (htop : ∀ i, i < net.layerTypes.length → net.top_vecs i ≠ [])
    (hbot : ∀ i, i < net.layerTypes.length →
      (net.bottom_need_backward i).head? = some true → net.bottom_vecs i ≠ [])
    (hgood : ∀ t, t ∈ net.layerTypes → Plain t ∧ ∀ c, c ∈ t.data → c.toNat < 256)
    (i : Nat) (hi : i < net.layerTypes.length) (h9 : i ≤ 9999) :
    (∃ st, collect env flags net blobs fs = some (0, st) ∧
        st.fs.content (collectInfoPath env flags)
          = some (bytesOfText (infoText collectInfoLine net.layerTypes)) ∧
        (LayerDictionary.load st.fs (collectInfoPath env flags)).label
          ("Fwrd" ++ ⟨fourDigits i⟩ ++ ".bin") = "" ∧
        (LayerDictionary.load st.fs (collectInfoPath env flags)).label
          ("Fwrd" ++ ⟨fourDigits i⟩ ++ ":.bin") = net.layerTypes.getD i "") ∧
      (compareCapture env flags net blobs fs).fs.content (compareInfoPath env flags)
        = some (bytesOfText (infoText compareInfoLine net.layerTypes)) ∧
      (LayerDictionary.load (compareCapture env flags net blobs fs).fs
          (compareInfoPath env flags)).label
        ("Fwrd" ++ ⟨fourDigits i⟩ ++ ".bin") = net.layerTypes.getD i "" ∧
      ∃ r, compare fmt env flags net blobs fs = some r ∧
        (env.use_gpu = false →
          r.dictionary.label ("Fwrd" ++ ⟨fourDigits i⟩ ++ ".bin") = net.layerTypes.getD i "") := by
  have hplain : ∀ t, t ∈ net.layerTypes → Plain t := fun t ht => (hgood t ht).1
  have hbyte : ∀ t, t ∈ net.layerTypes → ∀ c, c ∈ t.data → c.toNat < 256 :=
    fun t ht => (hgood t ht).2
  have hwf := wellFormed_of net htop hbot
  obtain ⟨st, hrun, _, hfs⟩ := collect_run env flags net blobs fs hdet hinfo hwf
  have hcontent : st.fs.content (collectInfoPath env flags)
      = some (bytesOfText (infoText collectInfoLine net.layerTypes)) := by
    rw [hfs]
    exact content_write_self _ _ _
  have hload := load_of_content st.fs _ _
    (infoText_byte collectInfoLine (Or.inl rfl) net.layerTypes hbyte) hcontent
  have hcontent2 := compareCapture_infoFile env flags net blobs fs
  have hbyte2 := infoText_byte compareInfoLine (Or.inr rfl) net.layerTypes hbyte
  have hload2 := load_of_content _ _ _ hbyte2 hcontent2
  have hlabel := label_collectText net.layerTypes i hi h9 hplain
  have hlabel2 := label_compareText net.layerTypes i hi h9 hplain
  have hcompare : ∃ r, compare fmt env flags net blobs fs = some r ∧
      (env.use_gpu = false →
        r.dictionary.label ("Fwrd" ++ ⟨fourDigits i⟩ ++ ".bin")
          = net.layerTypes.getD i "") := by
    cases hgpu : env.use_gpu with
    | true =>
      have hsome : ∃ r, compare fmt env flags net blobs fs = some r := by
        unfold compare
        simp only [hdet, hinfo2, hwf, Bool.not_true, Bool.or_self, Bool.false_eq_true,
          if_false]
        exact ⟨_, rfl⟩
      obtain ⟨r, hr⟩ := hsome
      exact ⟨r, hr, fun h => absurd h (by decide)⟩
    | false =>
      obtain ⟨r, hr, _, hdict⟩ := compare_dictionary_cpu fmt env flags net blobs fs hdet
        hinfo2 hwf hgpu
      refine ⟨r, hr, fun _ => ?_⟩
      rw [hdict, textOfBytes_bytesOfText _ hbyte2]
      exact hlabel2
  refine ⟨⟨st, hrun, hcontent, ?_, ?_⟩, hcontent2, ?_, hcompare⟩
  · rw [hload]
    exact hlabel.1
  · rw [hload]
    exact hlabel.2
  · rw [hload2]
    exact hlabel2

/-- Claim C15 on `branchNet`, layer 1, on a file system that holds no file:
`collect` leaves `ref/CPUInfo.txt` with the line `Fwrd0001: Eltwise`, from
which the key `Fwrd0001.bin` gets the empty label; the capture of `compare`
leaves `out/CPUInfo.txt` with the line `Fwrd0001 Eltwise`, from which the key
gets the label `Eltwise`, as it does in the dictionary of the run. -/
theorem infoFile_collect_key_has_colon_witness :
    cpuEnv.DETERMINISTIC = true ∧
      (∃ st, collect cpuEnv sampleFlags branchNet branchBlobs freshFs = some (0, st) ∧
        st.fs.content "ref/CPUInfo.txt"
          = some (bytesOfText ("Fwrd0000: Data\nFwrd0001: Eltwise\nFwrd0002: Loss\n" ++
              "Bwrd0002: Loss\nBwrd0001: Eltwise\nBwrd0000: Data\n").data) ∧
        (LayerDictionary.load st.fs "ref/CPUInfo.txt").label "Fwrd0001.bin" = "" ∧
        (LayerDictionary.load st.fs "ref/CPUInfo.txt").label "Fwrd0001:.bin" = "Eltwise") ∧
      (compareCapture cpuEnv sampleFlags branchNet branchBlobs freshFs).fs.content
          "out/CPUInfo.txt"
        = some (bytesOfText ("Fwrd0000 Data\nFwrd0001 Eltwise\nFwrd0002 Loss\n" ++
            "Bwrd0002 Loss\nBwrd0001 Eltwise\nBwrd0000 Data\n").data) ∧
      (LayerDictionary.load (compareCapture cpuEnv sampleFlags branchNet branchBlobs freshFs).fs
        "out/CPUInfo.txt").label "Fwrd0001.bin" = "Eltwise" ∧
      ∃ r, compare lineBreak cpuEnv sampleFlags branchNet branchBlobs freshFs = some r ∧
        (cpuEnv.use_gpu = false → r.dictionary.label "Fwrd0001.bin" = "Eltwise") :=
  ⟨by decide,
    infoFile_collect_key_has_colon lineBreak cpuEnv sampleFlags branchNet branchBlobs freshFs
      (by decide) (by decide) (by decide) (by decide) (by decide)
      (fun t ht => by
        have : t = "Data" ∨ t = "Eltwise" ∨ t = "Loss" := by simpa [branchNet] using ht
        rcases this with rfl | rfl | rfl <;> exact ⟨⟨by decide, by decide⟩, by decide⟩)
      1 (by decide) (by decide)⟩

/-! ## The forward loop of `compare` -/

theorem setData_self (blobs : Blobs) (t : Nat) (data : List Sample) :
    (setData blobs t data t).data = data ∧ (setData blobs t data t).diff = (blobs t).diff := by
  simp [setData]

theorem setData_other (blobs : Blobs) (t : Nat) (data : List Sample) (j : Nat) (hj : j ≠ t) :
    setData blobs t data j = blobs j := by
  simp [setData, hj]

/-- What `loadFromFile` delivers depends on the file at the path only. -/
theorem loadFromFile_congr (fs fs2 : FileSys) (path : String) (id : Int) (buf : List Sample)
    (count : Nat) (hc : fs2.content path = fs.content path)
    (hd : fs2.directory path = fs.directory path) :
    loadFromFile fs2 path id buf count = loadFromFile fs path id buf count := by
  unfold loadFromFile
  rw [hc, hd]

theorem saveStep_replay (env : Env) (fs0 : FileSys) (st : RunState) (c : SaveCall)
    (h : st.fs = replay env fs0 st.saved) :
    (saveStep env st c).fs = replay env fs0 (saveStep env st c).saved := by
  show (saveToFile env.fwrite st.fs c.path c.id c.data c.count).2
    = replay env fs0 (st.saved ++ [c])
  rw [replay_append, ← h]
  rfl

theorem compareForwardStep_replay (env : Env) (flags : Flags) (net : Net) (fs0 : FileSys)
    (st : RunState) (i : Nat) (h : st.fs = replay env fs0 st.saved) :
    (compareForwardStep env flags net st i).fs
      = replay env fs0 (compareForwardStep env flags net st i).saved :=
  saveStep_replay env fs0
    { st with
      blobs := net.Forward i st.blobs
      info := st.info ++ compareInfoLine "Fwrd" i (net.layerTypes.getD i "") } _ h

theorem compareBackwardStep_replay (env : Env) (flags : Flags) (net : Net) (fs0 : FileSys)
    (st : RunState) (i : Nat) (h : st.fs = replay env fs0 st.saved) :
    (compareBackwardStep env flags net st i).fs
      = replay env fs0 (compareBackwardStep env flags net st i).saved := by
  unfold compareBackwardStep
  cases needsGradient net i
  · exact h
  · exact saveStep_replay env fs0
      { st with
        blobs := net.Backward i st.blobs
        info := st.info ++ compareInfoLine "Bwrd" i (net.layerTypes.getD i "") } _ h

theorem compareParamStep_replay (env : Env) (flags : Flags) (net : Net) (fs0 : FileSys)
    (st : RunState) (p : Nat) (h : st.fs = replay env fs0 st.saved) :
    (compareParamStep env flags net st p).fs
      = replay env fs0 (compareParamStep env flags net st p).saved :=
  saveStep_replay env fs0 _ _ (saveStep_replay env fs0 st _ h)

theorem foldl_replay (env : Env) (fs0 : FileSys) (step : RunState → Nat → RunState)
    (hstep : ∀ st i, st.fs = replay env fs0 st.saved →
      (step st i).fs = replay env fs0 (step st i).saved)
    (l : List Nat) (st : RunState) (h : st.fs = replay env fs0 st.saved) :
    (l.foldl step st).fs = replay env fs0 (l.foldl step st).saved := by
  induction l generalizing st with
  | nil => exact h
  | cons i l ih => exact ih _ (hstep st i h)

/-- The file system at the end of the capture of `compare` is the one its
calls of `saveToFile` leave one after the other, with the info file written
in addition. -/
theorem compareCapture_fs (env : Env) (flags : Flags) (net : Net) (blobs : Blobs)
    (fs : FileSys) :
    (compareCapture env flags net blobs fs).fs
      = (replay env (fs.write (compareInfoPath env flags) [])
          (compareCapture env flags net blobs fs).saved).write (compareInfoPath env flags)
          (bytesOfText (infoText compareInfoLine net.layerTypes)) := by
  have h := foldl_replay env (fs.write (compareInfoPath env flags) [])
    (compareParamStep env flags net)
    (fun st p hst => compareParamStep_replay env flags net _ st p hst)
    (List.range net.params.length) _
    (foldl_replay env (fs.write (compareInfoPath env flags) [])
      (compareBackwardStep env flags net)
      (fun st i hst => compareBackwardStep_replay env flags net _ st i hst)
      (List.range net.layerTypes.length).reverse _
      (foldl_replay env (fs.write (compareInfoPath env flags) [])
        (compareForwardStep env flags net)
        (fun st i hst => compareForwardStep_replay env flags net _ st i hst)
        (List.range net.layerTypes.length)
        ⟨zeroParamDiffs net blobs, fs.write (compareInfoPath env flags) [], [], []⟩ rfl))
  have hi : (List.foldl (compareParamStep env flags net) _ (List.range net.params.length)).info
      = infoText compareInfoLine net.layerTypes := compareCapture_info env flags net blobs fs
  have key : ∀ X : RunState, X.fs = replay env (fs.write (compareInfoPath env flags) []) X.saved →
      X.info = infoText compareInfoLine net.layerTypes →
      FileSys.write X.fs (compareInfoPath env flags) (bytesOfText X.info)
        = (replay env (fs.write (compareInfoPath env flags) []) X.saved).write
            (compareInfoPath env flags)
            (bytesOfText (infoText compareInfoLine net.layerTypes)) := by
    intro X h1 h2
    rw [h2, ← h1]
  have h3 := key _ h hi
  exact h3

theorem foldl_saved_prefix (step : RunState → Nat → RunState)
    (hstep : ∀ st i, ∃ l, (step st i).saved = st.saved ++ l) (l : List Nat) (st : RunState) :
    ∃ rest, (l.foldl step st).saved = st.saved ++ rest := by
  induction l generalizing st with
  | nil => exact ⟨[], (List.append_nil _).symm⟩
  | cons i l ih =>
    obtain ⟨a, ha⟩ := hstep st i
    obtain ⟨b, hb⟩ := ih (step st i)
    exact ⟨a ++ b, by rw [List.foldl_cons, hb, ha, List.append_assoc]⟩

theorem compareBackwardStep_saved (env : Env) (flags : Flags) (net : Net) (st : RunState)
    (i : Nat) : ∃ l, (compareBackwardStep env flags net st i).saved = st.saved ++ l := by
  unfold compareBackwardStep
  cases needsGradient net i
  · exact ⟨[], (List.append_nil _).symm⟩
  · exact ⟨_, rfl⟩

theorem compareParamStep_saved (env : Env) (flags : Flags) (net : Net) (st : RunState)
    (p : Nat) : ∃ l, (compareParamStep env flags net st p).saved = st.saved ++ l :=
  ⟨_, List.append_assoc _ _ _⟩

/-- The forward loop of `compare` after `k` rounds, on a file system `fs0`
that agrees with `fs` on the reference snapshots: the blobs are those of
`referenceFed`, and the calls so far are those of the layers `0 .. k - 1`. -/
theorem compareForward_loop (env : Env) (flags : Flags) (net : Net) (blobs : Blobs)
    (fs fs0 : FileSys) (n : Nat)
    (hfile : fs0.fileOf = fs.fileOf) (hdir : fs0.directory = fs.directory)
    (hcont : ∀ i, i < n → fs0.content (getBinFilePath flags (getFileName false "Fwrd" i))
      = fs.content (getBinFilePath flags (getFileName false "Fwrd" i)))
    (hframe : ∀ i, i < n → ∀ j, j ≤ i →
      fs.fileOf (getBinFilePath flags (getFileName false "Fwrd" i))
        ≠ fs.fileOf (flags.compare_output_dir ++ "/" ++ getFileName true "Fwrd" j))
    (k : Nat) (hk : k ≤ n) :
    ((List.range k).foldl (compareForwardStep env flags net)
        ⟨zeroParamDiffs net blobs, fs0, [], []⟩).blobs = referenceFed flags net fs blobs k ∧
      ((List.range k).foldl (compareForwardStep env flags net)
        ⟨zeroParamDiffs net blobs, fs0, [], []⟩).saved
        = (List.range k).map (fun (i : Nat) =>
          (⟨flags.compare_output_dir ++ "/" ++ getFileName true "Fwrd" i, i,
            (net.Forward i (referenceFed flags net fs blobs i) ((net.top_vecs i).headD 0)).data,
            (net.Forward i (referenceFed flags net fs blobs i)
              ((net.top_vecs i).headD 0)).data.length⟩ : SaveCall)) ∧
      ((List.range k).foldl (compareForwardStep env flags net)
        ⟨zeroParamDiffs net blobs, fs0, [], []⟩).fs.fileOf = fs.fileOf ∧
      ((List.range k).foldl (compareForwardStep env flags net)
        ⟨zeroParamDiffs net blobs, fs0, [], []⟩).fs.directory = fs.directory ∧
      ∀ i, k ≤ i → i < n →
        ((List.range k).foldl (compareForwardStep env flags net)
          ⟨zeroParamDiffs net blobs, fs0, [], []⟩).fs.content
            (getBinFilePath flags (getFileName false "Fwrd" i))
          = fs.content (getBinFilePath flags (getFileName false "Fwrd" i)) := by
  induction k with
  | zero => exact ⟨rfl, rfl, hfile, hdir, fun i _ hi => hcont i hi⟩
  | succ k ih =>
    obtain ⟨hb, hs, hf, hd, hc⟩ := ih (by omega)
    rw [List.range_succ, List.foldl_append, List.map_append]
    generalize (List.range k).foldl (compareForwardStep env flags net)
      ⟨zeroParamDiffs net blobs, fs0, [], []⟩ = st at hb hs hf hd hc ⊢
    have hne : st.fs.fileOf (refPath flags "Fwrd" k) ≠ st.fs.fileOf (tarPath flags "Fwrd" k) := by
      rw [hf]
      exact hframe k (by omega) k (Nat.le_refl k)
    have hload : loadFromFile (saveToFile env.fwrite st.fs (tarPath flags "Fwrd" k) k
          (net.Forward k st.blobs (firstTop net k)).data
          (net.Forward k st.blobs (firstTop net k)).count).2
        (refPath flags "Fwrd" k) k (net.Forward k st.blobs (firstTop net k)).data
        (net.Forward k st.blobs (firstTop net k)).count
        = loadFromFile fs (refPath flags "Fwrd" k) k
            (net.Forward k st.blobs (firstTop net k)).data
            (net.Forward k st.blobs (firstTop net k)).count :=
      loadFromFile_congr fs _ _ _ _ _
        ((saveToFile_other env.fwrite st.fs (tarPath flags "Fwrd" k) k _ _ _ hne).trans
          (hc k (Nat.le_refl k) (by omega)))
        (by rw [saveToFile_directory, hd])
    refine ⟨?_, ?_, ?_, ?_, ?_⟩
    · show setData (net.Forward k st.blobs) (firstTop net k)
        (loadFromFile (saveToFile env.fwrite st.fs (tarPath flags "Fwrd" k) k
            (net.Forward k st.blobs (firstTop net k)).data
            (net.Forward k st.blobs (firstTop net k)).count).2
          (refPath flags "Fwrd" k) k (net.Forward k st.blobs (firstTop net k)).data
          (net.Forward k st.blobs (firstTop net k)).count).2 = _
      rw [hload, hb]
      rfl
    · show st.saved ++ [(⟨tarPath flags "Fwrd" k, k,
          (net.Forward k st.blobs (firstTop net k)).data,
          (net.Forward k st.blobs (firstTop net k)).count⟩ : SaveCall)] = _
      rw [hs, hb]
      rfl
    · show (saveToFile env.fwrite st.fs _ _ _ _).2.fileOf = _
      rw [saveToFile_fileOf, hf]
    · show (saveToFile env.fwrite st.fs _ _ _ _).2.directory = _
      rw [saveToFile_directory, hd]
    · intro i hki hi
      show (saveToFile env.fwrite st.fs (tarPath flags "Fwrd" k) _ _ _).2.content _ = _
      rw [saveToFile_other, hc i (by omega) hi]
      rw [hf]
      exact hframe i hi k (by omega)

/-- The calls of the capture of `compare` begin with those of the forward
loop, made on the blobs of `referenceFed`. -/
theorem compareCapture_saved (env : Env) (flags : Flags) (net : Net) (blobs : Blobs)
    (fs : FileSys)
    (hframe1 : ∀ i, i < net.layerTypes.length → ∀ j, j ≤ i →
      fs.fileOf (getBinFilePath flags (getFileName false "Fwrd" i))
        ≠ fs.fileOf (flags.compare_output_dir ++ "/" ++ getFileName true "Fwrd" j))
    (hframe2 : ∀ i, i < net.layerTypes.length →
      fs.fileOf (getBinFilePath flags (getFileName false "Fwrd" i))
        ≠ fs.fileOf (compareInfoPath env flags)) :
    ∃ rest, (compareCapture env flags net blobs fs).saved
      = (List.range net.layerTypes.length).map (fun (i : Nat) =>
          (⟨flags.compare_output_dir ++ "/" ++ getFileName true "Fwrd" i, i,
            (net.Forward i (referenceFed flags net fs blobs i) ((net.top_vecs i).headD 0)).data,
            (net.Forward i (referenceFed flags net fs blobs i)
              ((net.top_vecs i).headD 0)).data.length⟩ : SaveCall)) ++ rest := by
  obtain ⟨_, hs, _, _, _⟩ := compareForward_loop env flags net blobs fs
    (fs.write (compareInfoPath env flags) []) net.layerTypes.length rfl rfl
    (fun i hi => content_write_other _ _ _ _ (hframe2 i hi)) hframe1
    net.layerTypes.length (Nat.le_refl _)
  obtain ⟨a, ha⟩ := foldl_saved_prefix (compareBackwardStep env flags net)
    (compareBackwardStep_saved env flags net) (List.range net.layerTypes.length).reverse
    ((List.range net.layerTypes.length).foldl (compareForwardStep env flags net)
      ⟨zeroParamDiffs net blobs, fs.write (compareInfoPath env flags) [], [], []⟩)
  obtain ⟨b, hb⟩ := foldl_saved_prefix (compareParamStep env flags net)
    (compareParamStep_saved env flags net) (List.range net.params.length)
    ((List.range net.layerTypes.length).reverse.foldl (compareBackwardStep env flags net)
      ((List.range net.layerTypes.length).foldl (compareForwardStep env flags net)
        ⟨zeroParamDiffs net blobs, fs.write (compareInfoPath env flags) [], [], []⟩))
  refine ⟨a ++ b, ?_⟩
  show (List.foldl (compareParamStep env flags net) _ (List.range net.params.length)).saved = _
  rw [hb, ha, hs, List.append_assoc]

/-- The step of `referenceFed` for layer `i`, in the words of the claim. -/
theorem referenceFed_succ (flags : Flags) (net : Net) (fs : FileSys) (blobs : Blobs) (i : Nat) :
    (∀ bytes, fs.content (getBinFilePath flags (getFileName false "Fwrd" i)) = some bytes →
        (net.Forward i (referenceFed flags net fs blobs i)
          ((net.top_vecs i).headD 0)).data.length * 4 ≤ bytes.length →
        (referenceFed flags net fs blobs (i + 1) ((net.top_vecs i).headD 0)).data
          = (decodeSamples bytes).take (net.Forward i (referenceFed flags net fs blobs i)
              ((net.top_vecs i).headD 0)).data.length) ∧
      (fs.content (getBinFilePath flags (getFileName false "Fwrd" i)) = none →
        (referenceFed flags net fs blobs (i + 1) ((net.top_vecs i).headD 0)).data
          = (net.Forward i (referenceFed flags net fs blobs i) ((net.top_vecs i).headD 0)).data) ∧
      (∀ j, j ≠ (net.top_vecs i).headD 0 →
        referenceFed flags net fs blobs (i + 1) j
          = net.Forward i (referenceFed flags net fs blobs i) j) ∧
      (referenceFed flags net fs blobs (i + 1) ((net.top_vecs i).headD 0)).diff
        = (net.Forward i (referenceFed flags net fs blobs i) ((net.top_vecs i).headD 0)).diff := by
  refine ⟨?_, ?_, ?_, ?_⟩
  · intro bytes hc hlen
    show (setData _ _ _ _).data = _
    rw [(setData_self _ _ _).1, loadFromFile_enough _ _ _ _ _ bytes hc hlen]
    simp
  · intro hc
    show (setData _ _ _ _).data = _
    rw [(setData_self _ _ _).1, loadFromFile_missing _ _ _ _ _ hc]
  · intro j hj
    exact setData_other _ _ _ _ hj
  · exact (setData_self _ _ _).2

/-- Claim C18. A run of `compare` of a tool built with `DETERMINISTIC`, whose
info file can be created, on a net of `N` layers that each have an output
(and an input where the first input needs a gradient), when the reference
snapshot `REFFwrd<i>` of each layer is a file other than the info file and
other than the target snapshots `TARFwrd<j>` written up to then (`j ≤ i`).
The run comes to its end, and its calls of `saveToFile` begin with, for
`i = 0 .. N-1` in this order, the file `TARFwrd<i>` of the output directory
with the values of the first blob of `top_vecs[i]` as the forward step of
layer `i` computed them from the blobs `referenceFed .. i`. These blobs are:
at the start the blobs of the net with the gradients of the parameters
zeroed; after layer `i` the blobs as the forward step of layer `i` left
them, except for the values of the first blob of `top_vecs[i]`, which are
the first samples of `REFFwrd<i>` when that file of the reference directory
holds at least as many samples as the blob, and which stay as computed when
the file is missing. The file system at the end of the capture is the one
the calls of `saveToFile` leave one after the other, with the info file
written in addition. -/
theorem compare_forward_reference (fmt : DiffRecord → List Byte) (env : Env) (flags : Flags)
    (net : Net) (blobs : Blobs) (fs : FileSys) (hdet : env.DETERMINISTIC = true)
    (hinfo : fs.creatable (compareInfoPath env flags) = true)
    (htop : ∀ i, i < net.layerTypes.length → net.top_vecs i ≠ [])
    (hbot : ∀ i, i < net.layerTypes.length →
      (net.bottom_need_backward i).head? = some true → net.bottom_vecs i ≠ [])
    (hframe1 : ∀ i, i < net.layerTypes.length → ∀ j, j ≤ i →
      fs.fileOf (getBinFilePath flags (getFileName false "Fwrd" i))
        ≠ fs.fileOf (flags.compare_output_dir ++ "/" ++ getFileName true "Fwrd" j))
    (hframe2 : ∀ i, i < net.layerTypes.length →
      fs.fileOf (getBinFilePath flags (getFileName false "Fwrd" i))
        ≠ fs.fileOf (compareInfoPath env flags)) :
    ∃ r rest, compare fmt env flags net blobs fs = some r ∧
      r.state.saved
        = (List.range net.layerTypes.length).map (fun (i : Nat) =>
            (⟨flags.compare_output_dir ++ "/" ++ getFileName true "Fwrd" i, i,
              (net.Forward i (referenceFed flags net fs blobs i) ((net.top_vecs i).headD 0)).data,
              (net.Forward i (referenceFed flags net fs blobs i)
                ((net.top_vecs i).headD 0)).data.length⟩ : SaveCall)) ++ rest ∧
      referenceFed flags net fs blobs 0 = zeroParamDiffs net blobs ∧
      (∀ i, i < net.layerTypes.length →
        (∀ bytes, fs.content (getBinFilePath flags (getFileName false "Fwrd" i)) = some bytes →
          (net.Forward i (referenceFed flags net fs blobs i)
            ((net.top_vecs i).headD 0)).data.length * 4 ≤ bytes.length →
          (referenceFed flags net fs blobs (i + 1) ((net.top_vecs i).headD 0)).data
            = (decodeSamples bytes).take (net.Forward i (referenceFed flags net fs blobs i)
                ((net.top_vecs i).headD 0)).data.length) ∧
        (fs.content (getBinFilePath flags (getFileName false "Fwrd" i)) = none →
          (referenceFed flags net fs blobs (i + 1) ((net.top_vecs i).headD 0)).data
            = (net.Forward i (referenceFed flags net fs blobs i)
                ((net.top_vecs i).headD 0)).data) ∧
        (∀ j, j ≠ (net.top_vecs i).headD 0 →
          referenceFed flags net fs blobs (i + 1) j
            = net.Forward i (referenceFed flags net fs blobs i) j) ∧
        (referenceFed flags net fs blobs (i + 1) ((net.top_vecs i).headD 0)).diff
          = (net.Forward i (referenceFed flags net fs blobs i)
              ((net.top_vecs i).headD 0)).diff) ∧
      (compareCapture env flags net blobs fs).saved = r.state.saved ∧
      (compareCapture env flags net blobs fs).fs
        = (replay env (fs.write (compareInfoPath env flags) []) r.state.saved).write
            (compareInfoPath env flags)
            (bytesOfText (infoText compareInfoLine net.layerTypes)) := by
  obtain ⟨rest, hrest⟩ := compareCapture_saved env flags net blobs fs hframe1 hframe2
  have hwf := wellFormed_of net htop hbot
  have hrun : ∃ r, compare fmt env flags net blobs fs = some r ∧
      r.state.saved = (compareCapture env flags net blobs fs).saved := by
    unfold compare
    simp only [hdet, hinfo, hwf, Bool.not_true, Bool.or_self, Bool.false_eq_true, if_false]
    exact ⟨_, rfl, rfl⟩
  obtain ⟨r, hr, hsaved⟩ := hrun
  refine ⟨r, rest, hr, hsaved.trans hrest, rfl,
    fun i _ => referenceFed_succ flags net fs blobs i, hsaved.symm, ?_⟩
  rw [hsaved]
  exact compareCapture_fs env flags net blobs fs

/-- Claim C18 on `branchNet`, with a reference directory in which
`REFFwrd0000.bin` holds `[10.0, 20.0, 30.0]`, `REFFwrd0001.bin` is missing and
`REFFwrd0002.bin` holds `[4.0]`. `TARFwrd0000.bin` receives the `[1.0, 2.0]`
that `Data` computed, and blob 0 then holds `[10.0, 20.0]`; `Eltwise` adds one
to these, so `TARFwrd0001.bin` receives `[11.0, 21.0]`, which blob 2 keeps as
its reference snapshot is missing; `Loss` takes the first of them, so
`TARFwrd0002.bin` receives `[11.0]`. The backward and parameter snapshots
follow, and `out/TARFwrd0001.bin` holds the eight bytes of `[11.0, 21.0]` at
the end of the capture. -/
theorem compare_forward_reference_witness :
    cpuEnv.DETERMINISTIC = true ∧
      (∀ i, i < branchNet.layerTypes.length → ∀ j, j ≤ i →
        branchRefFs.fileOf (getBinFilePath sampleFlags (getFileName false "Fwrd" i))
          ≠ branchRefFs.fileOf
              (sampleFlags.compare_output_dir ++ "/" ++ getFileName true "Fwrd" j)) ∧
      ∃ r, compare lineBreak cpuEnv sampleFlags branchNet branchBlobs branchRefFs = some r ∧
        r.state.saved
          = [⟨"out/TARFwrd0000.bin", 0, [ofBits 0x3F800000, ofBits 0x40000000], 2⟩,
              ⟨"out/TARFwrd0001.bin", 1, [ofBits 0x41300000, ofBits 0x41A80000], 2⟩,
              ⟨"out/TARFwrd0002.bin", 2, [ofBits 0x41300000], 1⟩,
              ⟨"out/TARBwrd0002.bin", 2, [ofBits 0x3F000000, ofBits 0x3F000000], 2⟩,
              ⟨"out/TARGrad0000.bin", 0, [ofBits 0x3F800000], 1⟩,
              ⟨"out/TARWght0000.bin", 0, [ofBits 0x40400000], 1⟩] ∧
        (referenceFed sampleFlags branchNet branchRefFs branchBlobs 1 0).data
          = [ofBits 0x41200000, ofBits 0x41A00000] ∧
        (referenceFed sampleFlags branchNet branchRefFs branchBlobs 2 2).data
          = [ofBits 0x41300000, ofBits 0x41A80000] ∧
        (referenceFed sampleFlags branchNet branchRefFs branchBlobs 3 4).data
          = [ofBits 0x40800000] ∧
        (compareCapture cpuEnv sampleFlags branchNet branchBlobs branchRefFs).fs.content
          "./out/TARFwrd0001.bin" = some [0, 0, 48, 65, 0, 0, 168, 65] := by
  have hframe1 : ∀ i, i < branchNet.layerTypes.length → ∀ j, j ≤ i →
      branchRefFs.fileOf (getBinFilePath sampleFlags (getFileName false "Fwrd" i))
        ≠ branchRefFs.fileOf
            (sampleFlags.compare_output_dir ++ "/" ++ getFileName true "Fwrd" j) := by
    decide
  obtain ⟨r, rest, h1, h2, _, _, h5, h6⟩ := compare_forward_reference lineBreak cpuEnv
    sampleFlags branchNet branchBlobs branchRefFs (by decide) (by decide) (by decide)
    (by decide) hframe1 (by decide)
  have hs : (compareCapture cpuEnv sampleFlags branchNet branchBlobs branchRefFs).saved
      = [⟨"out/TARFwrd0000.bin", 0, [ofBits 0x3F800000, ofBits 0x40000000], 2⟩,
          ⟨"out/TARFwrd0001.bin", 1, [ofBits 0x41300000, ofBits 0x41A80000], 2⟩,
          ⟨"out/TARFwrd0002.bin", 2, [ofBits 0x41300000], 1⟩,
          ⟨"out/TARBwrd0002.bin", 2, [ofBits 0x3F000000, ofBits 0x3F000000], 2⟩,
          ⟨"out/TARGrad0000.bin", 0, [ofBits 0x3F800000], 1⟩,
          ⟨"out/TARWght0000.bin", 0, [ofBits 0x40400000], 1⟩] := by
    decide
  refine ⟨by decide, hframe1, r, h1, h5.symm.trans hs, by decide, by decide, by decide, ?_⟩
  rw [h6, ← h5, hs]
  decide

/-! ## The dictionary of a comparison run -/

/-- Claim C20, the divergence. A comparison run on `sampleNet` after a
`collect` run on the CPU: on the CPU the run writes `out/CPUInfo.txt` and the
report lines of the forward and backward snapshots carry the layer types; on
a GPU the run writes the same lines to `out/GPUInfo.txt`, but the dictionary
is loaded from `out/CPUInfo.txt`, which this run has not written and which
does not exist, so every report line carries the empty label. -/
theorem compare_gpu_dictionary_not_from_own_info :
    (compareInfoPath cpuEnv sampleFlags = "out/CPUInfo.txt" ∧
      compareInfoPath gpuEnv sampleFlags = "out/GPUInfo.txt" ∧
      compareDictionaryPath sampleFlags = "out/CPUInfo.txt") ∧
    ((compare lineBreak cpuEnv sampleFlags sampleNet sampleBlobs sampleRefFs).map fun r =>
        (r.state.fs.content "./out/CPUInfo.txt", r.log))
      = some (some (bytesOfText
            "Fwrd0000 Data\nFwrd0001 Scale\nBwrd0001 Scale\nBwrd0000 Data\n".data),
          [.success "Bwrd0001.bin" "Scale", .success "Fwrd0000.bin" "Data",
            .success "Fwrd0001.bin" "Scale", .success "Grad0000.bin" "",
            .success "Wght0000.bin" ""]) ∧
    ((compare lineBreak gpuEnv sampleFlags sampleNet sampleBlobs sampleRefFs).map fun r =>
        (r.state.fs.content "./out/GPUInfo.txt", r.state.fs.content "./out/CPUInfo.txt"))
      = some (some (bytesOfText
            "Fwrd0000 Data\nFwrd0001 Scale\nBwrd0001 Scale\nBwrd0000 Data\n".data), none) ∧
    ((compare lineBreak gpuEnv sampleFlags sampleNet sampleBlobs sampleRefFs).map fun r => r.log)
      = some [.success "Bwrd0001.bin" "", .success "Fwrd0000.bin" "",
          .success "Fwrd0001.bin" "", .success "Grad0000.bin" "",
          .success "Wght0000.bin" ""] := by
  refine ⟨by decide, ?_, ?_, ?_⟩ <;> decide

end Caffe
